import Mathlib

/-!
Verification development for the noiseCryptCloud (ncc) codec pipeline.

The Go sources are shallowly embedded as executable Lean definitions:

- machine integers are modelled by UInt8 / UInt16 / UInt32 where the Go code
  uses byte / uint16 / uint32, by ℤ with Int.tdiv (truncated division, the
  Go semantics of / on int) where the Go code uses int, and by ℕ for loop
  counters and slice lengths that are provably non-negative;
- byte slices are List UInt8;
- fallible functions return Except DecodeErr or Option;
- for-loops become List.range folds or structural recursion;
- the accumulating uint32 pixel sums of the decoder are modelled in ℕ; the
  summed regions hold at most 30720 pixels of value at most 255, so the Go
  uint32 accumulator never wraps and the ℕ model is exact.

Definitions follow the Go sources function by function and keep the source
names.  Definitions that model code outside this repository (the
klauspost/reedsolomon library) carry a doc comment starting with
Modelled from the spec.
-/

set_option linter.unusedVariables false

namespace NCC

/-- Sum of f over 0, 1, ..., n-1, as a plain recursion (executable model of a
Go for-loop accumulating into an integer). -/
def sumRange (f : ℕ → ℕ) : ℕ → ℕ
  | 0 => 0
  | n + 1 => sumRange f n + f n

theorem sumRange_eq_finset_sum (f : ℕ → ℕ) (n : ℕ) :
    sumRange f n = ∑ i ∈ Finset.range n, f i := by
  induction n with
  | zero => simp [sumRange]
  | succ n ih => rw [sumRange, Finset.sum_range_succ, ih]

/-- Big-endian recombination of two bytes into a uint16
(binary.BigEndian semantics). -/
def beU16 (b0 b1 : UInt8) : UInt16 :=
  (b0.toUInt16 <<< 8) ||| b1.toUInt16

/-- Big-endian recombination of four bytes into a uint32. -/
def beU32 (b0 b1 b2 b3 : UInt8) : UInt32 :=
  (b0.toUInt32 <<< 24) ||| (b1.toUInt32 <<< 16) ||| (b2.toUInt32 <<< 8) ||| b3.toUInt32

/-- Big-endian byte serialization of a uint16 (binary.Write semantics). -/
def beBytes16 (v : UInt16) : List UInt8 :=
  [(v >>> 8).toUInt8, v.toUInt8]

/-- Big-endian byte serialization of a uint32. -/
def beBytes32 (v : UInt32) : List UInt8 :=
  [(v >>> 24).toUInt8, (v >>> 16).toUInt8, (v >>> 8).toUInt8, v.toUInt8]

/-- Big-endian byte serialization of a uint64. -/
def beBytes64 (v : UInt64) : List UInt8 :=
  [(v >>> 56).toUInt8, (v >>> 48).toUInt8, (v >>> 40).toUInt8, (v >>> 32).toUInt8,
   (v >>> 24).toUInt8, (v >>> 16).toUInt8, (v >>> 8).toUInt8, v.toUInt8]

/-- One step of the reflected CRC-32 (IEEE polynomial 0xEDB88320) over one
message byte, as computed by hash/crc32 ChecksumIEEE. -/
def crc32Byte (c : UInt32) (b : UInt8) : UInt32 :=
  let c := c ^^^ b.toUInt32
  (List.range 8).foldl
    (fun acc _ => if acc &&& 1 == 1 then (acc >>> 1) ^^^ 0xEDB88320 else acc >>> 1) c

/-- CRC-32/IEEE checksum of a byte sequence (crc32.ChecksumIEEE). -/
def crc32 (data : List UInt8) : UInt32 :=
  (data.foldl crc32Byte 0xFFFFFFFF) ^^^ 0xFFFFFFFF

/-! ## Encoder data model: internal/encoder -/

/-- Structural constants of framer.go. -/
def FrameHeaderSizeBytes : ℕ := 18

/-- Size of the global header that frame 0 carries in its data region. -/
def GlobalHeaderSizeBytes : ℕ := 20

/-- Height in pixels of the calibration bar at the top of every frame. -/
def CalibrationBarHeight : ℕ := 16

/-- ECC configuration: counts of Reed-Solomon data and parity shards.
The Go fields are int; every constructor in the sources uses positive
values, so the counts are modelled as ℕ. -/
structure ECCConfig where
  DataShards : ℕ
  ParityShards : ℕ
  deriving DecidableEq, Repr

/-- NewECCConfig from the ecc source file: maps a redundancy level to the
shard counts.  Any string other than low and high falls to the default
(medium) branch, as in the Go switch. -/
def NewECCConfig (level : String) : ECCConfig :=
  if level = ("low") then ⟨16, 4⟩
  else if level = ("high") then ⟨16, 32⟩
  else ⟨16, 8⟩

/-- FrameConfig from framer.go.  The Go fields are int, modelled as ℤ so
that the capacity arithmetic keeps the Go truncated-division semantics. -/
structure FrameConfig where
  Width : ℤ
  Height : ℤ
  MacroSize : ℤ
  FPS : ℤ
  CalibrationHeight : ℤ
  GrayLevels : ℤ
  deriving DecidableEq, Repr

/-- Default preset: 1280x720, macro pixels of 16, binary mode. -/
def DefaultFrameConfig : FrameConfig :=
  ⟨1280, 720, 16, 30, 16, 2⟩

/-- YouTube preset: 1920x1080, macro pixels of 24, binary mode. -/
def YouTubeFrameConfig : FrameConfig :=
  ⟨1920, 1080, 24, 15, 16, 2⟩

/-- High-density preset: 1280x720, macro pixels of 10, four-level mode. -/
def HighDensityFrameConfig : FrameConfig :=
  ⟨1280, 720, 10, 30, 16, 4⟩

/-- GridSize: columns and rows of the macro-pixel grid.  Go / on int is
truncated division, Int.tdiv. -/
def FrameConfig.GridSize (fc : FrameConfig) : ℤ × ℤ :=
  (fc.Width.tdiv fc.MacroSize, (fc.Height - fc.CalibrationHeight).tdiv fc.MacroSize)

/-- CapacityPerFrame from framer.go: usable data bytes per frame for a
frame configuration, ECC configuration and first-frame flag. -/
def FrameConfig.CapacityPerFrame (fc : FrameConfig) (eccCfg : ECCConfig)
    (isFirstFrame : Bool) : ℤ :=
  let cols := (fc.GridSize).1
  let rows := (fc.GridSize).2
  let totalMacros := cols * rows
  let bytesInFrame : ℤ :=
    if fc.GrayLevels = 2 then totalMacros.tdiv 8 else totalMacros.tdiv 4
  let availableForECC := bytesInFrame - (FrameHeaderSizeBytes : ℤ)
  let totalShards : ℤ := (eccCfg.DataShards : ℤ) + (eccCfg.ParityShards : ℤ)
  let maxShardSize := availableForECC.tdiv totalShards
  let dataCapacity := maxShardSize * (eccCfg.DataShards : ℤ)
  let dataCapacity :=
    if isFirstFrame then dataCapacity - (GlobalHeaderSizeBytes : ℤ) else dataCapacity
  let dataCapacity := dataCapacity - 10
  if dataCapacity < 0 then 0 else dataCapacity

/-- Capacity formula as the specification states it (claim C3): floor
divisions throughout, a subtraction of 20 only on the first frame, a
safety margin of 10, clamped at zero. -/
def specCapacityPerFrame (fc : FrameConfig) (eccCfg : ECCConfig)
    (isFirstFrame : Bool) : ℤ :=
  let cols := fc.Width.fdiv fc.MacroSize
  let rows := (fc.Height - fc.CalibrationHeight).fdiv fc.MacroSize
  let totalMacros := cols * rows
  let bytesPerFrame : ℤ :=
    if fc.GrayLevels = 2 then totalMacros.fdiv 8 else totalMacros.fdiv 4
  let k : ℤ := (eccCfg.DataShards : ℤ)
  let m : ℤ := (eccCfg.ParityShards : ℤ)
  max 0 (((bytesPerFrame - 18).fdiv (k + m)) * k -
    (if isFirstFrame then 20 else 0) - 10)

/-! ## Headers: GlobalHeader and FrameHeader (framer.go) -/

/-- Error values of the embedded pipeline.  The Go code returns wrapped
fmt.Errorf values; only the success/failure distinction and the failing
stage matter to the claims, so errors are modelled by this enumeration.
The constructor slicePanic is reserved for Go runtime panics: an uncaught
panic aborts the whole process instead of returning an error value, so no
ordinary error return path is ever modelled by slicePanic. -/
inductive DecodeErr where
  | insufficientHeader
  | insufficientGlobal
  | headerSizeMismatch
  | shortData
  | frameTooSmall
  | invalidMagic
  | joinFailed
  | dataTooLarge
  | workerError
  | missingFrame
  | slicePanic
  deriving DecidableEq, Repr

/-- GlobalHeader: file metadata carried in frame 0.  Reserved is 8 zero
bytes in every header the encoder builds. -/
structure GlobalHeader where
  OriginalSize : UInt64
  TotalFrames : UInt32
  Reserved : List UInt8
  deriving DecidableEq, Repr

/-- Big-endian recombination of eight bytes into a uint64. -/
def beU64 (b0 b1 b2 b3 b4 b5 b6 b7 : UInt8) : UInt64 :=
  (b0.toUInt64 <<< 56) ||| (b1.toUInt64 <<< 48) ||| (b2.toUInt64 <<< 40) |||
  (b3.toUInt64 <<< 32) ||| (b4.toUInt64 <<< 24) ||| (b5.toUInt64 <<< 16) |||
  (b6.toUInt64 <<< 8) ||| b7.toUInt64

/-- GlobalHeader.Encode: OriginalSize, TotalFrames, Reserved, big-endian. -/
def GlobalHeader.Encode (gh : GlobalHeader) : List UInt8 :=
  beBytes64 gh.OriginalSize ++ beBytes32 gh.TotalFrames ++ gh.Reserved

/-- DecodeGlobalHeader: fails on fewer than 20 bytes, otherwise reads the
three fields. -/
def DecodeGlobalHeader (data : List UInt8) : Except DecodeErr GlobalHeader :=
  if data.length < GlobalHeaderSizeBytes then .error .insufficientGlobal
  else
    match data with
    | b0 :: b1 :: b2 :: b3 :: b4 :: b5 :: b6 :: b7 :: t0 :: t1 :: t2 :: t3 :: rest =>
      .ok ⟨beU64 b0 b1 b2 b3 b4 b5 b6 b7, beU32 t0 t1 t2 t3, rest.take 8⟩
    | _ => .error .insufficientGlobal

/-- FrameHeader from framer.go.  Magic is the 4-byte array; GlobalMeta is
the in-memory companion field filled by the decoder for frame 0. -/
structure FrameHeader where
  Magic : List UInt8
  FrameIndex : UInt32
  DataSize : UInt16
  DataCRC : UInt32
  HasGlobal : UInt8
  ParityShards : UInt8
  GlobalOffset : UInt16
  GlobalMeta : GlobalHeader
  deriving DecidableEq, Repr

/-- The literal frame magic N C C 1. -/
def magicNCC1 : List UInt8 := [78, 67, 67, 49]

/-- FrameHeader.Encode: field-by-field big-endian serialization, checked
to be exactly 18 bytes as in the Go code. -/
def FrameHeader.Encode (fh : FrameHeader) : Except DecodeErr (List UInt8) :=
  let buf := fh.Magic ++ beBytes32 fh.FrameIndex ++ beBytes16 fh.DataSize ++
    beBytes32 fh.DataCRC ++ [fh.HasGlobal] ++ [fh.ParityShards] ++
    beBytes16 fh.GlobalOffset
  if buf.length ≠ FrameHeaderSizeBytes then .error .headerSizeMismatch else .ok buf

/-- Sequential byte reader modelling bytes.Reader: reading n bytes
succeeds only when n bytes remain. -/
structure ByteReader where
  data : List UInt8
  pos : ℕ

/-- Read n bytes from the reader, or fail when fewer remain
(binary.Read and Read both fail there in DecodeHeader). -/
def ByteReader.readN (r : ByteReader) (n : ℕ) : Option (List UInt8 × ByteReader) :=
  if r.pos + n ≤ r.data.length then
    some ((r.data.drop r.pos).take n, ⟨r.data, r.pos + n⟩)
  else none

/-- Field-by-field body of DecodeHeader, after the length precheck. -/
def decodeHeaderFields (r : ByteReader) : Option FrameHeader := do
  let (m, r) ← r.readN 4
  let (fi, r) ← r.readN 4
  let (ds, r) ← r.readN 2
  let (crc, r) ← r.readN 4
  let (hg, r) ← r.readN 1
  let (ps, r) ← r.readN 1
  let (go, _) ← r.readN 2
  match fi, ds, crc, hg, ps, go with
  | [a0, a1, a2, a3], [d0, d1], [c0, c1, c2, c3], [h0], [p0], [g0, g1] =>
    some ⟨m, beU32 a0 a1 a2 a3, beU16 d0 d1, beU32 c0 c1 c2 c3, h0, p0,
      beU16 g0 g1, ⟨0, 0, List.replicate 8 0⟩⟩
  | _, _, _, _, _, _ => none

/-- DecodeHeader from framer.go: rejects inputs shorter than 18 bytes and
otherwise reads every field; the magic bytes are not inspected. -/
def DecodeHeader (data : List UInt8) : Except DecodeErr FrameHeader :=
  if data.length < FrameHeaderSizeBytes then .error .insufficientHeader
  else
    match decodeHeaderFields ⟨data, 0⟩ with
    | some fh => .ok fh
    | none => .error .insufficientHeader

/-- NewFrame from framer.go: builds the frame header and the data region
for one frame.  Frame 0 prepends a GlobalHeader with obfuscated
OriginalSize = 0.  Casts follow the Go conversions uint32/uint16/uint8. -/
def NewFrame (ecc : ECCConfig) (index : ℕ) (data : List UInt8)
    (totalFrames : ℕ) : FrameHeader × List UInt8 :=
  let base : FrameHeader :=
    ⟨magicNCC1, UInt32.ofNat index, 0, 0, 0, UInt8.ofNat ecc.ParityShards, 0,
      ⟨0, 0, List.replicate 8 0⟩⟩
  if index = 0 then
    let gh : GlobalHeader := ⟨0, UInt32.ofNat totalFrames, List.replicate 8 0⟩
    let frameData := gh.Encode ++ data
    ({ base with
        HasGlobal := 1
        GlobalOffset := UInt16.ofNat FrameHeaderSizeBytes
        DataSize := UInt16.ofNat frameData.length
        DataCRC := crc32 frameData },
      frameData)
  else
    ({ base with DataSize := UInt16.ofNat data.length, DataCRC := crc32 data }, data)

/-! ## Reed-Solomon codec model

Modelled from the spec: the klauspost/reedsolomon dependency is not part of
this repository.  Per spec section 4.B the codec is systematic: Split pads
the buffer with zeros to a multiple of k and slices it into k equal shards,
Encode fills m parity shards from the data shards, Verify checks parity
consistency, Reconstruct rebuilds missing shards (no shard is ever missing
in the embedded decode path, where it is the identity), and Join
concatenates the first k shards truncated to outSize.  The parity content
is abstracted as a bytewise XOR of the data shards, one admissible
systematic parity; no claim depends on the algebra of the parity bytes. -/

/-- Shard size used by Split: ceil(len / k). -/
def rsShardSize (k : ℕ) (len : ℕ) : ℕ := (len + k - 1) / k

/-- Split: zero-pad to k equal shards of size ceil(len / k). -/
def rsSplit (k : ℕ) (data : List UInt8) : List (List UInt8) :=
  let per := rsShardSize k data.length
  let padded := data ++ List.replicate (k * per - data.length) 0
  (List.range k).map fun i => (padded.drop (i * per)).take per

/-- Bytewise XOR of two equal-length shards. -/
def xorBytes (a b : List UInt8) : List UInt8 := List.zipWith (· ^^^ ·) a b

/-- Parity shards of the model codec: m copies of the XOR of the data
shards (each of length per). -/
def rsParityShards (m : ℕ) (per : ℕ) (dataShards : List (List UInt8)) :
    List (List UInt8) :=
  List.replicate m (dataShards.foldl xorBytes (List.replicate per 0))

/-- ECCEncoder.Encode: Split then Encode; fails on an empty buffer as the
library does (ErrShortData). -/
def ECCEncoder.Encode (cfg : ECCConfig) (data : List UInt8) :
    Except DecodeErr (List (List UInt8)) :=
  if data.length = 0 then .error .shortData
  else
    let per := rsShardSize cfg.DataShards data.length
    let dataShards := rsSplit cfg.DataShards data
    .ok (dataShards ++ rsParityShards cfg.ParityShards per dataShards)

/-- ECCEncoder.Verify: parity shards match the parity recomputed from the
data shards. -/
def ECCEncoder.Verify (cfg : ECCConfig) (shards : List (List UInt8)) : Bool :=
  let per := (shards.headD []).length
  shards.drop cfg.DataShards = rsParityShards cfg.ParityShards per (shards.take cfg.DataShards)

/-- ECCEncoder.Reconstruct: rebuilds missing shards; the embedded decoder
never passes a missing (nil) shard, so it is the identity here. -/
def ECCEncoder.Reconstruct (shards : List (List UInt8)) : List (List UInt8) :=
  shards

/-- ECCEncoder.Join: concatenate the first k shards and truncate to
outSize; fails when fewer than outSize bytes are available. -/
def ECCEncoder.Join (cfg : ECCConfig) (shards : List (List UInt8))
    (outSize : ℕ) : Except DecodeErr (List UInt8) :=
  let joined := (shards.take cfg.DataShards).flatten
  if joined.length < outSize then .error .shortData
  else .ok (joined.take outSize)

/-! ## Macro-pixel modulation (macro_pixel.go) -/

/-- The four gray levels of 2-bit mode. -/
def grayLevels : List UInt8 := [32, 96, 160, 224]

/-- The two gray levels of binary mode. -/
def binaryLevels : List UInt8 := [32, 224]

/-- NibbleToGray: clamp to 3 and index the level table. -/
def NibbleToGray (bits : UInt8) : UInt8 :=
  let bits := if bits > 3 then 3 else bits
  grayLevels.getD bits.toNat 0

/-- BitToGray: clamp to 1 and index the binary level table. -/
def BitToGray (bit : UInt8) : UInt8 :=
  let bit := if bit > 1 then 1 else bit
  binaryLevels.getD bit.toNat 0

/-- ByteToGray of a macro pixel: binary mode masks one bit, 4-level mode
masks two bits. -/
def ByteToGray (isBinary : Bool) (v : UInt8) : UInt8 :=
  if isBinary then BitToGray (v &&& 1) else NibbleToGray (v &&& 3)

/-- DynGrayToNibble: quantize a gray value by three thresholds.  Gray and
thresholds are uint8 in Go; both sides of each comparison are values in
[0, 255], modelled in ℕ. -/
def DynGrayToNibble (gray : ℕ) (thresholds : ℕ × ℕ × ℕ) : UInt8 :=
  if gray < thresholds.1 then 0
  else if gray < thresholds.2.1 then 1
  else if gray < thresholds.2.2 then 2
  else 3

/-! ## Frame rendering (framer.go Render, video encoder drawing) -/

/-- Columns of the grid as a ℕ (the presets make GridSize non-negative). -/
def FrameConfig.colsNat (fc : FrameConfig) : ℕ := (fc.GridSize).1.toNat

/-- Rows of the grid as a ℕ. -/
def FrameConfig.rowsNat (fc : FrameConfig) : ℕ := (fc.GridSize).2.toNat

/-- Total number of macro pixels in the grid. -/
def FrameConfig.totalMacrosNat (fc : FrameConfig) : ℕ := fc.colsNat * fc.rowsNat

/-- Bytes that fit in one frame grid: totalMacros/8 in binary mode,
totalMacros/4 in 4-level mode. -/
def FrameConfig.maxBytesNat (fc : FrameConfig) : ℕ :=
  if fc.GrayLevels = 2 then fc.totalMacrosNat / 8 else fc.totalMacrosNat / 4

/-- Frame.Render, byte stage: ECC-encode the data region, prepend the
encoded header, pad with bytes drawn from the padding oracle (the Go code
uses crypto/rand here, so the content is arbitrary), and check the frame
bound.  Returns the full byte image of the frame grid. -/
def RenderBytes (cfg : FrameConfig) (ecc : ECCConfig) (fh : FrameHeader)
    (frameData : List UInt8) (padd : ℕ → UInt8) : Except DecodeErr (List UInt8) := do
  let shards ← ECCEncoder.Encode ecc frameData
  let headerBytes ← fh.Encode
  let allBytes := headerBytes ++ shards.flatten
  let maxBytes := cfg.maxBytesNat
  let allBytes :=
    if allBytes.length < maxBytes then
      allBytes ++ (List.range (maxBytes - allBytes.length)).map padd
    else allBytes
  if allBytes.length > maxBytes then .error .dataTooLarge
  else .ok allBytes

/-- Value of grid cell i as rendered by the Render loop: bit (7 - i mod 8)
of byte i/8 in binary mode, the pair of bits (high pair first) of byte i/4
in 4-level mode.  Cells whose byte index falls outside allBytes are never
assigned by the loop and keep the content of the pooled buffer, modelled
by the stale oracle (for every preset 8 or 4 divides totalMacros exactly,
so no such cell exists there). -/
def renderCellValue (cfg : FrameConfig) (allBytes : List UInt8)
    (stale : ℕ → UInt8) (i : ℕ) : UInt8 :=
  let pixelsPerByte : ℕ := if cfg.GrayLevels = 2 then 8 else 4
  let byteIdx := i / pixelsPerByte
  if byteIdx < allBytes.length then
    let b := allBytes.getD byteIdx 0
    if cfg.GrayLevels = 2 then (b >>> UInt8.ofNat (7 - i % 8)) &&& 1
    else (b >>> UInt8.ofNat (6 - (i % 4) * 2)) &&& 3
  else stale i

/-- An extracted video frame as the decoder sees it: dimensions plus the
luminance of each pixel (the Go code reads the red channel of RGBA and
shifts it to 8 bits; the encoder writes R=G=B). -/
structure Image where
  width : ℕ
  height : ℕ
  atPx : ℕ → ℕ → ℕ

/-- renderCalibrationBar, per pixel column: sections black, white, black,
white of width Width/4. -/
def calibrationBarValue (width : ℕ) (x : ℕ) : ℕ :=
  let sectionWidth := width / 4
  let val : ℕ := 0
  let val := if x ≥ sectionWidth ∧ x < sectionWidth * 2 then 255 else val
  let val := if x ≥ sectionWidth * 3 then 255 else val
  val

/-- The raster written to the muxer pipe for one frame: the calibration
bar occupies the top CalibrationBarHeight rows; every grid cell is filled
with its gray level (drawFrameToBuffer copies the cell gray to the
MacroSize x MacroSize block at offset (X, Y+CalibrationBarHeight));
pixels covered by no cell keep the zero value of the fresh RGBA buffer. -/
def encodeFrameImage (cfg : FrameConfig) (allBytes : List UInt8)
    (stale : ℕ → UInt8) : Image :=
  let ms := cfg.MacroSize.toNat
  let w := cfg.Width.toNat
  { width := w
    height := cfg.Height.toNat
    atPx := fun x y =>
      if y < CalibrationBarHeight then calibrationBarValue w x
      else
        let cx := x / ms
        let cy := (y - CalibrationBarHeight) / ms
        if cx < cfg.colsNat ∧ cy < cfg.rowsNat then
          (ByteToGray (cfg.GrayLevels = 2)
            (renderCellValue cfg allBytes stale (cy * cfg.colsNat + cx))).toNat
        else 0 }

/-! ## EncodeFile: chunking, frame count, rendered frame sequence -/

/-- Data slice handed to the worker for frame i (EncodeFile job loop). -/
def frameChunk (data : List UInt8) (cap0 capN : ℕ) (i : ℕ) : List UInt8 :=
  if i = 0 then data.take cap0
  else
    let start := cap0 + (i - 1) * capN
    if start ≥ data.length then [] else (data.drop start).take capN

/-- Number of frames computed by EncodeFile: one frame plus a ceiling
division of whatever does not fit into frame 0. -/
def totalFramesFor (len cap0 capN : ℕ) : ℕ :=
  let remaining := if len > cap0 then len - cap0 else 0
  if remaining > 0 then 1 + (remaining + capN - 1) / capN else 1

/-- Frame count as the specification states it (claim C4):
1 + ceil(max(0, len - cap0) / capN). -/
def specTotalFrames (len cap0 capN : ℕ) : ℕ :=
  1 + (max 0 (len - cap0) + capN - 1) / capN

/-- Fail-fast effectful map over a list (the loop shape shared by the job
dispatcher and the assembly loop): the first error aborts. -/
def mapExcept {α β : Type} (f : α → Except DecodeErr β) :
    List α → Except DecodeErr (List β)
  | [] => .ok []
  | a :: l =>
    match f a with
    | .error e => .error e
    | .ok b =>
      match mapExcept f l with
      | .error e => .error e
      | .ok bs => .ok (b :: bs)

/-- Whole-file encoder model: the sequence of frame rasters EncodeFile
pipes to the muxer, in frame order.  padd and stale are the per-frame
randomness oracles for padding bytes and pooled-buffer remnants. -/
def encodeFrames (cfg : FrameConfig) (ecc : ECCConfig) (data : List UInt8)
    (padd : ℕ → ℕ → UInt8) (stale : ℕ → ℕ → UInt8) :
    Except DecodeErr (List Image) :=
  let cap0 := (cfg.CapacityPerFrame ecc true).toNat
  let capN := (cfg.CapacityPerFrame ecc false).toNat
  let tf := totalFramesFor data.length cap0 capN
  mapExcept (fun i =>
    let fd := frameChunk data cap0 capN i
    let (fh, frameData) := NewFrame ecc i fd tf
    (RenderBytes cfg ecc fh frameData (padd i)).map fun allBytes =>
      encodeFrameImage cfg allBytes (stale i)) (List.range tf)

/-! ## Result collector of the parallel encoder (EncodeFile collect loop)

The worker pool delivers per-frame results in a non-deterministic order;
the collector stores each arrival in the pending map and repeatedly writes
and removes the entry for nextFrameIndex while it is present.  The map is
modelled as an association list where insertion prepends and lookup takes
the most recent binding, which matches Go map assignment. -/

/-- Inner for-loop of the collector: write every consecutive ready frame
starting at next.  Returns the remaining pending entries, the new next
index and the newly written frames in write order. -/
def drainReady {α : Type} (pending : List (ℕ × α)) (next : ℕ) :
    List (ℕ × α) × ℕ × List (ℕ × α) :=
  match h : pending.find? (fun p => p.1 == next) with
  | none => (pending, next, [])
  | some kv =>
    let rest := pending.eraseP (fun p => p.1 == next)
    let (p, n, ws) := drainReady rest (next + 1)
    (p, n, (next, kv.2) :: ws)
termination_by pending.length
decreasing_by
  have hm := List.mem_of_find?_eq_some h
  have hp := List.find?_some h
  have hany : pending.any (fun p => p.1 == next) = true :=
    List.any_eq_true.mpr ⟨kv, hm, hp⟩
  have hlen : pending.length ≠ 0 := by
    intro h0
    rw [List.length_eq_zero] at h0
    subst h0
    simp at hm
  simp only [List.length_eraseP, hany, if_true]
  omega

/-- One collector step: record the arrival, then drain. -/
def collectStep {α : Type} (s : List (ℕ × α) × ℕ × List (ℕ × α))
    (res : ℕ × α) : List (ℕ × α) × ℕ × List (ℕ × α) :=
  let pending := res :: s.1
  let (p, n, ws) := drainReady pending s.2.1
  (p, n, s.2.2 ++ ws)

/-- The collector loop over a full arrival sequence: pending map, next
frame index and written sequence after all results have arrived. -/
def collectResults {α : Type} (arrivals : List (ℕ × α)) :
    List (ℕ × α) × ℕ × List (ℕ × α) :=
  arrivals.foldl collectStep ([], 0, [])

/-! ## Decoder (internal/decoder reconstructor source) -/

/-- FrameReconstructor state: the adaptive frame configuration and the
legacy default ECC configuration. -/
structure FrameReconstructor where
  FrameCfg : FrameConfig
  ECCCfg : ECCConfig
  deriving DecidableEq, Repr

/-- NewFrameReconstructor: preset selects the frame configuration; the
ECC configuration starts at the legacy default (16, 48). -/
def NewFrameReconstructor (preset : String) : FrameReconstructor :=
  let cfg :=
    if preset = ("youtube") then YouTubeFrameConfig
    else if preset = ("dense") then HighDensityFrameConfig
    else DefaultFrameConfig
  ⟨cfg, ⟨16, 48⟩⟩

/-- measureSectionAverage: mean luminance over the interior of the given
rectangle, leaving a quarter margin on every side; 128 when the sampled
region is empty.  The Go uint32 accumulator cannot wrap (at most
480 x 16 samples of at most 255). -/
def measureSectionAverage (img : Image) (startX startY w h : ℕ) : ℕ :=
  let marginX := w / 4
  let marginY := h / 4
  let nx := (w - marginX) - marginX
  let ny := (h - marginY) - marginY
  let sum := sumRange (fun j =>
    sumRange (fun i => img.atPx (startX + marginX + i) (startY + marginY + j)) nx) ny
  let count := ny * nx
  if count = 0 then 128 else sum / count

/-- calibrateFrame: binary threshold (B + W) / 2 from the means of the
first and last calibration sections.  The Go function can never return a
non-nil error, so no error case is modelled. -/
def calibrateFrame (img : Image) : ℕ :=
  let sectionWidth := img.width / 4
  let sampleY := CalibrationBarHeight / 2
  let blackAvg := measureSectionAverage img 0 sampleY sectionWidth CalibrationBarHeight
  let whiteAvg := measureSectionAverage img (3 * sectionWidth) sampleY sectionWidth
    CalibrationBarHeight
  (blackAvg + whiteAvg) / 2

/-- calibrateLevels: the three 4-level thresholds, with the fallback
(64, 128, 192) when the band range W - B is below 10.  The Go float64
products B + rng/6, B + rng/2, B + 5 rng/6 of integer-valued operands are
modelled exactly; for every B, W in [0, 255] the double-precision
evaluation rounds to the same truncated integer. -/
def calibrateLevels (img : Image) : ℕ × ℕ × ℕ :=
  let sectionWidth := img.width / 4
  let sampleY := CalibrationBarHeight / 2
  let blackAvg := measureSectionAverage img 0 sampleY sectionWidth CalibrationBarHeight
  let whiteAvg := measureSectionAverage img (3 * sectionWidth) sampleY sectionWidth
    CalibrationBarHeight
  if whiteAvg < blackAvg + 10 then (64, 128, 192)
  else
    let rng := whiteAvg - blackAvg
    (blackAvg + rng / 6, blackAvg + rng / 2, blackAvg + 5 * rng / 6)

/-- extractMacroPixel: mean luminance of one macro-pixel block.  The top
offset CalibrationBarHeight is added to startY.  Pixels at or beyond the
right or bottom edge are skipped (not counted); pixels at negative
coordinates read as zero but are counted, matching image.RGBA At outside
the bounds.  Returns 0 when no pixel was sampled. -/
def extractMacroPixel (img : Image) (startX startY : ℤ) (macroSize : ℕ) : ℕ :=
  let realY := startY + (CalibrationBarHeight : ℤ)
  let inside : ℕ → ℕ → Bool := fun dx dy =>
    decide (startX + dx < (img.width : ℤ)) && decide (realY + dy < (img.height : ℤ))
  let value : ℕ → ℕ → ℕ := fun dx dy =>
    if inside dx dy then
      if startX + dx < 0 ∨ realY + dy < 0 then 0
      else img.atPx (startX + dx).toNat (realY + dy).toNat
    else 0
  let sum := sumRange (fun dy => sumRange (fun dx => value dx dy) macroSize) macroSize
  let count := sumRange (fun dy =>
    sumRange (fun dx => if inside dx dy then 1 else 0) macroSize) macroSize
  if count = 0 then 0 else sum / count

/-- Pack a bit list MSB-first into bytes, dropping an incomplete tail. -/
def packBits8 : List UInt8 → List UInt8
  | b0 :: b1 :: b2 :: b3 :: b4 :: b5 :: b6 :: b7 :: rest =>
    ((b0 <<< 7) ||| (b1 <<< 6) ||| (b2 <<< 5) ||| (b3 <<< 4) ||| (b4 <<< 3) |||
      (b5 <<< 2) ||| (b6 <<< 1) ||| b7) :: packBits8 rest
  | _ => []

/-- Pack a 2-bit-value list into bytes, high pair first, dropping an
incomplete tail. -/
def packBits4 : List UInt8 → List UInt8
  | b0 :: b1 :: b2 :: b3 :: rest =>
    ((b0 <<< 6) ||| (b1 <<< 4) ||| (b2 <<< 2) ||| b3) :: packBits4 rest
  | _ => []

/-- readBytesFromImage: sample every grid cell (row-major, with a pixel
offset), quantize by threshold or by the three 4-level thresholds, and
pack the cell values into bytes. -/
def readBytesFromImage (fc : FrameConfig) (img : Image) (threshold : ℕ)
    (thresholds : ℕ × ℕ × ℕ) (offX offY : ℤ) : List UInt8 :=
  let cols := fc.colsNat
  let rows := fc.rowsNat
  let macroSize := fc.MacroSize.toNat
  let bits := (List.range rows).flatMap fun y =>
    (List.range cols).map fun x =>
      let targetX : ℤ := (x * macroSize : ℕ) + offX
      let targetY : ℤ := (y * macroSize : ℕ) + offY
      let avgY := extractMacroPixel img targetX targetY macroSize
      if fc.GrayLevels = 2 then (if avgY ≥ threshold then 1 else 0)
      else DynGrayToNibble avgY thresholds
  if fc.GrayLevels = 2 then packBits8 bits else packBits4 bits

/-- True when the first 18 bytes decode to a header carrying the NCC1
magic (the probe the recovery scans repeat). -/
def magicProbe (allBytes : List UInt8) : Bool :=
  match DecodeHeader (allBytes.take FrameHeaderSizeBytes) with
  | .ok h => h.Magic = magicNCC1
  | .error _ => false

/-- Macro sizes tried by the universal recovery scan, in scan order. -/
def testSizes : List ℕ := [10, 12, 16, 24, 8, 32]

/-- Pixel offsets tried by the scan, in scan order. -/
def scanOffsets : List ℤ := [0, 1, -1, 2, -2, 3, -3]

/-- Spatial and size scan of the universal recovery: for each candidate
macro size (adopting it into the configuration) and each offset pair,
re-read and re-probe; the first success wins and its configuration is
kept.  Probes shorter than one header are skipped. -/
def spatialScan (fc : FrameConfig) (img : Image) (threshold : ℕ)
    (thresholds : ℕ × ℕ × ℕ) : Option (FrameConfig × List UInt8) :=
  testSizes.findSome? fun size =>
    let fc := { fc with MacroSize := (size : ℤ) }
    scanOffsets.findSome? fun offY =>
      scanOffsets.findSome? fun offX =>
        let probeBytes := readBytesFromImage fc img threshold thresholds offX offY
        if probeBytes.length < FrameHeaderSizeBytes then none
        else if magicProbe probeBytes then some (fc, probeBytes)
        else none

/-- Threshold scan of the universal recovery (binary mode): thresholds
30, 35, ..., 215, skipping the already-tried calibrated threshold. -/
def thresholdScan (fc : FrameConfig) (img : Image) (threshold : ℕ)
    (thresholds : ℕ × ℕ × ℕ) : Option (List UInt8) :=
  ((List.range 38).map fun k => 30 + 5 * k).findSome? fun t =>
    if t = threshold then none
    else
      let probeBytes := readBytesFromImage fc img t thresholds 0 0
      if probeBytes.length < FrameHeaderSizeBytes then none
      else if magicProbe probeBytes then some probeBytes
      else none

/-- Truncation of a rational toward zero (the Go float64-to-int
conversion). -/
def ratTrunc (q : ℚ) : ℤ := q.num.tdiv q.den

/-- Go uint8 conversion of an int: reduction mod 256. -/
def toU8Nat (t : ℤ) : ℕ := (t % 256).toNat

/-- The ten range scales that the Go loop
for rangeScale := 0.5; rangeScale <= 1.5; rangeScale += 0.1 actually
visits, as exact rationals: adding the IEEE double 0.1 accumulates
rounding error, so the tenth sum is 1.4000000000000001 and the eleventh,
1.5000000000000002, exceeds the bound — the scale 1.5 itself is never
probed. -/
def goRangeScales : List ℚ :=
  [1 / 2,
   5404319552844595 / 9007199254740992,
   3152519739159347 / 4503599627370496,
   7205759403792793 / 9007199254740992,
   2026619832316723 / 2251799813685248,
   9007199254740991 / 9007199254740992,
   4953959590107545 / 4503599627370496,
   5404319552844595 / 4503599627370496,
   5854679515581645 / 4503599627370496,
   6305039478318695 / 4503599627370496]

/-- The IEEE double written 0.35 in the Go source, as an exact rational. -/
def goPoint35 : ℚ := 3152519739159347 / 9007199254740992

/-- Level and gain scan of the universal recovery (4-level mode): center
shifts -60, -55, ..., 60 and the ten range scales of goRangeScales,
thresholds rebuilt around the shifted center with the scaled range,
clamped, then probed.  The scale values and the 0.35 factor are the exact
IEEE doubles of the Go loop, but Go rounds every float64 product and sum
to 53 bits while the rationals here are exact, so a derived threshold can
differ from the Go value by one unit when the rounded float falls on the
other side of an integer boundary. -/
def levelScan (fc : FrameConfig) (img : Image) (threshold : ℕ)
    (thresholds : ℕ × ℕ × ℕ) : Option ((ℕ × ℕ × ℕ) × List UInt8) :=
  let baseT2 : ℤ := thresholds.2.1
  let baseRange0 : ℤ := (thresholds.2.2 : ℤ) - (thresholds.1 : ℤ)
  let baseRange : ℤ := if baseRange0 < 20 then 100 else baseRange0
  ((List.range 25).map fun k => (-60 : ℤ) + 5 * k).findSome? fun centerShift =>
    goRangeScales.findSome? fun rangeScale =>
      let newCenter := baseT2 + centerShift
      let newRange : ℚ := (baseRange : ℚ) * rangeScale
      let t2 := newCenter
      let t1 := ratTrunc ((t2 : ℚ) - newRange * goPoint35)
      let t3 := ratTrunc ((t2 : ℚ) + newRange * goPoint35)
      let t1 := if t1 < 0 then 0 else t1
      let t2 := if t2 < t1 then t1 + 5 else t2
      let t3 := if t3 < t2 then t2 + 5 else t3
      let t3 := if t3 > 255 then 255 else t3
      let newLevels := (toU8Nat t1, toU8Nat t2, toU8Nat t3)
      let probeBytes := readBytesFromImage fc img threshold newLevels 0 0
      if probeBytes.length < FrameHeaderSizeBytes then none
      else if magicProbe probeBytes then some (newLevels, probeBytes)
      else none

/-- ECC configuration the decoder derives from a frame header: always 16
data shards; the parity count is the header field, or the legacy default
48 when that field is zero. -/
def decodeEccCfg (header : FrameHeader) : ECCConfig :=
  let parityShards := header.ParityShards.toNat
  let parityShards := if parityShards = 0 then 48 else parityShards
  ⟨16, parityShards⟩

/-- Body-decoding shard plan of processFrame: cut the post-header region
to the frame byte budget, derive the codec configuration and the shard
size ceil(DataSize / k) (minimum 1), truncate to whole shards and split,
zero-filling shards whose source bytes lie beyond the available data. -/
def decodeShards (fc : FrameConfig) (header : FrameHeader)
    (allBytes : List UInt8) : ECCConfig × ℕ × List (List UInt8) :=
  let bytesInFrame := fc.maxBytesNat
  let usableBytes := min (bytesInFrame - FrameHeaderSizeBytes)
    (allBytes.length - FrameHeaderSizeBytes)
  let dataWithECC := (allBytes.drop FrameHeaderSizeBytes).take usableBytes
  let eccCfg := decodeEccCfg header
  let totalShards := eccCfg.DataShards + eccCfg.ParityShards
  let shardSize := (header.DataSize.toNat + eccCfg.DataShards - 1) / eccCfg.DataShards
  let shardSize := if shardSize = 0 then 1 else shardSize
  let eccBytes := min (shardSize * totalShards) dataWithECC.length
  let dataWithECC := dataWithECC.take eccBytes
  let shards := (List.range totalShards).map fun i =>
    let start := i * shardSize
    if start ≥ dataWithECC.length then List.replicate shardSize 0
    else
      let chunk := (dataWithECC.drop start).take shardSize
      chunk ++ List.replicate (shardSize - chunk.length) 0
  (eccCfg, shardSize, shards)

/-- Final stage of processFrame (after Join): truncate to DataSize, check
the CRC (recording only a warning flag), and split the GlobalHeader off
the data region of frame 0.  In the global branch the Go code slices
out[GlobalHeaderSizeBytes:dataLen]; when dataLen is below 20 (DataSize
17, 18 or 19 makes len(out) = 32 pass the length check while dataLen
stays below 20) the slice bounds are inverted and Go panics at runtime,
modelled by the designated slicePanic value. -/
def finalizeFrameData (header : FrameHeader) (out : List UInt8) :
    Except DecodeErr (List UInt8 × FrameHeader × Bool) :=
  let dataLen := min header.DataSize.toNat out.length
  if header.HasGlobal = 1 ∧ header.FrameIndex = 0 then
    if out.length < GlobalHeaderSizeBytes then .error .insufficientGlobal
    else
      match DecodeGlobalHeader (out.take GlobalHeaderSizeBytes) with
      | .error e => .error e
      | .ok gh =>
        let header := { header with GlobalMeta := gh }
        let frameData := out.take dataLen
        let crcOK := crc32 frameData == header.DataCRC
        if dataLen < GlobalHeaderSizeBytes then .error .slicePanic
        else .ok ((out.take dataLen).drop GlobalHeaderSizeBytes, header, crcOK)
  else
    let actualData := out.take dataLen
    let crcOK := crc32 actualData == header.DataCRC
    .ok (actualData, header, crcOK)

/-- Geometry sanity step of processFrame: when the observed image
dimensions differ from the configuration, adopt the observed values. -/
def adoptResolution (fc : FrameConfig) (img : Image) : FrameConfig :=
  if (img.width : ℤ) ≠ fc.Width ∨ (img.height : ℤ) ≠ fc.Height then
    { fc with Width := (img.width : ℤ), Height := (img.height : ℤ) }
  else fc

/-- processFrame: the full per-frame decode pipeline.  Returns the
(possibly mutated) reconstructor state together with either the frame
payload, its header and the CRC flag, or the failing stage.  The Go
method mutates the shared receiver; the state is threaded explicitly. -/
def processFrame (fr : FrameReconstructor) (img : Image) :
    FrameReconstructor × Except DecodeErr (List UInt8 × FrameHeader × Bool) :=
  -- automatic resolution adoption
  let fc0 := adoptResolution fr.FrameCfg img
  let threshold := calibrateFrame img
  let levels := calibrateLevels img
  let allBytes0 := readBytesFromImage fc0 img threshold levels 0 0
  -- universal recovery when the magic probe fails on a full-length read
  let recovered : FrameConfig × List UInt8 :=
    if allBytes0.length ≥ FrameHeaderSizeBytes ∧ ¬ magicProbe allBytes0 then
      match spatialScan fc0 img threshold levels with
      | some (fc1, probeBytes) => (fc1, probeBytes)
      | none =>
        if fc0.GrayLevels = 2 then
          match thresholdScan fc0 img threshold levels with
          | some probeBytes => (fc0, probeBytes)
          | none => (fc0, allBytes0)
        else
          match levelScan fc0 img threshold levels with
          | some (_, probeBytes) => (fc0, probeBytes)
          | none => (fc0, allBytes0)
    else (fc0, allBytes0)
  let fc := recovered.1
  let allBytes := recovered.2
  let fr := { fr with FrameCfg := fc }
  if allBytes.length < FrameHeaderSizeBytes then (fr, .error .frameTooSmall)
  else
    match DecodeHeader (allBytes.take FrameHeaderSizeBytes) with
    | .error e => (fr, .error e)
    | .ok header =>
      if header.Magic ≠ magicNCC1 then (fr, .error .invalidMagic)
      else
        let (eccCfg, shardSize, shards) := decodeShards fc header allBytes
        let ok := ECCEncoder.Verify eccCfg shards
        let shards := if ok then shards else ECCEncoder.Reconstruct shards
        let expectedSize := fr.ECCCfg.DataShards * shardSize
        match ECCEncoder.Join eccCfg shards expectedSize with
        | .error e => (fr, .error e)
        | .ok out => (fr, finalizeFrameData header out)

/-- Per-frame result record of the parallel reconstruction. -/
structure DecodeResult where
  index : ℕ
  data : List UInt8
  frameHeader : FrameHeader
  crcOK : Bool
  err : Option DecodeErr
  deriving Repr

/-- The all-zero frame header used for error results. -/
def emptyFrameHeader : FrameHeader :=
  ⟨[0, 0, 0, 0], 0, 0, 0, 0, 0, 0, ⟨0, 0, List.replicate 8 0⟩⟩

/-- Result collection and sequential assembly of ReconstructFile: any
per-frame error aborts; otherwise every index 0..n-1 must be present and
the payloads are concatenated in index order.  CRC flags only count
warnings and never affect the outcome.  Indices are unique in every run,
so the first matching record is the map entry. -/
def assembleData (results : List DecodeResult) (n : ℕ) :
    Except DecodeErr (List UInt8) :=
  match results.find? (fun r => r.err.isSome) with
  | some r => .error (r.err.getD .workerError)
  | none =>
    (mapExcept (fun i =>
      match results.find? (fun r => r.index == i) with
      | some r => Except.ok r.data
      | none => Except.error .missingFrame) (List.range n)).map
      List.flatten

/-- ReconstructFile on a list of extracted frames, processing the frames
in order (the Go worker pool shares one reconstructor; the sequential
schedule is one admissible interleaving) and assembling the payloads. -/
def ReconstructFile (fr : FrameReconstructor) (imgs : List Image) :
    Except DecodeErr (List UInt8) :=
  let step := fun (acc : FrameReconstructor × List DecodeResult) (img : Image) =>
    let (fr, results) := acc
    let (fr, res) := processFrame fr img
    let record :=
      match res with
      | .ok (data, header, crcOK) => ⟨results.length, data, header, crcOK, none⟩
      | .error e => DecodeResult.mk results.length [] emptyFrameHeader false (some e)
    (fr, results ++ [record])
  let (_, results) := imgs.foldl step (fr, [])
  assembleData results imgs.length

/-! ## Preset mapping and concrete evaluation inputs -/

/-- Frame configuration selected by NewVideoEncoder for a preset string
(the fast preset and every unknown string use the default frames). -/
def encPresetConfig (preset : String) : FrameConfig :=
  if preset = ("youtube") then YouTubeFrameConfig
  else if preset = ("dense") then HighDensityFrameConfig
  else DefaultFrameConfig

/-- A uniform gray raster (every pixel 100): its calibration sections are
indistinguishable, so W - B = 0. -/
def flatGrayImage : Image := ⟨8, 96, fun _ _ => 100⟩

/-- A high-contrast synthetic raster: the first section reads 0, the last
section reads 255. -/
def contrastImage : Image := ⟨8, 96, fun x _ => if x ≥ 6 then 255 else 0⟩

/-- An 18-byte frame header image pattern for the recovery-scan
counterexample: valid magic, DataSize 0, ParityShards 4. -/
def scanHeaderBytes : List UInt8 :=
  [78, 67, 67, 49, 0, 0, 0, 0, 0, 0, 0, 0, 0, 0, 0, 4, 0, 0]

/-- A 90 x 96 raster carrying scanHeaderBytes as a 4-level macro-pixel
grid of cell size 10 (9 columns, 8 rows) under a calibration bar, so that
reading it at macro size 10 and offset (0, 0) yields the NCC1 magic. -/
def scanImage : Image :=
  { width := 90
    height := 96
    atPx := fun x y =>
      if y < 16 then (if 22 ≤ x ∧ x < 44 then 255 else if 66 ≤ x then 255 else 0)
      else
        let idx := ((y - 16) / 10) * 9 + x / 10
        let b := scanHeaderBytes.getD (idx / 4) 0
        (NibbleToGray ((b >>> UInt8.ofNat (6 - (idx % 4) * 2)) &&& 3)).toNat }

/-- A reconstructor state whose configured macro size 9 disagrees with the
cell size 10 of scanImage. -/
def scanReconstructor : FrameReconstructor := ⟨⟨90, 96, 9, 30, 16, 4⟩, ⟨16, 48⟩⟩

/-- A frame header with valid magic and DataSize 0, probing the shard
size floor of the decoder. -/
def zeroSizeHeader : FrameHeader :=
  { emptyFrameHeader with Magic := magicNCC1, ParityShards := 4 }

/-- The frame configuration that processFrame leaves in the shared
reconstructor: the spatial-scan configuration when the magic probe failed
on a full-length initial read and the scan succeeded, and the
resolution-adjusted original configuration otherwise (claim C8). -/
def recoveredConfig (fc0 : FrameConfig) (img : Image) (threshold : ℕ)
    (levels : ℕ × ℕ × ℕ) (ab : List UInt8) : FrameConfig :=
  if ab.length ≥ FrameHeaderSizeBytes ∧ ¬ magicProbe ab then
    match spatialScan fc0 img threshold levels with
    | some (fc1, _) => fc1
    | none => fc0
  else fc0

/-- A reconstructor and raster too small to read one frame header: the
initial read yields no bytes and recovery is never entered. -/
def tinyReconstructor : FrameReconstructor := ⟨⟨8, 24, 4, 30, 16, 2⟩, ⟨16, 48⟩⟩

/-- An 8 x 24 black raster for tinyReconstructor. -/
def tinyImage : Image := ⟨8, 24, fun _ _ => 0⟩

/-- Structural facts of a binary-mode frame configuration used by the
round-trip development; both binary presets satisfy them by computation:
binary gray levels, macro pixels of at least 4 x 4, a grid that tiles the
width exactly and fits under the calibration bar, a width divisible by 16
(so the calibration sections and their margins are whole pixels), a grid
whose cell count is exactly 8 bits per payload byte, and non-negative
dimensions. -/
def BinaryPresetOK (cfg : FrameConfig) : Prop :=
  cfg.GrayLevels = 2 ∧
  4 ≤ cfg.MacroSize.toNat ∧
  cfg.colsNat * cfg.MacroSize.toNat = cfg.Width.toNat ∧
  1 ≤ cfg.rowsNat ∧
  CalibrationBarHeight + cfg.rowsNat * cfg.MacroSize.toNat ≤ cfg.Height.toNat ∧
  cfg.Width.toNat = 16 * (cfg.Width.toNat / 16) ∧
  0 < cfg.Width.toNat / 16 ∧
  8 * cfg.maxBytesNat = cfg.totalMacrosNat ∧
  (cfg.Width.toNat : ℤ) = cfg.Width ∧
  (cfg.Height.toNat : ℤ) = cfg.Height

/-- The per-frame accumulation step of ReconstructFile, named for the
round-trip development (definitionally the step function in the fold). -/
def reconStep (acc : FrameReconstructor × List DecodeResult) (img : Image) :
    FrameReconstructor × List DecodeResult :=
  let (fr, results) := acc
  let (fr, res) := processFrame fr img
  let record :=
    match res with
    | .ok (data, header, crcOK) => ⟨results.length, data, header, crcOK, none⟩
    | .error e => DecodeResult.mk results.length [] emptyFrameHeader false (some e)
  (fr, results ++ [record])

/-! # Claim theorems -/

/-- C2, counterexample: the claim maps redundancy high to
(DataShards 16, ParityShards 48), but NewECCConfig maps high to
(16, 32). -/
theorem C2_high_counterexample :
    NewECCConfig ("high") = ⟨16, 32⟩ ∧ NewECCConfig ("high") ≠ ⟨16, 48⟩ := by
  constructor
  · rfl
  · intro h
    simp [NewECCConfig] at h

/-- C2, amended: NewECCConfig maps low to (16, 4), medium to (16, 8) and
high to (16, 32); for every level string the data-shard count is 16 and
the parity-shard count is one of 4, 8 or 32 (any unknown level falls to
the medium default). -/
theorem C2_ecc_config_levels :
    NewECCConfig ("low") = ⟨16, 4⟩ ∧ NewECCConfig ("medium") = ⟨16, 8⟩ ∧
    NewECCConfig ("high") = ⟨16, 32⟩ ∧
    ∀ level : String, (NewECCConfig level).DataShards = 16 ∧
      ((NewECCConfig level).ParityShards = 4 ∨ (NewECCConfig level).ParityShards = 8 ∨
        (NewECCConfig level).ParityShards = 32) := by
  refine ⟨rfl, rfl, rfl, ?_⟩
  intro level
  unfold NewECCConfig
  by_cases h1 : level = ("low") <;> by_cases h2 : level = ("high") <;>
    simp [h1, h2]

/-- C6, counterexample: for a frame whose header probe succeeds with
DataSize 0, the decoder builds shards of size 1, not ceil(0/16) = 0. -/
theorem C6_zero_datasize_counterexample :
    (decodeShards DefaultFrameConfig zeroSizeHeader (List.replicate 440 0)).2.1 ≠
      (zeroSizeHeader.DataSize.toNat + 16 - 1) / 16 ∧
    (decodeShards DefaultFrameConfig zeroSizeHeader (List.replicate 440 0)).2.1 = 1 := by
  decide

/-- Every shard built by the decoder slice-and-pad loop has exactly the
planned shard size. -/
theorem decodeShards_shard_length (L : List UInt8) (ss n : ℕ) :
    ∀ s ∈ (List.range n).map (fun i =>
      if i * ss ≥ L.length then List.replicate ss 0
      else (L.drop (i * ss)).take ss ++
        List.replicate (ss - ((L.drop (i * ss)).take ss).length) 0),
      s.length = ss := by
  intro s hs
  simp only [List.mem_map, List.mem_range] at hs
  obtain ⟨i, hi, rfl⟩ := hs
  split
  · simp
  · simp only [List.length_append, List.length_take, List.length_replicate]
    omega

/-- The decoder shard size is ceil(DataSize/16) with a floor of one. -/
theorem shardSize_floor (ds : ℕ) :
    (if (ds + 16 - 1) / 16 = 0 then 1 else (ds + 16 - 1) / 16) =
      max 1 ((ds + 15) / 16) := by
  split <;> omega

/-- C6, amended: for every frame configuration, header and byte buffer,
the decoder codec uses 16 data shards and the parity count of the header
(48 when the header field is zero), and the buffer is split into 16 + p
shards whose common size is ceil(DataSize/16) with a floor of one byte. -/
theorem C6_decode_shard_plan :
    ∀ (fc : FrameConfig) (header : FrameHeader) (allBytes : List UInt8),
    ((decodeShards fc header allBytes).1).DataShards = 16 ∧
    ((decodeShards fc header allBytes).1).ParityShards =
      (if header.ParityShards.toNat = 0 then 48 else header.ParityShards.toNat) ∧
    ((decodeShards fc header allBytes).2.2).length =
      16 + ((decodeShards fc header allBytes).1).ParityShards ∧
    (∀ s ∈ (decodeShards fc header allBytes).2.2,
      s.length = (decodeShards fc header allBytes).2.1) ∧
    (decodeShards fc header allBytes).2.1 =
      max 1 ((header.DataSize.toNat + 15) / 16) := by
  intro fc header allBytes
  exact ⟨rfl, rfl, by simp [decodeShards, decodeEccCfg],
    decodeShards_shard_length _ _ _, shardSize_floor header.DataSize.toNat⟩

/-- Core of the capacity refinement: with a non-negative byte budget the
truncated divisions of the Go code agree with the floor divisions of the
specification formula, and with a negative budget both sides clamp to
zero. -/
theorem capacity_refine_core (b k m g : ℤ) (hk : 0 ≤ k) (hkm : 0 < k + m)
    (hg : 0 ≤ g) :
    (if (b - 18).tdiv (k + m) * k - g - 10 < 0 then 0
      else (b - 18).tdiv (k + m) * k - g - 10) =
    max 0 ((b - 18).fdiv (k + m) * k - g - 10) := by
  rcases le_or_lt 0 (b - 18) with hA | hA
  · rw [Int.tdiv_eq_ediv hA hkm.le, ← Int.fdiv_eq_ediv _ hkm.le]
    generalize (b - 18).fdiv (k + m) * k = p
    split <;> omega
  · have ht : (b - 18).tdiv (k + m) ≤ 0 := by
      have h1 : (-(b - 18)).tdiv (k + m) = -((b - 18).tdiv (k + m)) :=
        Int.neg_tdiv _ _
      have h2 : 0 ≤ (-(b - 18)).tdiv (k + m) :=
        Int.tdiv_nonneg (by omega) (by omega)
      omega
    have hf : (b - 18).fdiv (k + m) ≤ 0 := by
      rw [Int.fdiv_eq_ediv _ hkm.le]
      calc (b - 18) / (k + m) ≤ 0 / (k + m) := Int.ediv_le_ediv hkm (by omega)
        _ = 0 := by simp
    have ht2 : (b - 18).tdiv (k + m) * k ≤ 0 := by
      have := mul_le_mul_of_nonneg_right ht hk
      simpa using this
    have hf2 : (b - 18).fdiv (k + m) * k ≤ 0 := by
      have := mul_le_mul_of_nonneg_right hf hk
      simpa using this
    generalize (b - 18).tdiv (k + m) * k = u at ht2 ⊢
    generalize (b - 18).fdiv (k + m) * k = v at hf2 ⊢
    split <;> omega

/-- C3: CapacityPerFrame computes exactly the specification formula
max(0, floor((bytesPerFrame - 18)/(k+m)) k - (20 on the first frame) - 10)
with bytesPerFrame = floor(totalMacros/8) or floor(totalMacros/4), for
every configuration with a positive macro size, non-negative frame
dimensions and at least one shard. -/
theorem C3_capacity_formula :
    ∀ (fc : FrameConfig) (ecc : ECCConfig) (isFirst : Bool),
    0 < fc.MacroSize → 0 ≤ fc.Width → fc.CalibrationHeight ≤ fc.Height →
    0 < (ecc.DataShards : ℤ) + (ecc.ParityShards : ℤ) →
    fc.CapacityPerFrame ecc isFirst = specCapacityPerFrame fc ecc isFirst := by
  intro fc ecc first hms hW hH hkm
  have hms0 : (0 : ℤ) ≤ fc.MacroSize := le_of_lt hms
  unfold FrameConfig.CapacityPerFrame specCapacityPerFrame FrameConfig.GridSize
  dsimp only
  rw [Int.tdiv_eq_ediv hW hms0, ← Int.fdiv_eq_ediv _ hms0,
    Int.tdiv_eq_ediv (by omega) hms0, ← Int.fdiv_eq_ediv _ hms0]
  have hcols : 0 ≤ fc.Width.fdiv fc.MacroSize := by
    rw [Int.fdiv_eq_ediv _ hms0]
    exact Int.ediv_nonneg hW hms0
  have hrows : 0 ≤ (fc.Height - fc.CalibrationHeight).fdiv fc.MacroSize := by
    rw [Int.fdiv_eq_ediv _ hms0]
    exact Int.ediv_nonneg (by omega) hms0
  have htm : 0 ≤ fc.Width.fdiv fc.MacroSize *
      (fc.Height - fc.CalibrationHeight).fdiv fc.MacroSize :=
    mul_nonneg hcols hrows
  have hbytes : (if fc.GrayLevels = 2 then
        (fc.Width.fdiv fc.MacroSize *
          (fc.Height - fc.CalibrationHeight).fdiv fc.MacroSize).tdiv 8
      else (fc.Width.fdiv fc.MacroSize *
          (fc.Height - fc.CalibrationHeight).fdiv fc.MacroSize).tdiv 4) =
      (if fc.GrayLevels = 2 then
        (fc.Width.fdiv fc.MacroSize *
          (fc.Height - fc.CalibrationHeight).fdiv fc.MacroSize).fdiv 8
      else (fc.Width.fdiv fc.MacroSize *
          (fc.Height - fc.CalibrationHeight).fdiv fc.MacroSize).fdiv 4) := by
    split <;>
      rw [Int.tdiv_eq_ediv htm (by norm_num), ← Int.fdiv_eq_ediv _ (by norm_num)]
  rw [hbytes]
  generalize (if fc.GrayLevels = 2 then
      (fc.Width.fdiv fc.MacroSize *
        (fc.Height - fc.CalibrationHeight).fdiv fc.MacroSize).fdiv 8
    else (fc.Width.fdiv fc.MacroSize *
        (fc.Height - fc.CalibrationHeight).fdiv fc.MacroSize).fdiv 4) = b
  cases first
  · have := capacity_refine_core b (ecc.DataShards : ℤ) (ecc.ParityShards : ℤ) 0
      (by positivity) hkm le_rfl
    simpa using this
  · have := capacity_refine_core b (ecc.DataShards : ℤ) (ecc.ParityShards : ℤ) 20
      (by positivity) hkm (by norm_num)
    simp only [if_true]
    calc (if (b - 18).tdiv _ * _ - 20 - 10 < 0 then 0
        else (b - 18).tdiv _ * _ - 20 - 10) = _ := this
      _ = _ := by norm_num

/-- C3, witness: the formula agrees at the default preset with medium
redundancy on the first frame, where the capacity is 242 bytes. -/
theorem C3_capacity_formula_witness :
    DefaultFrameConfig.CapacityPerFrame (NewECCConfig ("medium")) true =
      specCapacityPerFrame DefaultFrameConfig (NewECCConfig ("medium")) true ∧
    DefaultFrameConfig.CapacityPerFrame (NewECCConfig ("medium")) true = 242 := by
  refine ⟨C3_capacity_formula _ _ _ (by decide) (by decide) (by decide)
    (by decide), by decide⟩

/-- C7, counterexample: on a uniform raster the band range W - B is 0,
below the unreliability bound 10, yet calibrateFrame still returns
(B + W) / 2 = 100 and not the claimed default 128. -/
theorem C7_flat_band_counterexample :
    measureSectionAverage flatGrayImage (3 * (flatGrayImage.width / 4))
        (CalibrationBarHeight / 2) (flatGrayImage.width / 4) CalibrationBarHeight -
      measureSectionAverage flatGrayImage 0 (CalibrationBarHeight / 2)
        (flatGrayImage.width / 4) CalibrationBarHeight < 10 ∧
    calibrateFrame flatGrayImage ≠ 128 ∧ calibrateFrame flatGrayImage = 100 := by
  decide

/-- C7, amended: for every raster the binary threshold is always
(B + W) / 2, whatever the band range; only the four-level thresholds fall
back to (64, 128, 192) when W - B is below 10, and otherwise equal
(B + (W-B)/6, B + (W-B)/2, B + 5(W-B)/6). -/
theorem C7_calibration_thresholds :
    ∀ img : Image,
    let b := measureSectionAverage img 0 (CalibrationBarHeight / 2)
      (img.width / 4) CalibrationBarHeight
    let w := measureSectionAverage img (3 * (img.width / 4))
      (CalibrationBarHeight / 2) (img.width / 4) CalibrationBarHeight
    calibrateFrame img = (b + w) / 2 ∧
    (w < b + 10 → calibrateLevels img = (64, 128, 192)) ∧
    (b + 10 ≤ w → calibrateLevels img =
      (b + (w - b) / 6, b + (w - b) / 2, b + 5 * (w - b) / 6)) := by
  intro img
  refine ⟨rfl, ?_, ?_⟩
  · intro h
    unfold calibrateLevels
    rw [if_pos h]
  · intro h
    unfold calibrateLevels
    rw [if_neg (by omega)]

/-- C7, witness: on the synthetic high-contrast raster B = 0 and W = 255,
the band is reliable and the four-level thresholds are (42, 127, 212). -/
theorem C7_calibration_thresholds_witness :
    measureSectionAverage contrastImage 0 (CalibrationBarHeight / 2)
        (contrastImage.width / 4) CalibrationBarHeight + 10 ≤
      measureSectionAverage contrastImage (3 * (contrastImage.width / 4))
        (CalibrationBarHeight / 2) (contrastImage.width / 4) CalibrationBarHeight ∧
    calibrateLevels contrastImage = (42, 127, 212) := by
  refine ⟨by decide, ?_⟩
  have h := (C7_calibration_thresholds contrastImage).2.2 (by decide)
  rw [h]
  decide

/-- Reading n bytes succeeds exactly on sufficient remaining input. -/
theorem readN_ok (d : List UInt8) (p n : ℕ) (h : p + n ≤ d.length) :
    ByteReader.readN ⟨d, p⟩ n = some ((d.drop p).take n, ⟨d, p + n⟩) := by
  unfold ByteReader.readN
  exact if_pos h

/-- DecodeHeader on an explicit 18-byte prefix: every field is read in
order, big-endian, and the magic is not inspected. -/
theorem DecodeHeader_cons (b0 b1 b2 b3 b4 b5 b6 b7 b8 b9 b10 b11 b12 b13 b14 b15
    b16 b17 : UInt8) (rest : List UInt8) :
    DecodeHeader (b0 :: b1 :: b2 :: b3 :: b4 :: b5 :: b6 :: b7 :: b8 :: b9 :: b10 ::
        b11 :: b12 :: b13 :: b14 :: b15 :: b16 :: b17 :: rest) =
      .ok ⟨[b0, b1, b2, b3], beU32 b4 b5 b6 b7, beU16 b8 b9, beU32 b10 b11 b12 b13,
        b14, b15, beU16 b16 b17, ⟨0, 0, List.replicate 8 0⟩⟩ := by
  unfold DecodeHeader
  rw [if_neg (by simp [FrameHeaderSizeBytes])]
  unfold decodeHeaderFields
  rw [readN_ok _ _ _ (by simp)]
  dsimp only [Option.bind_eq_bind, Option.some_bind]
  rw [readN_ok _ _ _ (by simp)]
  dsimp only [Option.bind_eq_bind, Option.some_bind]
  rw [readN_ok _ _ _ (by simp)]
  dsimp only [Option.bind_eq_bind, Option.some_bind]
  rw [readN_ok _ _ _ (by simp)]
  dsimp only [Option.bind_eq_bind, Option.some_bind]
  rw [readN_ok _ _ _ (by simp)]
  dsimp only [Option.bind_eq_bind, Option.some_bind]
  rw [readN_ok _ _ _ (by simp)]
  dsimp only [Option.bind_eq_bind, Option.some_bind]
  rw [readN_ok _ _ _ (by simp)]
  dsimp only [Option.bind_eq_bind, Option.some_bind]
  rfl

/-- C10: DecodeHeader fails exactly on inputs shorter than 18 bytes; on
every input of at least 18 bytes it succeeds and returns the fields
parsed big-endian from the first 18 bytes, with no validation of the
magic (callers inspect the returned header themselves). -/
theorem C10_decode_header :
    ∀ data : List UInt8,
    ((∃ fh, DecodeHeader data = .ok fh) ↔ FrameHeaderSizeBytes ≤ data.length) ∧
    (FrameHeaderSizeBytes ≤ data.length →
      DecodeHeader data = .ok
        ⟨data.take 4,
          beU32 (data.getD 4 0) (data.getD 5 0) (data.getD 6 0) (data.getD 7 0),
          beU16 (data.getD 8 0) (data.getD 9 0),
          beU32 (data.getD 10 0) (data.getD 11 0) (data.getD 12 0) (data.getD 13 0),
          data.getD 14 0, data.getD 15 0,
          beU16 (data.getD 16 0) (data.getD 17 0),
          ⟨0, 0, List.replicate 8 0⟩⟩) := by
  intro data
  have hmain : FrameHeaderSizeBytes ≤ data.length →
      DecodeHeader data = .ok
        ⟨data.take 4,
          beU32 (data.getD 4 0) (data.getD 5 0) (data.getD 6 0) (data.getD 7 0),
          beU16 (data.getD 8 0) (data.getD 9 0),
          beU32 (data.getD 10 0) (data.getD 11 0) (data.getD 12 0) (data.getD 13 0),
          data.getD 14 0, data.getD 15 0,
          beU16 (data.getD 16 0) (data.getD 17 0),
          ⟨0, 0, List.replicate 8 0⟩⟩ := by
    intro h
    simp only [FrameHeaderSizeBytes] at h
    rcases data with _ | ⟨b0, data⟩; · simp at h
    rcases data with _ | ⟨b1, data⟩; · simp at h
    rcases data with _ | ⟨b2, data⟩; · simp at h
    rcases data with _ | ⟨b3, data⟩; · simp at h
    rcases data with _ | ⟨b4, data⟩; · simp at h
    rcases data with _ | ⟨b5, data⟩; · simp at h
    rcases data with _ | ⟨b6, data⟩; · simp at h
    rcases data with _ | ⟨b7, data⟩; · simp at h
    rcases data with _ | ⟨b8, data⟩; · simp at h
    rcases data with _ | ⟨b9, data⟩; · simp at h
    rcases data with _ | ⟨b10, data⟩; · simp at h
    rcases data with _ | ⟨b11, data⟩; · simp at h
    rcases data with _ | ⟨b12, data⟩; · simp at h
    rcases data with _ | ⟨b13, data⟩; · simp at h
    rcases data with _ | ⟨b14, data⟩; · simp at h
    rcases data with _ | ⟨b15, data⟩; · simp at h
    rcases data with _ | ⟨b16, data⟩; · simp at h
    rcases data with _ | ⟨b17, data⟩; · simp at h
    exact DecodeHeader_cons b0 b1 b2 b3 b4 b5 b6 b7 b8 b9 b10 b11 b12 b13 b14 b15
      b16 b17 data
  refine ⟨⟨?_, fun h => ⟨_, hmain h⟩⟩, hmain⟩
  rintro ⟨fh, hfh⟩
  by_contra hlen
  unfold DecodeHeader at hfh
  rw [if_pos (by omega)] at hfh
  exact absurd hfh (by simp)

/-- C10, witness: an 18-byte input whose magic is not NCC1 still decodes
successfully, while a 3-byte input does not decode. -/
theorem C10_decode_header_witness :
    DecodeHeader (List.replicate 18 171) = .ok
      ⟨[171, 171, 171, 171], beU32 171 171 171 171, beU16 171 171,
        beU32 171 171 171 171, 171, 171, beU16 171 171,
        ⟨0, 0, List.replicate 8 0⟩⟩ ∧
    ¬ ∃ fh, DecodeHeader [1, 2, 3] = .ok fh := by
  constructor
  · rw [(C10_decode_header (List.replicate 18 171)).2 (by decide)]
    rfl
  · intro hex
    have h := (C10_decode_header [1, 2, 3]).1.mp hex
    simp [FrameHeaderSizeBytes] at h

/-- A successful fail-fast map produces one output per input. -/
theorem mapExcept_length {α β : Type} (f : α → Except DecodeErr β) :
    ∀ (l : List α) (l' : List β), mapExcept f l = .ok l' → l'.length = l.length := by
  intro l
  induction l with
  | nil => intro l' h; simp only [mapExcept] at h; cases h; rfl
  | cons a t ih =>
    intro l' h
    simp only [mapExcept] at h
    cases hfa : f a with
    | error e => rw [hfa] at h; cases h
    | ok b =>
      rw [hfa] at h
      cases hft : mapExcept f t with
      | error e => rw [hft] at h; cases h
      | ok bs => rw [hft] at h; cases h; simp [ih bs hft]

/-- The fail-fast map only looks at the function on the list elements. -/
theorem mapExcept_congr {α β : Type} (f g : α → Except DecodeErr β) :
    ∀ l : List α, (∀ a ∈ l, f a = g a) → mapExcept f l = mapExcept g l := by
  intro l
  induction l with
  | nil => intro _; rfl
  | cons a t ih =>
    intro h
    simp only [mapExcept, h a (by simp), ih (fun x hx => h x (by simp [hx]))]

/-- The Go frame-count computation equals the specification formula
1 + ceil(max(0, len - cap0) / capN) whenever capN is positive. -/
theorem totalFrames_eq_spec (len cap0 capN : ℕ) (h : 0 < capN) :
    totalFramesFor len cap0 capN = specTotalFrames len cap0 capN := by
  simp only [totalFramesFor, specTotalFrames, Nat.zero_max]
  by_cases hlc : len > cap0
  · rw [if_pos hlc, if_pos (by omega)]
  · rw [if_neg hlc]
    have h0 : len - cap0 = 0 := by omega
    rw [h0, if_neg (by omega), Nat.zero_add, Nat.div_eq_of_lt (by omega)]

/-- C4: the encoder emits exactly 1 + ceil(max(0, len - cap0) / capN)
frames; the job of frame 0 is the first min(cap0, len) bytes and the job
of frame i is the capN-byte slice starting at cap0 + (i-1) capN,
truncated at the end of the payload. -/
theorem C4_frame_plan :
    ∀ (cfg : FrameConfig) (ecc : ECCConfig) (data : List UInt8)
      (padd stale : ℕ → ℕ → UInt8),
    0 < (cfg.CapacityPerFrame ecc false).toNat →
    (∀ imgs, encodeFrames cfg ecc data padd stale = .ok imgs →
      imgs.length = 1 +
        (max 0 (data.length - (cfg.CapacityPerFrame ecc true).toNat) +
          (cfg.CapacityPerFrame ecc false).toNat - 1) /
          (cfg.CapacityPerFrame ecc false).toNat) ∧
    frameChunk data (cfg.CapacityPerFrame ecc true).toNat
        (cfg.CapacityPerFrame ecc false).toNat 0 =
      data.take (min (cfg.CapacityPerFrame ecc true).toNat data.length) ∧
    (∀ i, 1 ≤ i →
      frameChunk data (cfg.CapacityPerFrame ecc true).toNat
          (cfg.CapacityPerFrame ecc false).toNat i =
        (data.drop ((cfg.CapacityPerFrame ecc true).toNat +
          (i - 1) * (cfg.CapacityPerFrame ecc false).toNat)).take
          (cfg.CapacityPerFrame ecc false).toNat) := by
  intro cfg ecc data padd stale hcapN
  refine ⟨?_, ?_, ?_⟩
  · intro imgs himgs
    have hlen := mapExcept_length _ _ _ himgs
    rw [hlen, List.length_range,
      totalFrames_eq_spec data.length _ _ hcapN]
    rfl
  · rw [show frameChunk data (cfg.CapacityPerFrame ecc true).toNat
        (cfg.CapacityPerFrame ecc false).toNat 0 =
        data.take (cfg.CapacityPerFrame ecc true).toNat from rfl,
      List.take_eq_take]
    omega
  · intro i hi
    simp only [frameChunk, if_neg (by omega : ¬ i = 0)]
    split
    · rename_i hstart
      rw [List.drop_eq_nil_of_le (by omega), List.take_nil]
    · rfl

/-- C4, witness: with the default preset and medium redundancy
(cap0 = 242, capN = 262) a 600-byte payload makes one full first frame
and two tail frames, and frame 2 carries bytes 504 to 599. -/
theorem C4_frame_plan_witness :
    0 < (DefaultFrameConfig.CapacityPerFrame (NewECCConfig ("medium")) false).toNat ∧
    frameChunk (List.replicate 600 7)
        (DefaultFrameConfig.CapacityPerFrame (NewECCConfig ("medium")) true).toNat
        (DefaultFrameConfig.CapacityPerFrame (NewECCConfig ("medium")) false).toNat 2 =
      ((List.replicate 600 (7 : UInt8)).drop 504).take 262 := by
  constructor
  · decide
  · have h := ((C4_frame_plan DefaultFrameConfig (NewECCConfig ("medium"))
      (List.replicate 600 7) (fun _ _ => 0) (fun _ _ => 0) (by decide)).2.2) 2
      (by decide)
    rw [h]
    rfl

/-- Assembly loop over results whose indices are exactly the ascending
range starting at s: every lookup hits and the payloads come out in
order. -/
theorem assemble_range :
    ∀ (n : ℕ) (results : List DecodeResult) (s : ℕ),
    results.map (fun r => r.index) = List.range' s n →
    mapExcept (fun i =>
      match results.find? (fun r => r.index == i) with
      | some r => Except.ok r.data
      | none => Except.error .missingFrame) (List.range' s n) =
      .ok (results.map (fun r => r.data)) := by
  intro n
  induction n with
  | zero =>
    intro results s h
    simp only [List.range'] at h ⊢
    rw [List.map_eq_nil_iff] at h
    subst h
    rfl
  | succ n ih =>
    intro results s h
    cases results with
    | nil => simp [List.range'] at h
    | cons r rest =>
      simp only [List.range', List.map_cons, List.cons.injEq] at h
      obtain ⟨hr, hrest⟩ := h
      simp only [List.range', mapExcept]
      rw [List.find?_cons_of_pos _ (by simp [hr])]
      have hcongr : mapExcept (fun i =>
          match (r :: rest).find? (fun q => q.index == i) with
          | some q => Except.ok q.data
          | none => Except.error DecodeErr.missingFrame) (List.range' (s + 1) n) =
          mapExcept (fun i =>
            match rest.find? (fun q => q.index == i) with
            | some q => Except.ok q.data
            | none => Except.error DecodeErr.missingFrame) (List.range' (s + 1) n) := by
        apply mapExcept_congr
        intro i hi
        have his : s + 1 ≤ i := (List.mem_range'_1.mp hi).1
        rw [List.find?_cons_of_neg _ (by simp [hr]; omega)]
      rw [hcongr, ih rest (s + 1) hrest]
      rfl

/-- A list is a permutation of its first match consed onto the erased
remainder. -/
theorem find?_perm_eraseP {α : Type} (p : α → Bool) :
    ∀ (l : List α) (a : α), l.find? p = some a → l.Perm (a :: l.eraseP p) := by
  intro l
  induction l with
  | nil => intro a h; simp at h
  | cons x t ih =>
    intro a h
    by_cases hx : p x
    · rw [List.find?_cons_of_pos _ hx] at h
      cases h
      rw [List.eraseP_cons_of_pos hx]
    · rw [List.find?_cons_of_neg _ (by simp [hx])] at h
      rw [List.eraseP_cons_of_neg (by simp [hx])]
      exact ((ih a h).cons x).trans (List.Perm.swap a x _)

/-- Specification of the collector drain loop: writing starts at next and
proceeds consecutively; the drained entries together with the remaining
pending entries permute the original map; every remaining key exceeds the
final next index. -/
theorem drainReady_spec {α : Type} :
    ∀ (fuel : ℕ) (pending : List (ℕ × α)) (next : ℕ),
    pending.length ≤ fuel →
    (pending.map Prod.fst).Nodup →
    (∀ k ∈ pending.map Prod.fst, next ≤ k) →
    (drainReady pending next).2.1 = next + (drainReady pending next).2.2.length ∧
    (drainReady pending next).2.2.map Prod.fst =
      List.range' next (drainReady pending next).2.2.length ∧
    ((drainReady pending next).2.2 ++ (drainReady pending next).1).Perm pending ∧
    (∀ k ∈ (drainReady pending next).1.map Prod.fst,
      (drainReady pending next).2.1 < k) := by
  intro fuel
  induction fuel with
  | zero =>
    intro pending next hlen hnd hge
    have h0 : pending = [] := List.length_eq_zero.mp (by omega)
    subst h0
    rw [drainReady.eq_def]
    simp [List.find?]
  | succ f ih =>
    intro pending next hlen hnd hge
    rw [drainReady.eq_def]
    cases hfind : pending.find? (fun p => p.1 == next) with
    | none =>
      simp only [hfind]
      have hne : ∀ x ∈ pending, ¬ x.1 = next := by
        intro x hx
        have := List.find?_eq_none.mp hfind x hx
        simpa using this
      refine ⟨by simp, by simp [List.range'], by simp, ?_⟩
      intro k hk
      simp only [List.map_map, List.mem_map] at hk
      obtain ⟨x, hx, rfl⟩ := hk
      have h1 := hge x.1 (List.mem_map_of_mem Prod.fst hx)
      have h2 := hne x hx
      show next < x.1
      omega
    | some kv =>
      simp only [hfind]
      have hkv1 : kv.1 = next := by
        have := List.find?_some hfind
        simpa using this
      have hpermP : pending.Perm (kv :: pending.eraseP (fun p => p.1 == next)) :=
        find?_perm_eraseP _ pending kv hfind
      have hlenrest : (pending.eraseP (fun p => p.1 == next)).length + 1 =
          pending.length := by
        have := hpermP.length_eq
        simpa using this.symm
      have hkeysperm : (pending.map Prod.fst).Perm
          (next :: (pending.eraseP (fun p => p.1 == next)).map Prod.fst) := by
        have := hpermP.map Prod.fst
        simpa [hkv1] using this
      have hndrest := hnd.perm hkeysperm
      rw [List.nodup_cons] at hndrest
      have hge' : ∀ k ∈ (pending.eraseP (fun p => p.1 == next)).map Prod.fst,
          next + 1 ≤ k := by
        intro k hk
        have hkmem : k ∈ pending.map Prod.fst :=
          (hkeysperm.mem_iff).mpr (by simp [hk])
        have h1 := hge k hkmem
        have h2 : k ≠ next := by
          intro he
          subst he
          exact hndrest.1 hk
        omega
      have ihres := ih (pending.eraseP (fun p => p.1 == next)) (next + 1)
        (by omega) hndrest.2 hge'
      rcases hres : drainReady (pending.eraseP (fun p => p.1 == next)) (next + 1)
        with ⟨p, n, ws⟩
      rw [hres] at ihres
      obtain ⟨ih1, ih2, ih3, ih4⟩ := ihres
      simp only at ih1 ih2 ih3 ih4
      refine ⟨by simp; omega, ?_, ?_, by simpa using ih4⟩
      · simp only [List.map_cons, List.length_cons, List.range'_succ]
        rw [ih2]
      · simp only [List.cons_append]
        have hkveq : ((next : ℕ), kv.2) = kv := by
          rw [← hkv1]
        rw [hkveq]
        exact (ih3.cons kv).trans hpermP.symm

/-- Invariant preservation along the collector fold: the written prefix
is always the consecutive range below nextFrameIndex, written plus
pending permute the arrivals processed so far, and pending keys lie
strictly above nextFrameIndex. -/
theorem collect_fold_inv {α : Type} :
    ∀ (arrivals pre : List (ℕ × α)) (s : List (ℕ × α) × ℕ × List (ℕ × α)),
    ((pre ++ arrivals).map Prod.fst).Nodup →
    s.2.2.map Prod.fst = List.range' 0 s.2.1 →
    (s.2.2 ++ s.1).Perm pre →
    (∀ k ∈ s.1.map Prod.fst, s.2.1 < k) →
    (arrivals.foldl collectStep s).2.2.map Prod.fst =
      List.range' 0 (arrivals.foldl collectStep s).2.1 ∧
    ((arrivals.foldl collectStep s).2.2 ++
      (arrivals.foldl collectStep s).1).Perm (pre ++ arrivals) ∧
    (∀ k ∈ (arrivals.foldl collectStep s).1.map Prod.fst,
      (arrivals.foldl collectStep s).2.1 < k) := by
  intro arrivals
  induction arrivals with
  | nil =>
    intro pre s hnd h1 h2 h3
    exact ⟨h1, by simpa using h2, h3⟩
  | cons a t ih =>
    intro pre s hnd h1 h2 h3
    rw [List.foldl_cons]
    -- key facts about the arrival a and the current state
    have hndflat : ((pre ++ a :: t).map Prod.fst).Nodup := hnd
    have hamem : a.1 ∉ (pre.map Prod.fst) := by
      intro hmem
      have := hndflat
      rw [List.map_append, List.nodup_append] at this
      exact this.2.2 hmem (by simp)
    have hwpkeys : ((s.2.2 ++ s.1).map Prod.fst).Perm (pre.map Prod.fst) :=
      h2.map Prod.fst
    -- precondition of the drain: pending keys are nodup and at least next
    have hpkeys_nd : ((a :: s.1).map Prod.fst).Nodup := by
      rw [List.map_cons, List.nodup_cons]
      constructor
      · intro hmem
        exact hamem ((hwpkeys.mem_iff).mp (by simp [hmem]))
      · have hprend : (pre.map Prod.fst).Nodup := by
          have := hndflat
          rw [List.map_append, List.nodup_append] at this
          exact this.1
        have := hprend.perm hwpkeys.symm
        rw [List.map_append, List.nodup_append] at this
        exact this.2.1
    have hpkeys_ge : ∀ k ∈ (a :: s.1).map Prod.fst, s.2.1 ≤ k := by
      intro k hk
      rw [List.map_cons, List.mem_cons] at hk
      rcases hk with rfl | hk
      · by_contra hlt
        have hkr : a.1 ∈ List.range' 0 s.2.1 := by
          rw [List.mem_range'_1]
          omega
        rw [← h1] at hkr
        have : a.1 ∈ (pre.map Prod.fst) :=
          (hwpkeys.mem_iff).mp (by rw [List.map_append]; exact List.mem_append_left _ hkr)
        exact hamem this
      · exact le_of_lt (h3 k hk)
    have hspec := drainReady_spec (a :: s.1).length (a :: s.1) s.2.1 le_rfl
      hpkeys_nd hpkeys_ge
    rcases hd : drainReady (a :: s.1) s.2.1 with ⟨p, n, ws⟩
    rw [hd] at hspec
    obtain ⟨hs1, hs2, hs3, hs4⟩ := hspec
    simp only at hs1 hs2 hs3 hs4
    have hstep : collectStep s a = (p, n, s.2.2 ++ ws) := by
      simp [collectStep, hd]
    rw [hstep]
    -- re-established invariant for the extended prefix
    have h1' : (s.2.2 ++ ws).map Prod.fst = List.range' 0 n := by
      rw [List.map_append, h1, hs2]
      have happ := List.range'_append 0 s.2.1 ws.length 1
      simp only [Nat.one_mul, Nat.zero_add] at happ
      rw [happ, Nat.add_comm ws.length s.2.1, ← hs1]
    have h2' : ((s.2.2 ++ ws) ++ p).Perm (pre ++ [a]) := by
      have e1 : (s.2.2 ++ ws) ++ p = s.2.2 ++ (ws ++ p) := by
        rw [List.append_assoc]
      rw [e1]
      have e2 : (s.2.2 ++ (ws ++ p)).Perm (s.2.2 ++ (a :: s.1)) :=
        (hs3.append_left s.2.2)
      have e3 : (s.2.2 ++ (a :: s.1)).Perm (a :: (s.2.2 ++ s.1)) :=
        List.perm_middle
      have e4 : (a :: (s.2.2 ++ s.1)).Perm (a :: pre) := h2.cons a
      have e5 : (a :: pre).Perm (pre ++ [a]) := by
        have := (@List.perm_middle _ a pre []).symm
        simpa using this
      exact ((e2.trans e3).trans e4).trans e5
    have hnd' : (((pre ++ [a]) ++ t).map Prod.fst).Nodup := by
      have : (pre ++ [a]) ++ t = pre ++ a :: t := by simp
      rw [this]
      exact hndflat
    have := ih (pre ++ [a]) (p, n, s.2.2 ++ ws) hnd' h1' h2' (by simpa using hs4)
    have hflat : (pre ++ [a]) ++ t = pre ++ a :: t := by simp
    rw [hflat] at this
    exact this

/-- C5: whatever order the per-frame results arrive in, as long as they
are exactly one result per frame index below TotalFrames, the collector
writes precisely the frames 0, 1, ..., TotalFrames-1 in strictly
ascending index order (the written key sequence is List.range T), drains
its pending map completely, and every written entry is one of the
arrivals. -/
theorem C5_collector_order {α : Type} (T : ℕ) (arrivals : List (ℕ × α))
    (hperm : (arrivals.map Prod.fst).Perm (List.range T)) :
    (collectResults arrivals).2.2.map Prod.fst = List.range T ∧
    (collectResults arrivals).1 = [] ∧
    (collectResults arrivals).2.1 = T ∧
    (∀ q ∈ (collectResults arrivals).2.2, q ∈ arrivals) := by
  have hnd : (arrivals.map Prod.fst).Nodup :=
    (List.nodup_range T).perm hperm.symm
  have hinv := collect_fold_inv arrivals [] ([], 0, [])
    (by simpa using hnd) (by simp [List.range']) (by simp) (by simp)
  obtain ⟨h1, h2, h3⟩ := hinv
  simp only [List.nil_append] at h2
  have hcr : collectResults arrivals = arrivals.foldl collectStep ([], 0, []) :=
    rfl
  rw [← hcr] at h1 h2 h3
  rcases hgen : collectResults arrivals with ⟨pend, next, written⟩
  rw [hgen] at h1 h2 h3
  simp only at h1 h2 h3 ⊢
  have hkeysperm : (written.map Prod.fst ++ pend.map Prod.fst).Perm
      (List.range T) := by
    have := (h2.map Prod.fst).trans hperm
    rw [List.map_append] at this
    exact this
  have hTle : next ≤ T := by
    by_contra hlt
    have hTr : T ∈ List.range' 0 next := by
      rw [List.mem_range'_1]
      omega
    rw [← h1] at hTr
    have : T ∈ List.range T :=
      (hkeysperm.mem_iff).mp (List.mem_append_left _ hTr)
    simp at this
  have hTge : T ≤ next := by
    by_contra hlt
    have hTr : next ∈ List.range T := by
      rw [List.mem_range]
      omega
    have hmem := (hkeysperm.mem_iff).mpr hTr
    rw [List.mem_append] at hmem
    rcases hmem with hmem | hmem
    · rw [h1, List.mem_range'_1] at hmem
      omega
    · exact absurd (h3 _ hmem) (by omega)
  have hTeq : next = T := by omega
  have hlens := hkeysperm.length_eq
  rw [List.length_append, List.length_map, List.length_map,
    List.length_range] at hlens
  have hwlen : written.length = next := by
    have := congrArg List.length h1
    rw [List.length_map, List.length_range'] at this
    exact this
  have hpempty : pend = [] := by
    rw [← List.length_eq_zero]
    omega
  refine ⟨?_, hpempty, hTeq, ?_⟩
  · rw [h1, hTeq, List.range_eq_range']
  · intro q hq
    exact (h2.mem_iff).mp (List.mem_append_left _ hq)

/-- C5, witness: three results arriving as frames 2, 0, 1 are written in
index order 0, 1, 2 with nothing left pending. -/
theorem C5_collector_order_witness :
    (collectResults [(2, 30), (0, 10), (1, 20)]).2.2.map Prod.fst =
      List.range 3 ∧
    (collectResults ([(2, 30), (0, 10), (1, 20)] : List (ℕ × ℕ))).1 = [] := by
  have h := C5_collector_order 3 [(2, 30), (0, 10), (1, 20)] (by decide)
  exact ⟨h.1, h.2.1⟩

/-- The resolution adoption never touches the macro size. -/
theorem adoptResolution_macroSize (fc : FrameConfig) (img : Image) :
    (adoptResolution fc img).MacroSize = fc.MacroSize := by
  unfold adoptResolution
  split <;> rfl

/-- The reconstructor state processFrame returns carries exactly the
recoveredConfig frame configuration and an unchanged ECC configuration. -/
theorem processFrame_fst (fr : FrameReconstructor) (img : Image) :
    (processFrame fr img).1 = { fr with FrameCfg :=
      (recoveredConfig (adoptResolution fr.FrameCfg img) img (calibrateFrame img)
        (calibrateLevels img)
        (readBytesFromImage (adoptResolution fr.FrameCfg img) img
          (calibrateFrame img) (calibrateLevels img) 0 0)) } := by
  unfold processFrame recoveredConfig
  dsimp only
  by_cases hcond : ((readBytesFromImage (adoptResolution fr.FrameCfg img) img
      (calibrateFrame img) (calibrateLevels img) 0 0).length ≥
        FrameHeaderSizeBytes ∧
      ¬ magicProbe (readBytesFromImage (adoptResolution fr.FrameCfg img) img
        (calibrateFrame img) (calibrateLevels img) 0 0) = true)
  · rw [if_pos hcond, if_pos hcond]
    cases hss : spatialScan (adoptResolution fr.FrameCfg img) img
        (calibrateFrame img) (calibrateLevels img) with
    | none =>
      simp only [hss]
      repeat' split
      all_goals rfl
    | some pr =>
      rcases pr with ⟨fc1, pb⟩
      simp only [hss]
      repeat' split
      all_goals rfl
  · rw [if_neg hcond, if_neg hcond]
    repeat' split
    all_goals rfl

/-- A successful spatial scan returns the input configuration with its
macro size replaced by one of the scanned sizes. -/
theorem spatialScan_config (fc : FrameConfig) (img : Image) (threshold : ℕ)
    (levels : ℕ × ℕ × ℕ) (fc1 : FrameConfig) (pb : List UInt8) :
    spatialScan fc img threshold levels = some (fc1, pb) →
    ∃ sz ∈ testSizes, fc1 = { fc with MacroSize := (sz : ℤ) } := by
  intro h
  unfold spatialScan at h
  obtain ⟨sz, hsz, hf⟩ := List.exists_of_findSome?_eq_some h
  refine ⟨sz, hsz, ?_⟩
  obtain ⟨oy, hoy, hf2⟩ := List.exists_of_findSome?_eq_some hf
  obtain ⟨ox, hox, hf3⟩ := List.exists_of_findSome?_eq_some hf2
  dsimp only at hf3
  split at hf3
  · cases hf3
  · split at hf3
    · cases hf3
      rfl
    · cases hf3

/-- C8, amended: a MacroSize adopted by a successful spatial recovery
scan persists in the reconstructor configuration after processFrame
returns (it carries over to later frames); the configured MacroSize is
unchanged only when recovery is not entered or when the spatial scan
fails, and any adopted size is one of the scan candidates 10, 12, 16,
24, 8, 32. -/
theorem C8_macrosize_state :
    ∀ (fr : FrameReconstructor) (img : Image),
    ((readBytesFromImage (adoptResolution fr.FrameCfg img) img
        (calibrateFrame img) (calibrateLevels img) 0 0).length <
          FrameHeaderSizeBytes ∨
      magicProbe (readBytesFromImage (adoptResolution fr.FrameCfg img) img
        (calibrateFrame img) (calibrateLevels img) 0 0) = true →
      (processFrame fr img).1.FrameCfg.MacroSize = fr.FrameCfg.MacroSize) ∧
    (spatialScan (adoptResolution fr.FrameCfg img) img (calibrateFrame img)
        (calibrateLevels img) = none →
      (processFrame fr img).1.FrameCfg.MacroSize = fr.FrameCfg.MacroSize) ∧
    (∀ fc1 pb,
      spatialScan (adoptResolution fr.FrameCfg img) img (calibrateFrame img)
        (calibrateLevels img) = some (fc1, pb) →
      FrameHeaderSizeBytes ≤ (readBytesFromImage (adoptResolution fr.FrameCfg img)
        img (calibrateFrame img) (calibrateLevels img) 0 0).length →
      magicProbe (readBytesFromImage (adoptResolution fr.FrameCfg img) img
        (calibrateFrame img) (calibrateLevels img) 0 0) = false →
      (processFrame fr img).1.FrameCfg.MacroSize = fc1.MacroSize ∧
      ∃ sz ∈ testSizes, fc1.MacroSize = (sz : ℤ)) := by
  intro fr img
  have hfst := processFrame_fst fr img
  have hms := adoptResolution_macroSize fr.FrameCfg img
  refine ⟨?_, ?_, ?_⟩
  · intro h
    rw [hfst]
    show (recoveredConfig _ _ _ _ _).MacroSize = _
    unfold recoveredConfig
    rw [if_neg (by rcases h with h | h <;> simp [h])]
    exact hms
  · intro hnone
    rw [hfst]
    show (recoveredConfig _ _ _ _ _).MacroSize = _
    unfold recoveredConfig
    by_cases hcond : ((readBytesFromImage (adoptResolution fr.FrameCfg img) img
        (calibrateFrame img) (calibrateLevels img) 0 0).length ≥
          FrameHeaderSizeBytes ∧
        ¬ magicProbe (readBytesFromImage (adoptResolution fr.FrameCfg img) img
          (calibrateFrame img) (calibrateLevels img) 0 0) = true)
    · rw [if_pos hcond]
      simp only [hnone]
      exact hms
    · rw [if_neg hcond]
      exact hms
  · intro fc1 pb hsome hlen hmagic
    constructor
    · rw [hfst]
      show (recoveredConfig _ _ _ _ _).MacroSize = _
      unfold recoveredConfig
      rw [if_pos ⟨hlen, by simp [hmagic]⟩]
      simp only [hsome]
    · obtain ⟨sz, hsz, rfl⟩ := spatialScan_config _ _ _ _ _ _ hsome
      exact ⟨sz, hsz, rfl⟩

/-- C8, counterexample: on scanImage the configured macro size 9 fails
the magic probe, the spatial scan succeeds at size 10, and after
processFrame returns the reconstructor configuration holds 10, not its
value 9 from before the call. -/
theorem C8_scan_persists_counterexample :
    (processFrame scanReconstructor scanImage).1.FrameCfg.MacroSize = 10 ∧
    scanReconstructor.FrameCfg.MacroSize = 9 ∧
    (processFrame scanReconstructor scanImage).1.FrameCfg.MacroSize ≠
      scanReconstructor.FrameCfg.MacroSize := by
  have h10 : (processFrame scanReconstructor scanImage).1.FrameCfg.MacroSize =
      10 := by decide
  refine ⟨h10, rfl, by rw [h10]; decide⟩

/-- C8, witness: on a raster too small to hold one header the recovery is
never entered and the configured macro size survives processFrame. -/
theorem C8_macrosize_state_witness :
    (readBytesFromImage (adoptResolution tinyReconstructor.FrameCfg tinyImage)
      tinyImage (calibrateFrame tinyImage) (calibrateLevels tinyImage) 0
      0).length < FrameHeaderSizeBytes ∧
    (processFrame tinyReconstructor tinyImage).1.FrameCfg.MacroSize =
      tinyReconstructor.FrameCfg.MacroSize := by
  refine ⟨by decide, (C8_macrosize_state tinyReconstructor tinyImage).1
    (Or.inl (by decide))⟩

/-! # Round-trip development (claim C1 support)

The lemmas below establish that for the two binary-mode presets the
decoder pipeline inverts the encoder pipeline exactly.  They are the
machine-checked core behind the C1 analysis; the dense preset falls
outside them because its calibration thresholds depend on the payload. -/

theorem sumRange_congr (f g : ℕ → ℕ) (n : ℕ) (h : ∀ i, i < n → f i = g i) :
    sumRange f n = sumRange g n := by
  induction n with
  | zero => rfl
  | succ n ih =>
    rw [sumRange, sumRange, ih (fun i hi => h i (by omega)), h n (by omega)]

theorem sumRange_le (f g : ℕ → ℕ) (n : ℕ) (h : ∀ i, i < n → f i ≤ g i) :
    sumRange f n ≤ sumRange g n := by
  induction n with
  | zero => exact le_refl 0
  | succ n ih =>
    rw [sumRange, sumRange]
    exact Nat.add_le_add (ih (fun i hi => h i (by omega))) (h n (by omega))

theorem sumRange_const (c n : ℕ) : sumRange (fun _ => c) n = n * c := by
  induction n with
  | zero => simp [sumRange]
  | succ n ih => rw [sumRange, ih, Nat.succ_mul]

theorem sumRange_split (f : ℕ → ℕ) (m n : ℕ) :
    sumRange f (m + n) = sumRange f m + sumRange (fun i => f (m + i)) n := by
  induction n with
  | zero => rfl
  | succ n ih => rw [← Nat.add_assoc, sumRange, sumRange, ih, Nat.add_assoc]

set_option maxRecDepth 10000 in
/-- Enumerated form of the bit-masking fact behind the binary levels. -/
theorem and_one_cases_aux : ∀ n : Fin 256,
    UInt8.mk (BitVec.ofFin n) &&& 1 = 0 ∨ UInt8.mk (BitVec.ofFin n) &&& 1 = 1 := by
  decide

theorem and_one_cases (b : UInt8) : b &&& 1 = 0 ∨ b &&& 1 = 1 :=
  and_one_cases_aux b.toBitVec.toFin

set_option maxRecDepth 10000 in
/-- Enumerated form of the per-byte bit-unpack/repack identity. -/
theorem unpack_pack_aux : ∀ n : Fin 256,
    ((((UInt8.mk (BitVec.ofFin n)) >>> UInt8.ofNat 7) &&& 1) <<< 7) |||
    ((((UInt8.mk (BitVec.ofFin n)) >>> UInt8.ofNat 6) &&& 1) <<< 6) |||
    ((((UInt8.mk (BitVec.ofFin n)) >>> UInt8.ofNat 5) &&& 1) <<< 5) |||
    ((((UInt8.mk (BitVec.ofFin n)) >>> UInt8.ofNat 4) &&& 1) <<< 4) |||
    ((((UInt8.mk (BitVec.ofFin n)) >>> UInt8.ofNat 3) &&& 1) <<< 3) |||
    ((((UInt8.mk (BitVec.ofFin n)) >>> UInt8.ofNat 2) &&& 1) <<< 2) |||
    ((((UInt8.mk (BitVec.ofFin n)) >>> UInt8.ofNat 1) &&& 1) <<< 1) |||
    (((UInt8.mk (BitVec.ofFin n)) >>> UInt8.ofNat 0) &&& 1) =
    UInt8.mk (BitVec.ofFin n) := by
  decide

/-- Extracting the eight bits of a byte MSB-first and recombining them as
the packer does yields the byte back. -/
theorem unpack_pack_byte (b : UInt8) :
    (((b >>> UInt8.ofNat 7) &&& 1) <<< 7) |||
    (((b >>> UInt8.ofNat 6) &&& 1) <<< 6) |||
    (((b >>> UInt8.ofNat 5) &&& 1) <<< 5) |||
    (((b >>> UInt8.ofNat 4) &&& 1) <<< 4) |||
    (((b >>> UInt8.ofNat 3) &&& 1) <<< 3) |||
    (((b >>> UInt8.ofNat 2) &&& 1) <<< 2) |||
    (((b >>> UInt8.ofNat 1) &&& 1) <<< 1) |||
    ((b >>> UInt8.ofNat 0) &&& 1) = b :=
  unpack_pack_aux b.toBitVec.toFin

set_option maxRecDepth 10000 in
/-- Enumerated form: a binary-mode gray level is 32 or 224. -/
theorem byteToGray_two_aux : ∀ n : Fin 256,
    (ByteToGray true (UInt8.mk (BitVec.ofFin n))).toNat = 32 ∨
    (ByteToGray true (UInt8.mk (BitVec.ofFin n))).toNat = 224 := by
  decide

theorem byteToGray_two (v : UInt8) :
    (ByteToGray true v).toNat = 32 ∨ (ByteToGray true v).toNat = 224 :=
  byteToGray_two_aux v.toBitVec.toFin

/-- Any threshold in (32, 224] recovers the encoded bit from the binary
gray level. -/
theorem binary_quantize (w : UInt8) (T : ℕ) (h1 : 32 < T) (h2 : T ≤ 224) :
    (if (ByteToGray true (w &&& 1)).toNat ≥ T then (1 : UInt8) else 0) = w &&& 1 := by
  rcases and_one_cases w with h | h <;> rw [h]
  · rw [show (ByteToGray true (0 : UInt8)).toNat = 32 from rfl]
    rw [if_neg (by omega)]
  · rw [show (ByteToGray true (1 : UInt8)).toNat = 224 from rfl]
    rw [if_pos (by omega)]

set_option maxRecDepth 10000 in
/-- Big-endian uint16 serialization round trip for values below 512 (the
frame data regions of the binary presets never exceed 346 bytes). -/
theorem beU16_roundtrip_small : ∀ n : Fin 512,
    beU16 ((UInt16.ofNat n.val >>> 8).toUInt8) ((UInt16.ofNat n.val).toUInt8) =
      UInt16.ofNat n.val ∧
    (UInt16.ofNat n.val).toNat = n.val := by
  decide

set_option maxRecDepth 10000 in
/-- Byte conversion of a value below 256 round-trips. -/
theorem u8_toNat_ofNat_small : ∀ n : Fin 256, (UInt8.ofNat n.val).toNat = n.val := by
  decide

/-- Packing the bits drawn MSB-first from a byte list recovers the list. -/
theorem packBits8_map_range : ∀ (B : List UInt8) (f : ℕ → UInt8),
    (∀ i, i < 8 * B.length →
      f i = ((B.getD (i / 8) 0) >>> UInt8.ofNat (7 - i % 8)) &&& 1) →
    packBits8 ((List.range (8 * B.length)).map f) = B := by
  intro B
  induction B with
  | nil => intro f hf; rfl
  | cons b rest ih =>
    intro f hf
    have h8 : 8 * (b :: rest).length = 8 + 8 * rest.length := by
      simp [List.length_cons]; ring
    rw [h8, List.range_add, List.map_append, List.map_map]
    have hr8 : (List.range 8).map f = [f 0, f 1, f 2, f 3, f 4, f 5, f 6, f 7] := rfl
    rw [hr8]
    have hlen : ∀ j : ℕ, j < 8 → j < 8 * (b :: rest).length := by
      intro j hj
      simp only [List.length_cons]
      omega
    have hfj : ∀ j k : ℕ, j < 8 → k = 7 - j → f j = (b >>> UInt8.ofNat k) &&& 1 := by
      intro j k hj hk
      rw [hf j (hlen j hj), Nat.div_eq_of_lt hj, Nat.mod_eq_of_lt hj, hk]
      rfl
    rw [hfj 0 7 (by norm_num) (by norm_num), hfj 1 6 (by norm_num) (by norm_num),
      hfj 2 5 (by norm_num) (by norm_num), hfj 3 4 (by norm_num) (by norm_num),
      hfj 4 3 (by norm_num) (by norm_num), hfj 5 2 (by norm_num) (by norm_num),
      hfj 6 1 (by norm_num) (by norm_num), hfj 7 0 (by norm_num) (by norm_num)]
    simp only [List.cons_append, List.nil_append, packBits8]
    rw [unpack_pack_byte b]
    have htail : packBits8 ((List.range (8 * rest.length)).map
        (f ∘ fun x => 8 + x)) = rest := by
      apply ih
      intro i hi
      show f (8 + i) = _
      rw [hf (8 + i) (by simp only [List.length_cons]; omega)]
      have hd : (8 + i) / 8 = i / 8 + 1 := by omega
      have hm : (8 + i) % 8 = i % 8 := by omega
      rw [hd, hm, List.getD_cons_succ]
    show b :: packBits8 (List.map (f ∘ fun x => 8 + x)
      (List.range (8 * rest.length))) = b :: rest
    rw [htail]

/-- Row-major double iteration over the grid as a single flat iteration. -/
theorem flatMap_range_map (rows cols : ℕ) (g : ℕ → ℕ → UInt8) :
    (List.range rows).flatMap (fun y => (List.range cols).map fun x => g y x) =
    (List.range (rows * cols)).map fun i => g (i / cols) (i % cols) := by
  induction rows with
  | zero => simp
  | succ n ih =>
    rw [List.range_succ, List.flatMap_append, ih, Nat.succ_mul, List.range_add,
      List.map_append, List.map_map]
    congr 1
    simp only [List.flatMap_cons, List.flatMap_nil, List.append_nil]
    apply List.map_congr_left
    intro x hx
    have hxc : x < cols := List.mem_range.mp hx
    show g n x = g ((n * cols + x) / cols) ((n * cols + x) % cols)
    have h1 : (n * cols + x) / cols = n := by
      rw [Nat.mul_comm n cols, Nat.mul_add_div (by omega), Nat.div_eq_of_lt hxc,
        Nat.add_zero]
    have h2 : (n * cols + x) % cols = x := by
      rw [Nat.add_comm, Nat.add_mul_mod_self_right, Nat.mod_eq_of_lt hxc]
    rw [h1, h2]

/-- Packing the grid traversal of per-cell bits recovers the byte list
whenever each cell carries the matching bit of the matching byte. -/
theorem packBits8_flatMap (rows cols : ℕ) (B : List UInt8) (g : ℕ → ℕ → UInt8)
    (hrc : rows * cols = 8 * B.length)
    (hg : ∀ y x, y < rows → x < cols →
      g y x = ((B.getD ((y * cols + x) / 8) 0) >>>
        UInt8.ofNat (7 - (y * cols + x) % 8)) &&& 1) :
    packBits8 ((List.range rows).flatMap fun y =>
      (List.range cols).map fun x => g y x) = B := by
  rw [flatMap_range_map, hrc]
  apply packBits8_map_range
  intro i hi
  have hic : i < rows * cols := by rw [hrc]; exact hi
  rcases Nat.eq_zero_or_pos cols with hc | hc
  · rw [hc, Nat.mul_zero] at hic
    exact absurd hic (by omega)
  · have hx : i % cols < cols := Nat.mod_lt _ hc
    have hy : i / cols < rows := by
      rw [Nat.div_lt_iff_lt_mul hc]
      exact hic
    show g (i / cols) (i % cols) = _
    rw [hg _ _ hy hx]
    have hdm : i / cols * cols + i % cols = i := by
      rw [Nat.mul_comm]
      exact Nat.div_add_mod i cols
    rw [hdm]

/-- Columns left of the first quarter of the calibration bar are black. -/
theorem calibrationBarValue_black (w x : ℕ) (hx : x < w / 4) :
    calibrationBarValue w x = 0 := by
  simp only [calibrationBarValue]
  rw [if_neg (by omega), if_neg (by omega)]

/-- Columns from the last quarter of the calibration bar are white. -/
theorem calibrationBarValue_white (w x : ℕ) (hx : w / 4 * 3 ≤ x) :
    calibrationBarValue w x = 255 := by
  simp only [calibrationBarValue]
  rw [if_pos (by omega)]

/-- The block average of a fully in-bounds constant block is the
constant. -/
theorem extractMacroPixel_const (img : Image) (sx sy ms v : ℕ) (hms : 0 < ms)
    (hw : sx + ms ≤ img.width) (hh : sy + 16 + ms ≤ img.height)
    (hval : ∀ dx dy, dx < ms → dy < ms → img.atPx (sx + dx) (sy + 16 + dy) = v) :
    extractMacroPixel img (sx : ℤ) (sy : ℤ) ms = v := by
  simp only [extractMacroPixel, CalibrationBarHeight]
  have hcond : ∀ dx dy : ℕ, dx < ms → dy < ms →
      (decide ((sx : ℤ) + (dx : ℤ) < (img.width : ℤ)) &&
        decide ((sy : ℤ) + ((16 : ℕ) : ℤ) + (dy : ℤ) < (img.height : ℤ))) = true := by
    intro dx dy hdx hdy
    rw [Bool.and_eq_true, decide_eq_true_eq, decide_eq_true_eq]
    exact ⟨by omega, by omega⟩
  have hrowcnt : ∀ dy, dy < ms → sumRange (fun dx =>
      if (decide ((sx : ℤ) + (dx : ℤ) < (img.width : ℤ)) &&
        decide ((sy : ℤ) + ((16 : ℕ) : ℤ) + (dy : ℤ) < (img.height : ℤ))) = true
      then 1 else 0) ms = ms := by
    intro dy hdy
    have hin : ∀ dx, dx < ms →
        (if (decide ((sx : ℤ) + (dx : ℤ) < (img.width : ℤ)) &&
          decide ((sy : ℤ) + ((16 : ℕ) : ℤ) + (dy : ℤ) < (img.height : ℤ))) = true
        then 1 else 0) = (fun _ : ℕ => 1) dx := by
      intro dx hdx
      rw [if_pos (hcond dx dy hdx hdy)]
    rw [sumRange_congr _ _ ms hin, sumRange_const, Nat.mul_one]
  have hrowsum : ∀ dy, dy < ms → sumRange (fun dx =>
      if (decide ((sx : ℤ) + (dx : ℤ) < (img.width : ℤ)) &&
        decide ((sy : ℤ) + ((16 : ℕ) : ℤ) + (dy : ℤ) < (img.height : ℤ))) = true
      then
        if (sx : ℤ) + (dx : ℤ) < 0 ∨ (sy : ℤ) + ((16 : ℕ) : ℤ) + (dy : ℤ) < 0 then 0
        else img.atPx ((sx : ℤ) + (dx : ℤ)).toNat
          (((sy : ℤ) + ((16 : ℕ) : ℤ) + (dy : ℤ))).toNat
      else 0) ms = ms * v := by
    intro dy hdy
    have hin : ∀ dx, dx < ms →
        (if (decide ((sx : ℤ) + (dx : ℤ) < (img.width : ℤ)) &&
          decide ((sy : ℤ) + ((16 : ℕ) : ℤ) + (dy : ℤ) < (img.height : ℤ))) = true
        then
          if (sx : ℤ) + (dx : ℤ) < 0 ∨ (sy : ℤ) + ((16 : ℕ) : ℤ) + (dy : ℤ) < 0 then 0
          else img.atPx ((sx : ℤ) + (dx : ℤ)).toNat
            (((sy : ℤ) + ((16 : ℕ) : ℤ) + (dy : ℤ))).toNat
        else 0) = (fun _ : ℕ => v) dx := by
      intro dx hdx
      rw [if_pos (hcond dx dy hdx hdy), if_neg (by omega)]
      have e1 : ((sx : ℤ) + (dx : ℤ)).toNat = sx + dx := by omega
      have e2 : (((sy : ℤ) + ((16 : ℕ) : ℤ) + (dy : ℤ))).toNat = sy + 16 + dy := by
        omega
      rw [e1, e2]
      exact hval dx dy hdx hdy
    rw [sumRange_congr _ _ ms hin, sumRange_const]
  rw [sumRange_congr _ _ ms hrowcnt, sumRange_const]
  rw [sumRange_congr _ _ ms hrowsum, sumRange_const]
  rw [if_neg (Nat.mul_ne_zero (by omega) (by omega))]
  rw [show ms * (ms * v) = (ms * ms) * v from by ring]
  exact Nat.mul_div_cancel_left v (Nat.mul_pos hms hms)

/-- renderCellValue in binary mode reads one bit of the byte stream. -/
theorem renderCellValue_binary (cfg : FrameConfig) (allBytes : List UInt8)
    (stale : ℕ → UInt8) (i : ℕ) (hg2 : cfg.GrayLevels = 2)
    (hi : i / 8 < allBytes.length) :
    renderCellValue cfg allBytes stale i =
      ((allBytes.getD (i / 8) 0) >>> UInt8.ofNat (7 - i % 8)) &&& 1 := by
  simp only [renderCellValue, hg2, if_pos]
  rw [if_pos hi]

/-- The decoder block average over one encoded grid cell is exactly the
gray level of that cell. -/
theorem encodeFrameImage_cell (cfg : FrameConfig) (allBytes : List UInt8)
    (stale : ℕ → UInt8) (cx cy : ℕ) (hcx : cx < cfg.colsNat)
    (hcy : cy < cfg.rowsNat) (hms : 0 < cfg.MacroSize.toNat)
    (hw : cfg.colsNat * cfg.MacroSize.toNat ≤ cfg.Width.toNat)
    (hh : 16 + cfg.rowsNat * cfg.MacroSize.toNat ≤ cfg.Height.toNat) :
    extractMacroPixel (encodeFrameImage cfg allBytes stale)
      ((cx * cfg.MacroSize.toNat : ℕ) : ℤ) ((cy * cfg.MacroSize.toNat : ℕ) : ℤ)
      cfg.MacroSize.toNat =
    (ByteToGray (cfg.GrayLevels = 2)
      (renderCellValue cfg allBytes stale (cy * cfg.colsNat + cx))).toNat := by
  apply extractMacroPixel_const
  · exact hms
  · show cx * cfg.MacroSize.toNat + cfg.MacroSize.toNat ≤ cfg.Width.toNat
    calc cx * cfg.MacroSize.toNat + cfg.MacroSize.toNat
        = (cx + 1) * cfg.MacroSize.toNat := by ring
      _ ≤ cfg.colsNat * cfg.MacroSize.toNat :=
          Nat.mul_le_mul_right _ (by omega)
      _ ≤ cfg.Width.toNat := hw
  · show cy * cfg.MacroSize.toNat + 16 + cfg.MacroSize.toNat ≤ cfg.Height.toNat
    calc cy * cfg.MacroSize.toNat + 16 + cfg.MacroSize.toNat
        = 16 + (cy + 1) * cfg.MacroSize.toNat := by ring
      _ ≤ 16 + cfg.rowsNat * cfg.MacroSize.toNat :=
          Nat.add_le_add_left (Nat.mul_le_mul_right _ (by omega)) 16
      _ ≤ cfg.Height.toNat := hh
  · intro dx dy hdx hdy
    show (encodeFrameImage cfg allBytes stale).atPx
      (cx * cfg.MacroSize.toNat + dx) (cy * cfg.MacroSize.toNat + 16 + dy) = _
    simp only [encodeFrameImage, CalibrationBarHeight]
    rw [if_neg (Nat.not_lt.mpr (le_trans (Nat.le_add_left 16 _)
      (Nat.le_add_right _ dy)))]
    have hcx2 : (cx * cfg.MacroSize.toNat + dx) / cfg.MacroSize.toNat = cx := by
      rw [Nat.mul_comm cx _, Nat.mul_add_div hms, Nat.div_eq_of_lt hdx,
        Nat.add_zero]
    have hcy2 : (cy * cfg.MacroSize.toNat + 16 + dy - 16) /
        cfg.MacroSize.toNat = cy := by
      have e : cy * cfg.MacroSize.toNat + 16 + dy - 16 =
          cfg.MacroSize.toNat * cy + dy := by
        rw [Nat.add_right_comm, Nat.add_sub_cancel, Nat.mul_comm]
      rw [e, Nat.mul_add_div hms, Nat.div_eq_of_lt hdy, Nat.add_zero]
    rw [hcx2, hcy2, if_pos ⟨hcx, hcy⟩]

/-- Bounds for the calibration sampler when the four calibration rows it
reads lie in [cLo, cHi] and the four data rows lie in [dLo, dHi]. -/
theorem measureSectionAverage_bounds (img : Image) (sX mx : ℕ) (hmx : 0 < mx)
    (cLo cHi dLo dHi : ℕ)
    (hcal : ∀ x y, sX + mx ≤ x → x < sX + 3 * mx → 12 ≤ y → y < 16 →
      cLo ≤ img.atPx x y ∧ img.atPx x y ≤ cHi)
    (hdata : ∀ x y, sX + mx ≤ x → x < sX + 3 * mx → 16 ≤ y → y < 20 →
      dLo ≤ img.atPx x y ∧ img.atPx x y ≤ dHi) :
    (cLo + dLo) / 2 ≤ measureSectionAverage img sX 8 (4 * mx) 16 ∧
    measureSectionAverage img sX 8 (4 * mx) 16 ≤ (cHi + dHi) / 2 := by
  simp only [measureSectionAverage]
  rw [show 4 * mx / 4 = mx from by omega]
  rw [show (16 : ℕ) / 4 = 4 from by norm_num]
  rw [show (16 : ℕ) - 4 - 4 = 8 from by norm_num]
  rw [show (8 : ℕ) + 4 = 12 from by norm_num]
  rw [show 4 * mx - mx - mx = 2 * mx from by omega]
  have hcalRow : ∀ j, j < 4 →
      2 * mx * cLo ≤ sumRange (fun i => img.atPx (sX + mx + i) (12 + j)) (2 * mx) ∧
      sumRange (fun i => img.atPx (sX + mx + i) (12 + j)) (2 * mx) ≤ 2 * mx * cHi := by
    intro j hj
    constructor
    · have h := sumRange_le (fun _ => cLo) (fun i => img.atPx (sX + mx + i) (12 + j))
        (2 * mx) (fun i hi => (hcal _ _ (by omega) (by omega) (by omega) (by omega)).1)
      rw [sumRange_const] at h
      exact h
    · have h := sumRange_le (fun i => img.atPx (sX + mx + i) (12 + j)) (fun _ => cHi)
        (2 * mx) (fun i hi => (hcal _ _ (by omega) (by omega) (by omega) (by omega)).2)
      rw [sumRange_const] at h
      exact h
  have hdataRow : ∀ j, j < 4 →
      2 * mx * dLo ≤
        sumRange (fun i => img.atPx (sX + mx + i) (12 + (4 + j))) (2 * mx) ∧
      sumRange (fun i => img.atPx (sX + mx + i) (12 + (4 + j))) (2 * mx) ≤
        2 * mx * dHi := by
    intro j hj
    constructor
    · have h := sumRange_le (fun _ => dLo)
        (fun i => img.atPx (sX + mx + i) (12 + (4 + j))) (2 * mx)
        (fun i hi => (hdata _ _ (by omega) (by omega) (by omega) (by omega)).1)
      rw [sumRange_const] at h
      exact h
    · have h := sumRange_le (fun i => img.atPx (sX + mx + i) (12 + (4 + j)))
        (fun _ => dHi) (2 * mx)
        (fun i hi => (hdata _ _ (by omega) (by omega) (by omega) (by omega)).2)
      rw [sumRange_const] at h
      exact h
  have hs : sumRange (fun j =>
      sumRange (fun i => img.atPx (sX + mx + i) (12 + j)) (2 * mx)) 8 =
      sumRange (fun j =>
        sumRange (fun i => img.atPx (sX + mx + i) (12 + j)) (2 * mx)) 4 +
      sumRange (fun j =>
        sumRange (fun i => img.atPx (sX + mx + i) (12 + (4 + j))) (2 * mx)) 4 :=
    sumRange_split _ 4 4
  have hA1 : 4 * (2 * mx * cLo) ≤ sumRange (fun j =>
      sumRange (fun i => img.atPx (sX + mx + i) (12 + j)) (2 * mx)) 4 := by
    have h := sumRange_le (fun _ => 2 * mx * cLo)
      (fun j => sumRange (fun i => img.atPx (sX + mx + i) (12 + j)) (2 * mx)) 4
      (fun j hj => (hcalRow j hj).1)
    rw [sumRange_const] at h
    exact h
  have hA2 : sumRange (fun j =>
      sumRange (fun i => img.atPx (sX + mx + i) (12 + j)) (2 * mx)) 4 ≤
      4 * (2 * mx * cHi) := by
    have h := sumRange_le
      (fun j => sumRange (fun i => img.atPx (sX + mx + i) (12 + j)) (2 * mx))
      (fun _ => 2 * mx * cHi) 4 (fun j hj => (hcalRow j hj).2)
    rw [sumRange_const] at h
    exact h
  have hB1 : 4 * (2 * mx * dLo) ≤ sumRange (fun j =>
      sumRange (fun i => img.atPx (sX + mx + i) (12 + (4 + j))) (2 * mx)) 4 := by
    have h := sumRange_le (fun _ => 2 * mx * dLo)
      (fun j => sumRange (fun i => img.atPx (sX + mx + i) (12 + (4 + j))) (2 * mx)) 4
      (fun j hj => (hdataRow j hj).1)
    rw [sumRange_const] at h
    exact h
  have hB2 : sumRange (fun j =>
      sumRange (fun i => img.atPx (sX + mx + i) (12 + (4 + j))) (2 * mx)) 4 ≤
      4 * (2 * mx * dHi) := by
    have h := sumRange_le
      (fun j => sumRange (fun i => img.atPx (sX + mx + i) (12 + (4 + j))) (2 * mx))
      (fun _ => 2 * mx * dHi) 4 (fun j hj => (hdataRow j hj).2)
    rw [sumRange_const] at h
    exact h
  rw [if_neg (by omega), hs]
  constructor
  · rw [Nat.le_div_iff_mul_le (show 0 < 8 * (2 * mx) by omega)]
    calc (cLo + dLo) / 2 * (8 * (2 * mx))
        = (8 * mx) * (2 * ((cLo + dLo) / 2)) := by ring
      _ ≤ (8 * mx) * (cLo + dLo) := Nat.mul_le_mul_left _ (by omega)
      _ = 4 * (2 * mx * cLo) + 4 * (2 * mx * dLo) := by ring
      _ ≤ _ := Nat.add_le_add hA1 hB1
  · have hlt : sumRange (fun j =>
        sumRange (fun i => img.atPx (sX + mx + i) (12 + j)) (2 * mx)) 4 +
        sumRange (fun j =>
          sumRange (fun i => img.atPx (sX + mx + i) (12 + (4 + j))) (2 * mx)) 4 <
        ((cHi + dHi) / 2 + 1) * (8 * (2 * mx)) := by
      calc _ ≤ 4 * (2 * mx * cHi) + 4 * (2 * mx * dHi) := Nat.add_le_add hA2 hB2
        _ = (8 * mx) * (cHi + dHi) := by ring
        _ < (8 * mx) * (2 * ((cHi + dHi) / 2 + 1)) :=
            (Nat.mul_lt_mul_left (by omega)).mpr (by omega)
        _ = ((cHi + dHi) / 2 + 1) * (8 * (2 * mx)) := by ring
    exact Nat.lt_succ_iff.mp
      ((Nat.div_lt_iff_lt_mul (show 0 < 8 * (2 * mx) by omega)).mpr hlt)

/-- On a rendered binary-preset frame the calibrated threshold always
lands in (32, 224], whatever the payload: the black section mean is in
[16, 112] and the white section mean is in [143, 239] (each mixes four
calibration rows with four data rows whose levels are 32 or 224). -/
theorem calibrateFrame_encode (cfg : FrameConfig) (hp : BinaryPresetOK cfg)
    (allBytes : List UInt8) (stale : ℕ → UInt8) :
    32 < calibrateFrame (encodeFrameImage cfg allBytes stale) ∧
    calibrateFrame (encodeFrameImage cfg allBytes stale) ≤ 224 := by
  obtain ⟨hg, hms, hcw, hrows, hrh, hdiv, hpos, hbytes, hWint, hHint⟩ := hp
  have hrh16 : 16 + cfg.rowsNat * cfg.MacroSize.toNat ≤ cfg.Height.toNat := hrh
  have hcal_black : ∀ x y, x < cfg.Width.toNat / 4 → y < 16 →
      (encodeFrameImage cfg allBytes stale).atPx x y = 0 := by
    intro x y hx hy
    simp only [encodeFrameImage, CalibrationBarHeight]
    rw [if_pos hy]
    exact calibrationBarValue_black _ _ hx
  have hcal_white : ∀ x y, cfg.Width.toNat / 4 * 3 ≤ x → y < 16 →
      (encodeFrameImage cfg allBytes stale).atPx x y = 255 := by
    intro x y hx hy
    simp only [encodeFrameImage, CalibrationBarHeight]
    rw [if_pos hy]
    exact calibrationBarValue_white _ _ hx
  have hdata_px : ∀ x y, x < cfg.Width.toNat → 16 ≤ y → y < 20 →
      32 ≤ (encodeFrameImage cfg allBytes stale).atPx x y ∧
      (encodeFrameImage cfg allBytes stale).atPx x y ≤ 224 := by
    intro x y hx h16 h20
    simp only [encodeFrameImage, CalibrationBarHeight]
    rw [if_neg (by omega)]
    have hcx : x / cfg.MacroSize.toNat < cfg.colsNat := by
      rw [Nat.div_lt_iff_lt_mul (by omega)]
      rw [hcw]
      exact hx
    have hcy : (y - 16) / cfg.MacroSize.toNat < cfg.rowsNat := by
      rw [Nat.div_lt_iff_lt_mul (by omega)]
      calc y - 16 < cfg.MacroSize.toNat := by omega
        _ = 1 * cfg.MacroSize.toNat := (Nat.one_mul _).symm
        _ ≤ cfg.rowsNat * cfg.MacroSize.toNat := Nat.mul_le_mul_right _ hrows
    rw [if_pos ⟨hcx, hcy⟩, hg, show (decide ((2 : ℤ) = 2)) = true from rfl]
    rcases byteToGray_two (renderCellValue cfg allBytes stale
      ((y - 16) / cfg.MacroSize.toNat * cfg.colsNat + x / cfg.MacroSize.toNat))
      with h | h <;> omega
  have hq : cfg.Width.toNat / 4 = 4 * (cfg.Width.toNat / 16) := by omega
  simp only [calibrateFrame]
  rw [show (encodeFrameImage cfg allBytes stale).width = cfg.Width.toNat from rfl]
  rw [show CalibrationBarHeight / 2 = 8 from rfl]
  rw [show CalibrationBarHeight = 16 from rfl]
  rw [hq]
  have hBb := measureSectionAverage_bounds (encodeFrameImage cfg allBytes stale)
    0 (cfg.Width.toNat / 16) (by omega) 0 0 32 224
    (by
      intro x y hx1 hx2 hy1 hy2
      rw [hcal_black x y (by omega) (by omega)]
      omega)
    (by
      intro x y hx1 hx2 hy1 hy2
      exact hdata_px x y (by omega) (by omega) (by omega))
  have hWb := measureSectionAverage_bounds (encodeFrameImage cfg allBytes stale)
    (3 * (4 * (cfg.Width.toNat / 16))) (cfg.Width.toNat / 16) (by omega) 255 255 32 224
    (by
      intro x y hx1 hx2 hy1 hy2
      rw [hcal_white x y (by omega) (by omega)]
      omega)
    (by
      intro x y hx1 hx2 hy1 hy2
      exact hdata_px x y (by omega) (by omega) (by omega))
  omega

/-- Reading a rendered binary-preset frame back with any threshold in
(32, 224] recovers the byte image exactly. -/
theorem readBytes_encode (cfg : FrameConfig) (hp : BinaryPresetOK cfg)
    (allBytes : List UInt8) (stale : ℕ → UInt8) (T : ℕ) (lv : ℕ × ℕ × ℕ)
    (hT1 : 32 < T) (hT2 : T ≤ 224)
    (hlen : 8 * allBytes.length = cfg.totalMacrosNat) :
    readBytesFromImage cfg (encodeFrameImage cfg allBytes stale) T lv 0 0 =
      allBytes := by
  obtain ⟨hg, hms, hcw, hrows, hrh, hdiv, hpos, hbytes, hWint, hHint⟩ := hp
  simp only [readBytesFromImage]
  rw [if_pos hg]
  apply packBits8_flatMap
  · rw [hlen]
    exact Nat.mul_comm _ _
  · intro y x hy hx
    rw [if_pos hg]
    rw [add_zero, add_zero]
    have hyx : y * cfg.colsNat + x < cfg.rowsNat * cfg.colsNat := by
      calc y * cfg.colsNat + x < y * cfg.colsNat + cfg.colsNat := by omega
        _ = (y + 1) * cfg.colsNat := by ring
        _ ≤ cfg.rowsNat * cfg.colsNat := Nat.mul_le_mul_right _ (by omega)
    have hbyteidx : (y * cfg.colsNat + x) / 8 < allBytes.length := by
      rw [Nat.div_lt_iff_lt_mul (by norm_num)]
      calc y * cfg.colsNat + x < cfg.rowsNat * cfg.colsNat := hyx
        _ = cfg.colsNat * cfg.rowsNat := Nat.mul_comm _ _
        _ = 8 * allBytes.length := hlen.symm
        _ = allBytes.length * 8 := Nat.mul_comm _ _
    rw [encodeFrameImage_cell cfg allBytes stale x y hx hy (by omega)
      (le_of_eq hcw) hrh]
    rw [renderCellValue_binary cfg allBytes stale (y * cfg.colsNat + x) hg hbyteidx]
    rw [hg, show (decide ((2 : ℤ) = 2)) = true from rfl]
    exact binary_quantize _ T hT1 hT2

/-- Ceiling division bound: k shards of size ceil(L / k) hold L bytes. -/
theorem le_k_mul_ceil (k L : ℕ) (hk : 0 < k) : L ≤ k * ((L + k - 1) / k) := by
  rcases Nat.eq_zero_or_pos L with h0 | h0
  · rw [h0]
    exact Nat.zero_le _
  · have he : L + k - 1 = (L - 1) + k := by omega
    rw [he, Nat.add_div_right _ hk, Nat.mul_add, Nat.mul_one]
    have hd := Nat.div_add_mod (L - 1) k
    have hm : (L - 1) % k < k := Nat.mod_lt _ hk
    generalize k * ((L - 1) / k) = t at hd ⊢
    omega

/-- Ceiling division of a positive numerator is positive. -/
theorem ceil_pos (k L : ℕ) (hk : 0 < k) (hL : 1 ≤ L) : 1 ≤ (L + k - 1) / k := by
  rw [Nat.le_div_iff_mul_le hk]
  omega

/-- Every index below ceil(r / c) addresses a nonempty slice. -/
theorem lt_of_lt_ceil (c r j : ℕ) (hc : 0 < c) (hr : 0 < r)
    (hj : j < (r + c - 1) / c) : j * c < r := by
  have he : r + c - 1 = (r - 1) + c := by omega
  rw [he, Nat.add_div_right _ hc] at hj
  have hj2 : j ≤ (r - 1) / c := by omega
  have hd := Nat.div_add_mod (r - 1) c
  have hstep : j * c ≤ (r - 1) / c * c := Nat.mul_le_mul_right _ hj2
  rw [Nat.mul_comm ((r - 1) / c) c] at hstep
  generalize c * ((r - 1) / c) = t at hd hstep
  omega

/-- Length of a flattening of equal-size shards. -/
theorem flatten_length_const (ls : List (List UInt8)) (per : ℕ)
    (h : ∀ s ∈ ls, s.length = per) : ls.flatten.length = ls.length * per := by
  induction ls with
  | nil => simp
  | cons a t ih =>
    rw [List.flatten_cons, List.length_append, List.length_cons,
      ih (fun s hs => h s (by simp [hs])), h a (by simp)]
    ring

/-- Slicing the flattening of equal-size shards recovers each shard. -/
theorem flatten_get_slice (ls : List (List UInt8)) (per : ℕ)
    (h : ∀ s ∈ ls, s.length = per) :
    ∀ i, i < ls.length → (ls.flatten.drop (i * per)).take per = ls.getD i [] := by
  induction ls with
  | nil => intro i hi; exact absurd hi (by simp)
  | cons a t ih =>
    intro i hi
    cases i with
    | zero =>
      rw [Nat.zero_mul, List.drop_zero, List.flatten_cons, List.getD_cons_zero]
      rw [show per = a.length from (h a (by simp)).symm]
      exact List.take_left a t.flatten
    | succ i =>
      rw [List.flatten_cons, List.getD_cons_succ]
      rw [show (i + 1) * per = a.length + i * per from by
        rw [h a (by simp)]; ring]
      rw [List.drop_append]
      exact ih (fun s hs => h s (by simp [hs])) i (by simp at hi; omega)

/-- Rebuilding a list from its positional default reads. -/
theorem map_getD_range (ls : List (List UInt8)) :
    (List.range ls.length).map (fun i => ls.getD i []) = ls := by
  induction ls with
  | nil => rfl
  | cons a t ih =>
    simp only [List.length_cons, List.range_succ_eq_map, List.map_cons,
      List.getD_cons_zero, List.map_map]
    have hc : ∀ i ∈ List.range t.length,
        ((fun i => (a :: t).getD i []) ∘ Nat.succ) i = t.getD i [] := by
      intro i hi
      simp [List.getD_cons_succ]
    rw [List.map_congr_left hc, ih]

/-- The decoder shard rebuild applied to the flattening of equal-size
shards reproduces the shards: no index reaches the zero-fill branch and
no chunk needs padding. -/
theorem rebuild_slices (ls : List (List UInt8)) (ss : ℕ) (hss : 0 < ss)
    (hlen : ∀ s ∈ ls, s.length = ss) :
    (List.range ls.length).map (fun i =>
      if i * ss ≥ ls.flatten.length then List.replicate ss 0
      else (ls.flatten.drop (i * ss)).take ss ++
        List.replicate (ss - ((ls.flatten.drop (i * ss)).take ss).length) 0) = ls := by
  have hflat : ls.flatten.length = ls.length * ss := flatten_length_const ls ss hlen
  have hpt : ∀ i ∈ List.range ls.length,
      (if i * ss ≥ ls.flatten.length then List.replicate ss 0
      else (ls.flatten.drop (i * ss)).take ss ++
        List.replicate (ss - ((ls.flatten.drop (i * ss)).take ss).length) 0) =
      ls.getD i [] := by
    intro i hi
    have hi2 : i < ls.length := List.mem_range.mp hi
    have hlt : i * ss < ls.flatten.length := by
      rw [hflat]
      have h1 : (i + 1) * ss ≤ ls.length * ss := Nat.mul_le_mul_right _ (by omega)
      have h2 : (i + 1) * ss = i * ss + ss := by ring
      generalize i * ss = a at h1 h2 ⊢
      generalize ls.length * ss = b at h1 ⊢
      omega
    rw [if_neg (by omega)]
    rw [flatten_get_slice ls ss hlen i hi2]
    have hgl : (ls.getD i []).length = ss := by
      have hmem : ls.getD i [] ∈ ls := by
        rw [List.getD_eq_getElem ls [] hi2]
        exact List.getElem_mem hi2
      exact hlen _ hmem
    rw [hgl, Nat.sub_self, List.replicate_zero, List.append_nil]
  rw [List.map_congr_left hpt, map_getD_range]

/-- Re-flattening consecutive fixed-size slices of a list recovers it. -/
theorem flatten_slices (per : ℕ) : ∀ (k : ℕ) (l : List UInt8),
    l.length = k * per →
    ((List.range k).map fun i => (l.drop (i * per)).take per).flatten = l := by
  intro k
  induction k with
  | zero =>
    intro l hl
    have h0 : l = [] := List.eq_nil_of_length_eq_zero (by omega)
    rw [h0]
    rfl
  | succ k ih =>
    intro l hl
    rw [List.range_succ_eq_map, List.map_cons, List.map_map, List.flatten_cons]
    rw [show (0 : ℕ) * per = 0 from by ring, List.drop_zero]
    have hpt : ∀ i ∈ List.range k,
        ((fun i => (l.drop (i * per)).take per) ∘ Nat.succ) i =
        ((l.drop per).drop (i * per)).take per := by
      intro i hi
      show (l.drop ((i + 1) * per)).take per = _
      rw [List.drop_drop, show per + i * per = (i + 1) * per from by ring]
    rw [List.map_congr_left hpt, ih (l.drop per) (by
      rw [List.length_drop, hl]
      rw [show (k + 1) * per = k * per + per from by ring, Nat.add_sub_cancel])]
    exact List.take_append_drop per l

/-- Bytewise XOR keeps the common length. -/
theorem xorBytes_length (a b : List UInt8) :
    (xorBytes a b).length = min a.length b.length := by
  simp [xorBytes]

/-- Folding XOR over equal-size shards keeps the shard size. -/
theorem xor_fold_length (per : ℕ) : ∀ (ds : List (List UInt8)) (init : List UInt8),
    (∀ s ∈ ds, s.length = per) → init.length = per →
    (ds.foldl xorBytes init).length = per := by
  intro ds
  induction ds with
  | nil => intro init h hinit; exact hinit
  | cons a t ih =>
    intro init h hinit
    rw [List.foldl_cons]
    exact ih _ (fun s hs => h s (by simp [hs]))
      (by rw [xorBytes_length, hinit, h a (by simp)]; omega)

/-- Model parity shards all have the shard size. -/
theorem rsParity_shard_len (m per : ℕ) (ds : List (List UInt8))
    (h : ∀ s ∈ ds, s.length = per) :
    ∀ s ∈ rsParityShards m per ds, s.length = per := by
  intro s hs
  simp only [rsParityShards] at hs
  rw [List.eq_of_mem_replicate hs]
  exact xor_fold_length per ds _ h (by rw [List.length_replicate])

/-- Split produces exactly k shards. -/
theorem rsSplit_count (k : ℕ) (data : List UInt8) : (rsSplit k data).length = k := by
  simp [rsSplit]

/-- Every Split shard has the ceiling shard size. -/
theorem rsSplit_shard_len (k : ℕ) (data : List UInt8) (hk : 0 < k) :
    ∀ s ∈ rsSplit k data, s.length = rsShardSize k data.length := by
  intro s hs
  simp only [rsSplit, List.mem_map] at hs
  obtain ⟨i, hi, rfl⟩ := hs
  have hik : i < k := List.mem_range.mp hi
  rw [List.length_take, List.length_drop]
  have hle : data.length ≤ k * rsShardSize k data.length :=
    le_k_mul_ceil k data.length hk
  have hpl : (data ++ List.replicate
      (k * rsShardSize k data.length - data.length) 0).length =
      k * rsShardSize k data.length := by
    rw [List.length_append, List.length_replicate]
    generalize k * rsShardSize k data.length = t at hle ⊢
    omega
  rw [hpl]
  have h1 : (i + 1) * rsShardSize k data.length ≤ k * rsShardSize k data.length :=
    Nat.mul_le_mul_right _ (by omega)
  have h2 : (i + 1) * rsShardSize k data.length =
      i * rsShardSize k data.length + rsShardSize k data.length := by ring
  generalize i * rsShardSize k data.length = a at h1 h2 ⊢
  generalize k * rsShardSize k data.length = b at h1 ⊢
  omega

/-- The flattening of the Split shards is the zero-padded buffer. -/
theorem rsSplit_flatten (k : ℕ) (data : List UInt8) (hk : 0 < k) :
    (rsSplit k data).flatten =
    data ++ List.replicate (k * rsShardSize k data.length - data.length) 0 := by
  simp only [rsSplit]
  apply flatten_slices
  rw [List.length_append, List.length_replicate]
  have hle : data.length ≤ k * rsShardSize k data.length :=
    le_k_mul_ceil k data.length hk
  generalize k * rsShardSize k data.length = t at hle ⊢
  omega

/-- Every frame after the first carries the sliding-window slice. -/
theorem frameChunk_tail (data : List UInt8) (cap0 capN i : ℕ) (hi : 1 ≤ i) :
    frameChunk data cap0 capN i =
    (data.drop (cap0 + (i - 1) * capN)).take capN := by
  simp only [frameChunk]
  rw [if_neg (by omega)]
  generalize cap0 + (i - 1) * capN = s
  by_cases h : s ≥ data.length
  · rw [if_pos h, List.drop_eq_nil_of_le (by omega), List.take_nil]
  · rw [if_neg h]

/-- Concatenating k consecutive capN-slices from position s is one big
slice. -/
theorem chunksFrom (l : List UInt8) (capN : ℕ) : ∀ (k s : ℕ),
    ((List.range k).map fun j => (l.drop (s + j * capN)).take capN).flatten =
    (l.drop s).take (k * capN) := by
  intro k
  induction k with
  | zero => intro s; simp
  | succ k ih =>
    intro s
    rw [List.range_succ_eq_map, List.map_cons, List.map_map, List.flatten_cons]
    rw [show s + 0 * capN = s from by ring]
    have hpt : ∀ j ∈ List.range k,
        ((fun j => (l.drop (s + j * capN)).take capN) ∘ Nat.succ) j =
        (l.drop ((s + capN) + j * capN)).take capN := by
      intro j hj
      show (l.drop (s + (j + 1) * capN)).take capN = _
      rw [show s + (j + 1) * capN = (s + capN) + j * capN from by ring]
    rw [List.map_congr_left hpt, ih (s + capN)]
    rw [show (k + 1) * capN = capN + k * capN from by ring, List.take_add,
      List.drop_drop]

/-- The frame chunks of EncodeFile partition the payload exactly. -/
theorem chunks_reassemble (data : List UInt8) (cap0 capN : ℕ) (hcapN : 0 < capN) :
    data.take cap0 ++ ((List.range (totalFramesFor data.length cap0 capN - 1)).map
      fun j => frameChunk data cap0 capN (j + 1)).flatten = data := by
  have hfc : ∀ j ∈ List.range (totalFramesFor data.length cap0 capN - 1),
      frameChunk data cap0 capN (j + 1) = (data.drop (cap0 + j * capN)).take capN := by
    intro j hj
    rw [frameChunk_tail data cap0 capN (j + 1) (by omega)]
    rw [show (j + 1 : ℕ) - 1 = j from by omega]
  rw [List.map_congr_left hfc, chunksFrom]
  have hk : data.length - cap0 ≤
      (totalFramesFor data.length cap0 capN - 1) * capN := by
    simp only [totalFramesFor]
    by_cases h : data.length > cap0
    · rw [if_pos h]
      rw [if_pos (show data.length - cap0 > 0 from by omega)]
      rw [Nat.add_sub_cancel_left]
      have := le_k_mul_ceil capN (data.length - cap0) hcapN
      rw [Nat.mul_comm] at this
      exact this
    · rw [if_neg h]
      rw [if_neg (show ¬((0 : ℕ) > 0) from by omega)]
      rw [show (1 : ℕ) - 1 = 0 from rfl, Nat.zero_mul]
      omega
  rw [@List.take_of_length_le _ ((totalFramesFor data.length cap0 capN - 1) * capN)
    (List.drop cap0 data) (by rw [List.length_drop]; exact hk)]
  exact List.take_append_drop cap0 data

/-- ReconstructFile factored through the named step function. -/
theorem reconstructFile_eq (fr : FrameReconstructor) (imgs : List Image) :
    ReconstructFile fr imgs =
    assembleData (imgs.foldl reconStep (fr, [])).2 imgs.length := rfl

/-- Encode on a nonempty buffer yields the data shards plus parity. -/
theorem encode_eq (ecc : ECCConfig) (fd : List UInt8) (h16 : ecc.DataShards = 16)
    (hfd : 1 ≤ fd.length) :
    ECCEncoder.Encode ecc fd = .ok (rsSplit 16 fd ++
      rsParityShards ecc.ParityShards (rsShardSize 16 fd.length) (rsSplit 16 fd)) := by
  simp only [ECCEncoder.Encode, h16]
  rw [if_neg (by omega)]

/-- Header serialization succeeds whenever the magic has its 4 bytes. -/
theorem frameHeader_encode_ok (fh : FrameHeader) (hmagic : fh.Magic = magicNCC1) :
    fh.Encode = .ok (fh.Magic ++ beBytes32 fh.FrameIndex ++ beBytes16 fh.DataSize ++
      beBytes32 fh.DataCRC ++ [fh.HasGlobal] ++ [fh.ParityShards] ++
      beBytes16 fh.GlobalOffset) := by
  simp only [FrameHeader.Encode]
  rw [if_neg (by simp [hmagic, magicNCC1, beBytes32, beBytes16, FrameHeaderSizeBytes])]

/-- Successful fail-fast map inverted into positional success facts. -/
theorem mapExcept_forall₂ {α β : Type} (f : α → Except DecodeErr β) :
    ∀ (l : List α) (bs : List β), mapExcept f l = .ok bs →
    List.Forall₂ (fun a b => f a = .ok b) l bs := by
  intro l
  induction l with
  | nil =>
    intro bs h
    simp only [mapExcept] at h
    injection h with h1
    rw [← h1]
    exact List.Forall₂.nil
  | cons a t ih =>
    intro bs h
    simp only [mapExcept] at h
    cases hfa : f a with
    | error e =>
      rw [hfa] at h
      exact absurd h (by simp)
    | ok b =>
      rw [hfa] at h
      cases hmt : mapExcept f t with
      | error e =>
        rw [hmt] at h
        exact absurd h (by simp)
      | ok bs2 =>
        rw [hmt] at h
        injection h with h1
        rw [← h1]
        exact List.Forall₂.cons hfa (ih bs2 hmt)

/-- The sequential reconstruction fold writes exactly one clean record per
frame, in order, with the expected payloads, and leaves the shared
reconstructor unchanged when every frame decodes without mutating it. -/
theorem reconstruct_fold (fr0 : FrameReconstructor)
    (frames : List Image) (payloads : List (List UInt8))
    (hf : List.Forall₂ (fun img pd => ∃ hd c,
      processFrame fr0 img = (fr0, Except.ok (pd, hd, c))) frames payloads) :
    ∀ acc : List DecodeResult,
    ∃ res : List DecodeResult,
      frames.foldl reconStep (fr0, acc) = (fr0, acc ++ res) ∧
      res.map (fun r => r.index) = List.range' acc.length frames.length ∧
      res.map (fun r => r.data) = payloads ∧
      ∀ r ∈ res, r.err = none := by
  induction hf with
  | nil =>
    intro acc
    exact ⟨[], by simp, by simp [List.range'], rfl, by simp⟩
  | @cons img pd fs pds hpair htail ih =>
    intro acc
    obtain ⟨hd, c, hpf⟩ := hpair
    have hstep : reconStep (fr0, acc) img =
        (fr0, acc ++ [⟨acc.length, pd, hd, c, none⟩]) := by
      simp only [reconStep]
      rw [hpf]
    rw [List.foldl_cons, hstep]
    obtain ⟨res2, h1, h2, h3, h4⟩ := ih (acc ++ [⟨acc.length, pd, hd, c, none⟩])
    refine ⟨⟨acc.length, pd, hd, c, none⟩ :: res2, ?_, ?_, ?_, ?_⟩
    · rw [h1]
      simp [List.append_assoc]
    · simp only [List.map_cons, List.length_cons]
      rw [List.length_append, List.length_singleton] at h2
      rw [List.range'_succ, h2]
    · simp only [List.map_cons]
      rw [h3]
    · intro r hr
      rcases List.mem_cons.mp hr with h | h
      · rw [h]
      · exact h4 r h

/-- The byte image of a frame whose encoded payload fits the grid: header
bytes, then the flattened shards, then padding up to the grid size. -/
theorem renderBytes_ok (cfg : FrameConfig) (ecc : ECCConfig) (fh : FrameHeader)
    (fd : List UInt8) (padd : ℕ → UInt8)
    (h16 : ecc.DataShards = 16) (hfd : 1 ≤ fd.length)
    (hmagic : fh.Magic = magicNCC1)
    (hfits : 18 + (16 + ecc.ParityShards) * rsShardSize 16 fd.length ≤
      cfg.maxBytesNat) :
    RenderBytes cfg ecc fh fd padd = .ok (
      (fh.Magic ++ beBytes32 fh.FrameIndex ++ beBytes16 fh.DataSize ++
        beBytes32 fh.DataCRC ++ [fh.HasGlobal] ++ [fh.ParityShards] ++
        beBytes16 fh.GlobalOffset) ++
      ((rsSplit 16 fd ++ rsParityShards ecc.ParityShards (rsShardSize 16 fd.length)
        (rsSplit 16 fd)).flatten ++
      (List.range (cfg.maxBytesNat - (18 + (16 + ecc.ParityShards) *
        rsShardSize 16 fd.length))).map padd)) := by
  have hall : ∀ s ∈ rsSplit 16 fd ++ rsParityShards ecc.ParityShards
      (rsShardSize 16 fd.length) (rsSplit 16 fd),
      s.length = rsShardSize 16 fd.length := by
    intro s hs
    rcases List.mem_append.mp hs with h | h
    · exact rsSplit_shard_len 16 fd (by norm_num) s h
    · exact rsParity_shard_len _ _ _ (rsSplit_shard_len 16 fd (by norm_num)) s h
  have hcount : (rsSplit 16 fd ++ rsParityShards ecc.ParityShards
      (rsShardSize 16 fd.length) (rsSplit 16 fd)).length =
      16 + ecc.ParityShards := by
    rw [List.length_append, rsSplit_count]
    simp [rsParityShards]
  have hFL : (rsSplit 16 fd ++ rsParityShards ecc.ParityShards
      (rsShardSize 16 fd.length) (rsSplit 16 fd)).flatten.length =
      (16 + ecc.ParityShards) * rsShardSize 16 fd.length := by
    rw [flatten_length_const _ _ hall, hcount]
  have hhb : (fh.Magic ++ beBytes32 fh.FrameIndex ++ beBytes16 fh.DataSize ++
      beBytes32 fh.DataCRC ++ [fh.HasGlobal] ++ [fh.ParityShards] ++
      beBytes16 fh.GlobalOffset).length = 18 := by
    simp [hmagic, magicNCC1, beBytes32, beBytes16]
  simp only [RenderBytes]
  rw [encode_eq ecc fd h16 hfd, frameHeader_encode_ok fh hmagic]
  dsimp only [Bind.bind, Monad.toBind, Except.instMonad, Except.bind]
  have hlen1 : ((fh.Magic ++ beBytes32 fh.FrameIndex ++ beBytes16 fh.DataSize ++
      beBytes32 fh.DataCRC ++ [fh.HasGlobal] ++ [fh.ParityShards] ++
      beBytes16 fh.GlobalOffset) ++
      (rsSplit 16 fd ++ rsParityShards ecc.ParityShards (rsShardSize 16 fd.length)
        (rsSplit 16 fd)).flatten).length =
      18 + (16 + ecc.ParityShards) * rsShardSize 16 fd.length := by
    rw [List.length_append, hhb, hFL]
  by_cases hcase : 18 + (16 + ecc.ParityShards) * rsShardSize 16 fd.length <
      cfg.maxBytesNat
  · rw [hlen1, if_pos hcase]
    rw [if_neg (by
      rw [List.length_append, hlen1, List.length_map, List.length_range]
      generalize (16 + ecc.ParityShards) * rsShardSize 16 fd.length = X at hcase ⊢
      omega)]
    rw [List.append_assoc]
  · rw [hlen1, if_neg hcase]
    rw [if_neg (by
      rw [hlen1]
      generalize (16 + ecc.ParityShards) * rsShardSize 16 fd.length = X at hfits ⊢
      omega)]
    have hz : cfg.maxBytesNat - (18 + (16 + ecc.ParityShards) *
        rsShardSize 16 fd.length) = 0 := by
      generalize (16 + ecc.ParityShards) * rsShardSize 16 fd.length = X at hfits hcase ⊢
      omega
    rw [hz, List.range_zero, List.map_nil, List.append_nil, List.append_assoc]

/-- Verify holds on data shards followed by their model parity. -/
theorem verify_append (k m per : ℕ) (ds par : List (List UInt8))
    (hdsc : ds.length = k)
    (hdl : ∀ s ∈ ds, s.length = per)
    (hpar : par = rsParityShards m per ds) :
    ∀ a t, ds = a :: t → ECCEncoder.Verify ⟨k, m⟩ (ds ++ par) = true := by
  intro a t hcons
  subst hcons
  simp only [ECCEncoder.Verify]
  dsimp only
  rw [show (((a :: t) ++ par).headD []) = a from rfl]
  rw [hdl a (by simp)]
  rw [← hdsc, List.drop_left, List.take_left, hpar]
  simp

/-- Verify on nonempty data shards followed by their model parity. -/
theorem verify_append2 (k m per : ℕ) (ds par : List (List UInt8))
    (hdsc : ds.length = k)
    (hdl : ∀ s ∈ ds, s.length = per)
    (hpar : par = rsParityShards m per ds)
    (hne : ds ≠ []) :
    ECCEncoder.Verify ⟨k, m⟩ (ds ++ par) = true := by
  cases hd : ds with
  | nil => exact absurd hd hne
  | cons a t =>
    subst hd
    exact verify_append k m per (a :: t) par hdsc hdl hpar a t rfl

/-- processFrame shard rebuild on a frame byte image made of 18 header
bytes, the flattening of 16+p equal shards of the derived shard size, and
padding: the decoder recovers exactly those shards. -/
theorem decodeShards_rebuild (cfg : FrameConfig) (hdr : FrameHeader)
    (hb : List UInt8) (ls : List (List UInt8)) (pad : List UInt8)
    (hhb : hb.length = 18)
    (hls : ls.length = 16 + hdr.ParityShards.toNat)
    (hps0 : hdr.ParityShards.toNat ≠ 0)
    (hper : ∀ s ∈ ls, s.length = (hdr.DataSize.toNat + 16 - 1) / 16)
    (hpos : 1 ≤ (hdr.DataSize.toNat + 16 - 1) / 16)
    (htot : hb.length + (ls.flatten.length + pad.length) = cfg.maxBytesNat) :
    decodeShards cfg hdr (hb ++ (ls.flatten ++ pad)) =
      (⟨16, hdr.ParityShards.toNat⟩, (hdr.DataSize.toNat + 16 - 1) / 16, ls) := by
  have hablen : (hb ++ (ls.flatten ++ pad)).length = cfg.maxBytesNat := by
    rw [List.length_append, List.length_append]
    exact htot
  have hfl : ls.flatten.length = ls.length * ((hdr.DataSize.toNat + 16 - 1) / 16) :=
    flatten_length_const ls _ hper
  simp only [decodeShards, decodeEccCfg, FrameHeaderSizeBytes]
  rw [hablen, Nat.min_self]
  rw [show (hb ++ (ls.flatten ++ pad)).drop 18 = ls.flatten ++ pad from by
    rw [← hhb, List.drop_left]]
  rw [show (ls.flatten ++ pad).take (cfg.maxBytesNat - 18) = ls.flatten ++ pad from by
    apply List.take_of_length_le
    rw [List.length_append]
    omega]
  rw [if_neg hps0]
  rw [if_neg (by omega)]
  rw [show min ((hdr.DataSize.toNat + 16 - 1) / 16 * (16 + hdr.ParityShards.toNat))
      (ls.flatten ++ pad).length =
      (hdr.DataSize.toNat + 16 - 1) / 16 * (16 + hdr.ParityShards.toNat) from by
    apply Nat.min_eq_left
    rw [List.length_append, hfl, hls]
    rw [Nat.mul_comm ((hdr.DataSize.toNat + 16 - 1) / 16) (16 + hdr.ParityShards.toNat)]
    exact Nat.le_add_right _ _]
  rw [show (ls.flatten ++ pad).take
      ((hdr.DataSize.toNat + 16 - 1) / 16 * (16 + hdr.ParityShards.toNat)) =
      ls.flatten from by
    rw [show (hdr.DataSize.toNat + 16 - 1) / 16 * (16 + hdr.ParityShards.toNat) =
      ls.flatten.length from by
      rw [hfl, hls]
      exact Nat.mul_comm _ _]
    exact List.take_left ls.flatten pad]
  rw [show 16 + hdr.ParityShards.toNat = ls.length from hls.symm]
  rw [rebuild_slices ls _ (by omega) hper]

/-- Join over data shards of exactly the expected size. -/
theorem join_eq (m : ℕ) (ds par : List (List UInt8)) (outSize : ℕ)
    (hds16 : ds.length = 16)
    (hflat : ds.flatten.length = outSize) :
    ECCEncoder.Join ⟨16, m⟩ (ds ++ par) outSize = .ok ds.flatten := by
  simp only [ECCEncoder.Join]
  rw [← hds16, List.take_left]
  rw [if_neg (by omega)]
  rw [List.take_of_length_le (le_of_eq hflat)]

/-- Core round trip for one frame on a binary preset: rendering the frame
bytes to a raster and running the full decode pipeline returns the
reconstructor unchanged and hands the zero-padded frame data to the
finalization stage under the re-parsed header. -/
theorem processFrame_core (cfg : FrameConfig) (hp : BinaryPresetOK cfg)
    (fr : FrameReconstructor) (hfr : fr.FrameCfg = cfg)
    (hfre : fr.ECCCfg.DataShards = 16)
    (ecc : ECCConfig) (h16 : ecc.DataShards = 16)
    (hm0 : 0 < ecc.ParityShards) (hm256 : ecc.ParityShards < 256)
    (fh : FrameHeader) (fd : List UInt8) (padd stale : ℕ → UInt8)
    (hmagic : fh.Magic = magicNCC1)
    (hds : fh.DataSize = UInt16.ofNat fd.length)
    (hps : fh.ParityShards = UInt8.ofNat ecc.ParityShards)
    (hfd1 : 1 ≤ fd.length) (hfd512 : fd.length < 512)
    (hfits : 18 + (16 + ecc.ParityShards) * rsShardSize 16 fd.length ≤ cfg.maxBytesNat) :
    ∃ allBytes,
      RenderBytes cfg ecc fh fd padd = .ok allBytes ∧
      processFrame fr (encodeFrameImage cfg allBytes stale) =
        (fr, finalizeFrameData (⟨magicNCC1, beU32 (fh.FrameIndex >>> 24).toUInt8 (fh.FrameIndex >>> 16).toUInt8 (fh.FrameIndex >>> 8).toUInt8 fh.FrameIndex.toUInt8, UInt16.ofNat fd.length, beU32 (fh.DataCRC >>> 24).toUInt8 (fh.DataCRC >>> 16).toUInt8 (fh.DataCRC >>> 8).toUInt8 fh.DataCRC.toUInt8, fh.HasGlobal, fh.ParityShards, beU16 (fh.GlobalOffset >>> 8).toUInt8 fh.GlobalOffset.toUInt8, ⟨0, 0, List.replicate 8 0⟩⟩ : FrameHeader)
          (fd ++ List.replicate (16 * rsShardSize 16 fd.length - fd.length) 0)) := by
  have hp2 := hp
  obtain ⟨hg, hms, hcw, hrows, hrh, hdiv, hposw, hbytes, hWint, hHint⟩ := hp2
  have hbeu : beU16 ((UInt16.ofNat fd.length >>> 8).toUInt8)
      ((UInt16.ofNat fd.length).toUInt8) = UInt16.ofNat fd.length ∧
      (UInt16.ofNat fd.length).toNat = fd.length :=
    beU16_roundtrip_small ⟨fd.length, hfd512⟩
  have hpsnat : (UInt8.ofNat ecc.ParityShards).toNat = ecc.ParityShards :=
    u8_toNat_ofNat_small ⟨ecc.ParityShards, hm256⟩
  have hper1 : 1 ≤ rsShardSize 16 fd.length := ceil_pos 16 fd.length (by norm_num) hfd1
  have hdl : ∀ s ∈ rsSplit 16 fd, s.length = rsShardSize 16 fd.length :=
    rsSplit_shard_len 16 fd (by norm_num)
  have hall : ∀ s ∈ (rsSplit 16 fd ++ rsParityShards ecc.ParityShards (rsShardSize 16 fd.length) (rsSplit 16 fd)), s.length = rsShardSize 16 fd.length := by
    intro s hs
    rcases List.mem_append.mp hs with h | h
    · exact hdl s h
    · exact rsParity_shard_len _ _ _ hdl s h
  have hcount : (rsSplit 16 fd ++ rsParityShards ecc.ParityShards (rsShardSize 16 fd.length) (rsSplit 16 fd)).length = 16 + ecc.ParityShards := by
    rw [List.length_append, rsSplit_count]
    simp [rsParityShards]
  have hFLlen : ((rsSplit 16 fd ++ rsParityShards ecc.ParityShards (rsShardSize 16 fd.length) (rsSplit 16 fd)).flatten).length = (16 + ecc.ParityShards) * rsShardSize 16 fd.length := by
    rw [flatten_length_const _ _ hall, hcount]
  have hhb18 : ((fh.Magic ++ beBytes32 fh.FrameIndex ++ beBytes16 fh.DataSize ++ beBytes32 fh.DataCRC ++ [fh.HasGlobal] ++ [fh.ParityShards] ++ beBytes16 fh.GlobalOffset)).length = 18 := by
    simp [hmagic, magicNCC1, beBytes32, beBytes16]
  have hPADlen : ((List.range (cfg.maxBytesNat - (18 + (16 + ecc.ParityShards) * rsShardSize 16 fd.length))).map padd).length =
      cfg.maxBytesNat - (18 + (16 + ecc.ParityShards) * rsShardSize 16 fd.length) := by
    rw [List.length_map, List.length_range]
  have hABlen : (((fh.Magic ++ beBytes32 fh.FrameIndex ++ beBytes16 fh.DataSize ++ beBytes32 fh.DataCRC ++ [fh.HasGlobal] ++ [fh.ParityShards] ++ beBytes16 fh.GlobalOffset) ++ ((rsSplit 16 fd ++ rsParityShards ecc.ParityShards (rsShardSize 16 fd.length) (rsSplit 16 fd)).flatten ++ (List.range (cfg.maxBytesNat - (18 + (16 + ecc.ParityShards) * rsShardSize 16 fd.length))).map padd))).length = cfg.maxBytesNat := by
    rw [List.length_append, hhb18, List.length_append, hFLlen, hPADlen]
    generalize (16 + ecc.ParityShards) * rsShardSize 16 fd.length = X at hfits ⊢
    omega
  have hrb := renderBytes_ok cfg ecc fh fd padd h16 hfd1 hmagic hfits
  refine ⟨((fh.Magic ++ beBytes32 fh.FrameIndex ++ beBytes16 fh.DataSize ++ beBytes32 fh.DataCRC ++ [fh.HasGlobal] ++ [fh.ParityShards] ++ beBytes16 fh.GlobalOffset) ++ ((rsSplit 16 fd ++ rsParityShards ecc.ParityShards (rsShardSize 16 fd.length) (rsSplit 16 fd)).flatten ++ (List.range (cfg.maxBytesNat - (18 + (16 + ecc.ParityShards) * rsShardSize 16 fd.length))).map padd)), hrb, ?_⟩
  have htakeHB : (((fh.Magic ++ beBytes32 fh.FrameIndex ++ beBytes16 fh.DataSize ++ beBytes32 fh.DataCRC ++ [fh.HasGlobal] ++ [fh.ParityShards] ++ beBytes16 fh.GlobalOffset) ++ ((rsSplit 16 fd ++ rsParityShards ecc.ParityShards (rsShardSize 16 fd.length) (rsSplit 16 fd)).flatten ++ (List.range (cfg.maxBytesNat - (18 + (16 + ecc.ParityShards) * rsShardSize 16 fd.length))).map padd))).take FrameHeaderSizeBytes = (fh.Magic ++ beBytes32 fh.FrameIndex ++ beBytes16 fh.DataSize ++ beBytes32 fh.DataCRC ++ [fh.HasGlobal] ++ [fh.ParityShards] ++ beBytes16 fh.GlobalOffset) := by
    rw [show FrameHeaderSizeBytes = ((fh.Magic ++ beBytes32 fh.FrameIndex ++ beBytes16 fh.DataSize ++ beBytes32 fh.DataCRC ++ [fh.HasGlobal] ++ [fh.ParityShards] ++ beBytes16 fh.GlobalOffset)).length from by rw [hhb18]; rfl]
    exact List.take_left _ _
  have hECL : ((fh.Magic ++ beBytes32 fh.FrameIndex ++ beBytes16 fh.DataSize ++ beBytes32 fh.DataCRC ++ [fh.HasGlobal] ++ [fh.ParityShards] ++ beBytes16 fh.GlobalOffset)) = ((78 : UInt8) :: (67 : UInt8) :: (67 : UInt8) :: (49 : UInt8) :: (fh.FrameIndex >>> 24).toUInt8 :: (fh.FrameIndex >>> 16).toUInt8 :: (fh.FrameIndex >>> 8).toUInt8 :: fh.FrameIndex.toUInt8 :: (fh.DataSize >>> 8).toUInt8 :: fh.DataSize.toUInt8 :: (fh.DataCRC >>> 24).toUInt8 :: (fh.DataCRC >>> 16).toUInt8 :: (fh.DataCRC >>> 8).toUInt8 :: fh.DataCRC.toUInt8 :: fh.HasGlobal :: fh.ParityShards :: (fh.GlobalOffset >>> 8).toUInt8 :: [fh.GlobalOffset.toUInt8] : List UInt8) := by
    rw [hmagic]
    rfl
  have hDH : DecodeHeader ((((fh.Magic ++ beBytes32 fh.FrameIndex ++ beBytes16 fh.DataSize ++ beBytes32 fh.DataCRC ++ [fh.HasGlobal] ++ [fh.ParityShards] ++ beBytes16 fh.GlobalOffset) ++ ((rsSplit 16 fd ++ rsParityShards ecc.ParityShards (rsShardSize 16 fd.length) (rsSplit 16 fd)).flatten ++ (List.range (cfg.maxBytesNat - (18 + (16 + ecc.ParityShards) * rsShardSize 16 fd.length))).map padd))).take FrameHeaderSizeBytes) = .ok (⟨magicNCC1, beU32 (fh.FrameIndex >>> 24).toUInt8 (fh.FrameIndex >>> 16).toUInt8 (fh.FrameIndex >>> 8).toUInt8 fh.FrameIndex.toUInt8, UInt16.ofNat fd.length, beU32 (fh.DataCRC >>> 24).toUInt8 (fh.DataCRC >>> 16).toUInt8 (fh.DataCRC >>> 8).toUInt8 fh.DataCRC.toUInt8, fh.HasGlobal, fh.ParityShards, beU16 (fh.GlobalOffset >>> 8).toUInt8 fh.GlobalOffset.toUInt8, ⟨0, 0, List.replicate 8 0⟩⟩ : FrameHeader) := by
    rw [htakeHB, hECL, DecodeHeader_cons, hds, hbeu.1]
    rfl
  have hprobe : magicProbe ((fh.Magic ++ beBytes32 fh.FrameIndex ++ beBytes16 fh.DataSize ++ beBytes32 fh.DataCRC ++ [fh.HasGlobal] ++ [fh.ParityShards] ++ beBytes16 fh.GlobalOffset) ++ ((rsSplit 16 fd ++ rsParityShards ecc.ParityShards (rsShardSize 16 fd.length) (rsSplit 16 fd)).flatten ++ (List.range (cfg.maxBytesNat - (18 + (16 + ecc.ParityShards) * rsShardSize 16 fd.length))).map padd)) = true := by
    simp only [magicProbe]
    rw [hDH]
    simp
  have hcal := calibrateFrame_encode cfg hp ((fh.Magic ++ beBytes32 fh.FrameIndex ++ beBytes16 fh.DataSize ++ beBytes32 fh.DataCRC ++ [fh.HasGlobal] ++ [fh.ParityShards] ++ beBytes16 fh.GlobalOffset) ++ ((rsSplit 16 fd ++ rsParityShards ecc.ParityShards (rsShardSize 16 fd.length) (rsSplit 16 fd)).flatten ++ (List.range (cfg.maxBytesNat - (18 + (16 + ecc.ParityShards) * rsShardSize 16 fd.length))).map padd)) stale
  have hlen8 : 8 * (((fh.Magic ++ beBytes32 fh.FrameIndex ++ beBytes16 fh.DataSize ++ beBytes32 fh.DataCRC ++ [fh.HasGlobal] ++ [fh.ParityShards] ++ beBytes16 fh.GlobalOffset) ++ ((rsSplit 16 fd ++ rsParityShards ecc.ParityShards (rsShardSize 16 fd.length) (rsSplit 16 fd)).flatten ++ (List.range (cfg.maxBytesNat - (18 + (16 + ecc.ParityShards) * rsShardSize 16 fd.length))).map padd))).length = cfg.totalMacrosNat := by
    rw [hABlen]
    exact hbytes
  have hread := readBytes_encode cfg hp ((fh.Magic ++ beBytes32 fh.FrameIndex ++ beBytes16 fh.DataSize ++ beBytes32 fh.DataCRC ++ [fh.HasGlobal] ++ [fh.ParityShards] ++ beBytes16 fh.GlobalOffset) ++ ((rsSplit 16 fd ++ rsParityShards ecc.ParityShards (rsShardSize 16 fd.length) (rsSplit 16 fd)).flatten ++ (List.range (cfg.maxBytesNat - (18 + (16 + ecc.ParityShards) * rsShardSize 16 fd.length))).map padd)) stale
    (calibrateFrame (encodeFrameImage cfg ((fh.Magic ++ beBytes32 fh.FrameIndex ++ beBytes16 fh.DataSize ++ beBytes32 fh.DataCRC ++ [fh.HasGlobal] ++ [fh.ParityShards] ++ beBytes16 fh.GlobalOffset) ++ ((rsSplit 16 fd ++ rsParityShards ecc.ParityShards (rsShardSize 16 fd.length) (rsSplit 16 fd)).flatten ++ (List.range (cfg.maxBytesNat - (18 + (16 + ecc.ParityShards) * rsShardSize 16 fd.length))).map padd)) stale)) (calibrateLevels (encodeFrameImage cfg ((fh.Magic ++ beBytes32 fh.FrameIndex ++ beBytes16 fh.DataSize ++ beBytes32 fh.DataCRC ++ [fh.HasGlobal] ++ [fh.ParityShards] ++ beBytes16 fh.GlobalOffset) ++ ((rsSplit 16 fd ++ rsParityShards ecc.ParityShards (rsShardSize 16 fd.length) (rsSplit 16 fd)).flatten ++ (List.range (cfg.maxBytesNat - (18 + (16 + ecc.ParityShards) * rsShardSize 16 fd.length))).map padd)) stale)) hcal.1 hcal.2 hlen8
  have hw2 : ((encodeFrameImage cfg ((fh.Magic ++ beBytes32 fh.FrameIndex ++ beBytes16 fh.DataSize ++ beBytes32 fh.DataCRC ++ [fh.HasGlobal] ++ [fh.ParityShards] ++ beBytes16 fh.GlobalOffset) ++ ((rsSplit 16 fd ++ rsParityShards ecc.ParityShards (rsShardSize 16 fd.length) (rsSplit 16 fd)).flatten ++ (List.range (cfg.maxBytesNat - (18 + (16 + ecc.ParityShards) * rsShardSize 16 fd.length))).map padd)) stale).width : ℤ) = cfg.Width := by
    rw [show (encodeFrameImage cfg ((fh.Magic ++ beBytes32 fh.FrameIndex ++ beBytes16 fh.DataSize ++ beBytes32 fh.DataCRC ++ [fh.HasGlobal] ++ [fh.ParityShards] ++ beBytes16 fh.GlobalOffset) ++ ((rsSplit 16 fd ++ rsParityShards ecc.ParityShards (rsShardSize 16 fd.length) (rsSplit 16 fd)).flatten ++ (List.range (cfg.maxBytesNat - (18 + (16 + ecc.ParityShards) * rsShardSize 16 fd.length))).map padd)) stale).width = cfg.Width.toNat from rfl, hWint]
  have hh2 : ((encodeFrameImage cfg ((fh.Magic ++ beBytes32 fh.FrameIndex ++ beBytes16 fh.DataSize ++ beBytes32 fh.DataCRC ++ [fh.HasGlobal] ++ [fh.ParityShards] ++ beBytes16 fh.GlobalOffset) ++ ((rsSplit 16 fd ++ rsParityShards ecc.ParityShards (rsShardSize 16 fd.length) (rsSplit 16 fd)).flatten ++ (List.range (cfg.maxBytesNat - (18 + (16 + ecc.ParityShards) * rsShardSize 16 fd.length))).map padd)) stale).height : ℤ) = cfg.Height := by
    rw [show (encodeFrameImage cfg ((fh.Magic ++ beBytes32 fh.FrameIndex ++ beBytes16 fh.DataSize ++ beBytes32 fh.DataCRC ++ [fh.HasGlobal] ++ [fh.ParityShards] ++ beBytes16 fh.GlobalOffset) ++ ((rsSplit 16 fd ++ rsParityShards ecc.ParityShards (rsShardSize 16 fd.length) (rsSplit 16 fd)).flatten ++ (List.range (cfg.maxBytesNat - (18 + (16 + ecc.ParityShards) * rsShardSize 16 fd.length))).map padd)) stale).height = cfg.Height.toNat from rfl, hHint]
  have hadopt : adoptResolution fr.FrameCfg (encodeFrameImage cfg ((fh.Magic ++ beBytes32 fh.FrameIndex ++ beBytes16 fh.DataSize ++ beBytes32 fh.DataCRC ++ [fh.HasGlobal] ++ [fh.ParityShards] ++ beBytes16 fh.GlobalOffset) ++ ((rsSplit 16 fd ++ rsParityShards ecc.ParityShards (rsShardSize 16 fd.length) (rsSplit 16 fd)).flatten ++ (List.range (cfg.maxBytesNat - (18 + (16 + ecc.ParityShards) * rsShardSize 16 fd.length))).map padd)) stale) = cfg := by
    rw [hfr]
    simp only [adoptResolution]
    rw [if_neg (by rw [hw2, hh2]; simp)]
  have hfr2 : { fr with FrameCfg := cfg } = fr := by rw [← hfr]
  have hdrps : ((⟨magicNCC1, beU32 (fh.FrameIndex >>> 24).toUInt8 (fh.FrameIndex >>> 16).toUInt8 (fh.FrameIndex >>> 8).toUInt8 fh.FrameIndex.toUInt8, UInt16.ofNat fd.length, beU32 (fh.DataCRC >>> 24).toUInt8 (fh.DataCRC >>> 16).toUInt8 (fh.DataCRC >>> 8).toUInt8 fh.DataCRC.toUInt8, fh.HasGlobal, fh.ParityShards, beU16 (fh.GlobalOffset >>> 8).toUInt8 fh.GlobalOffset.toUInt8, ⟨0, 0, List.replicate 8 0⟩⟩ : FrameHeader)).ParityShards.toNat = ecc.ParityShards := by
    show fh.ParityShards.toNat = ecc.ParityShards
    rw [hps, hpsnat]
  have hdrds : (((⟨magicNCC1, beU32 (fh.FrameIndex >>> 24).toUInt8 (fh.FrameIndex >>> 16).toUInt8 (fh.FrameIndex >>> 8).toUInt8 fh.FrameIndex.toUInt8, UInt16.ofNat fd.length, beU32 (fh.DataCRC >>> 24).toUInt8 (fh.DataCRC >>> 16).toUInt8 (fh.DataCRC >>> 8).toUInt8 fh.DataCRC.toUInt8, fh.HasGlobal, fh.ParityShards, beU16 (fh.GlobalOffset >>> 8).toUInt8 fh.GlobalOffset.toUInt8, ⟨0, 0, List.replicate 8 0⟩⟩ : FrameHeader)).DataSize.toNat + 16 - 1) / 16 = rsShardSize 16 fd.length := by
    show ((UInt16.ofNat fd.length).toNat + 16 - 1) / 16 = rsShardSize 16 fd.length
    rw [hbeu.2]
    rfl
  have hL1 : decodeShards cfg (⟨magicNCC1, beU32 (fh.FrameIndex >>> 24).toUInt8 (fh.FrameIndex >>> 16).toUInt8 (fh.FrameIndex >>> 8).toUInt8 fh.FrameIndex.toUInt8, UInt16.ofNat fd.length, beU32 (fh.DataCRC >>> 24).toUInt8 (fh.DataCRC >>> 16).toUInt8 (fh.DataCRC >>> 8).toUInt8 fh.DataCRC.toUInt8, fh.HasGlobal, fh.ParityShards, beU16 (fh.GlobalOffset >>> 8).toUInt8 fh.GlobalOffset.toUInt8, ⟨0, 0, List.replicate 8 0⟩⟩ : FrameHeader) ((fh.Magic ++ beBytes32 fh.FrameIndex ++ beBytes16 fh.DataSize ++ beBytes32 fh.DataCRC ++ [fh.HasGlobal] ++ [fh.ParityShards] ++ beBytes16 fh.GlobalOffset) ++ ((rsSplit 16 fd ++ rsParityShards ecc.ParityShards (rsShardSize 16 fd.length) (rsSplit 16 fd)).flatten ++ (List.range (cfg.maxBytesNat - (18 + (16 + ecc.ParityShards) * rsShardSize 16 fd.length))).map padd)) =
      (⟨16, ecc.ParityShards⟩, rsShardSize 16 fd.length, (rsSplit 16 fd ++ rsParityShards ecc.ParityShards (rsShardSize 16 fd.length) (rsSplit 16 fd))) := by
    have h0 := decodeShards_rebuild cfg (⟨magicNCC1, beU32 (fh.FrameIndex >>> 24).toUInt8 (fh.FrameIndex >>> 16).toUInt8 (fh.FrameIndex >>> 8).toUInt8 fh.FrameIndex.toUInt8, UInt16.ofNat fd.length, beU32 (fh.DataCRC >>> 24).toUInt8 (fh.DataCRC >>> 16).toUInt8 (fh.DataCRC >>> 8).toUInt8 fh.DataCRC.toUInt8, fh.HasGlobal, fh.ParityShards, beU16 (fh.GlobalOffset >>> 8).toUInt8 fh.GlobalOffset.toUInt8, ⟨0, 0, List.replicate 8 0⟩⟩ : FrameHeader) (fh.Magic ++ beBytes32 fh.FrameIndex ++ beBytes16 fh.DataSize ++ beBytes32 fh.DataCRC ++ [fh.HasGlobal] ++ [fh.ParityShards] ++ beBytes16 fh.GlobalOffset) (rsSplit 16 fd ++ rsParityShards ecc.ParityShards (rsShardSize 16 fd.length) (rsSplit 16 fd)) ((List.range (cfg.maxBytesNat - (18 + (16 + ecc.ParityShards) * rsShardSize 16 fd.length))).map padd) hhb18
      (by rw [hdrps]; exact hcount)
      (by rw [hdrps]; omega)
      (by rw [hdrds]; exact hall)
      (by rw [hdrds]; exact hper1)
      (by
        rw [hhb18, hFLlen, hPADlen]
        generalize (16 + ecc.ParityShards) * rsShardSize 16 fd.length = X at hfits ⊢
        omega)
    rw [hdrps, hdrds] at h0
    exact h0
  have hver : ECCEncoder.Verify ⟨16, ecc.ParityShards⟩ (rsSplit 16 fd ++ rsParityShards ecc.ParityShards (rsShardSize 16 fd.length) (rsSplit 16 fd)) = true := by
    apply verify_append2 16 ecc.ParityShards (rsShardSize 16 fd.length) (rsSplit 16 fd) (rsParityShards ecc.ParityShards (rsShardSize 16 fd.length) (rsSplit 16 fd))
      (rsSplit_count 16 fd) hdl rfl
    intro hnil
    have hc := rsSplit_count 16 fd
    rw [hnil] at hc
    simp at hc
  have hflat16 : (rsSplit 16 fd).flatten.length = 16 * rsShardSize 16 fd.length := by
    rw [rsSplit_flatten 16 fd (by norm_num), List.length_append,
      List.length_replicate]
    have hle : fd.length ≤ 16 * rsShardSize 16 fd.length := le_k_mul_ceil 16 fd.length (by norm_num)
    generalize 16 * rsShardSize 16 fd.length = X at hle ⊢
    omega
  have hjoin := join_eq ecc.ParityShards (rsSplit 16 fd) (rsParityShards ecc.ParityShards (rsShardSize 16 fd.length) (rsSplit 16 fd)) (16 * rsShardSize 16 fd.length)
    (rsSplit_count 16 fd) hflat16
  simp only [processFrame]
  rw [hadopt, hread]
  rw [if_neg (show ¬((((fh.Magic ++ beBytes32 fh.FrameIndex ++ beBytes16 fh.DataSize ++ beBytes32 fh.DataCRC ++ [fh.HasGlobal] ++ [fh.ParityShards] ++ beBytes16 fh.GlobalOffset) ++ ((rsSplit 16 fd ++ rsParityShards ecc.ParityShards (rsShardSize 16 fd.length) (rsSplit 16 fd)).flatten ++ (List.range (cfg.maxBytesNat - (18 + (16 + ecc.ParityShards) * rsShardSize 16 fd.length))).map padd))).length ≥ FrameHeaderSizeBytes ∧ ¬ magicProbe (((fh.Magic ++ beBytes32 fh.FrameIndex ++ beBytes16 fh.DataSize ++ beBytes32 fh.DataCRC ++ [fh.HasGlobal] ++ [fh.ParityShards] ++ beBytes16 fh.GlobalOffset) ++ ((rsSplit 16 fd ++ rsParityShards ecc.ParityShards (rsShardSize 16 fd.length) (rsSplit 16 fd)).flatten ++ (List.range (cfg.maxBytesNat - (18 + (16 + ecc.ParityShards) * rsShardSize 16 fd.length))).map padd))) = true) from by rw [hprobe]; simp)]
  dsimp only
  rw [hfr2]
  rw [if_neg (show ¬((((fh.Magic ++ beBytes32 fh.FrameIndex ++ beBytes16 fh.DataSize ++ beBytes32 fh.DataCRC ++ [fh.HasGlobal] ++ [fh.ParityShards] ++ beBytes16 fh.GlobalOffset) ++ ((rsSplit 16 fd ++ rsParityShards ecc.ParityShards (rsShardSize 16 fd.length) (rsSplit 16 fd)).flatten ++ (List.range (cfg.maxBytesNat - (18 + (16 + ecc.ParityShards) * rsShardSize 16 fd.length))).map padd))).length < FrameHeaderSizeBytes) from by
    rw [hABlen]
    simp only [FrameHeaderSizeBytes]
    generalize (16 + ecc.ParityShards) * rsShardSize 16 fd.length = X at hfits
    omega)]
  rw [hDH]
  dsimp only
  rw [if_neg (show ¬(magicNCC1 ≠ magicNCC1) from by simp)]
  rw [hL1]
  dsimp only
  rw [hver, if_pos rfl, hfre, hjoin]
  dsimp only
  rw [rsSplit_flatten 16 fd (by norm_num)]

/-- Data-region length of the frame built by NewFrame. -/
theorem newFrame_data_len (ecc : ECCConfig) (i tf : ℕ) (chunk : List UInt8) :
    (NewFrame ecc i chunk tf).2.length =
    if i = 0 then 20 + chunk.length else chunk.length := by
  by_cases hi : i = 0
  · subst hi
    rw [if_pos rfl]
    show ((GlobalHeader.Encode ⟨0, UInt32.ofNat tf, List.replicate 8 0⟩) ++ chunk).length = _
    rw [List.length_append,
      show ((GlobalHeader.Encode ⟨0, UInt32.ofNat tf, List.replicate 8 0⟩)).length = 20 from rfl]
  · rw [if_neg hi]
    simp only [NewFrame]
    rw [if_neg hi]

/-- One-frame round trip through NewFrame, Render and processFrame: the
payload chunk given to the worker is returned by the decoder. -/
theorem processFrame_newFrame (cfg : FrameConfig) (hp : BinaryPresetOK cfg)
    (fr : FrameReconstructor) (hfr : fr.FrameCfg = cfg)
    (hfre : fr.ECCCfg.DataShards = 16)
    (ecc : ECCConfig) (h16 : ecc.DataShards = 16)
    (hm0 : 0 < ecc.ParityShards) (hm256 : ecc.ParityShards < 256)
    (i tf : ℕ) (chunk : List UInt8) (padd stale : ℕ → UInt8)
    (hch1 : i ≠ 0 → 1 ≤ chunk.length)
    (hsz : (NewFrame ecc i chunk tf).2.length < 512)
    (hfits : 18 + (16 + ecc.ParityShards) *
      rsShardSize 16 (NewFrame ecc i chunk tf).2.length ≤ cfg.maxBytesNat) :
    ∃ allBytes,
      RenderBytes cfg ecc (NewFrame ecc i chunk tf).1 (NewFrame ecc i chunk tf).2 padd
        = .ok allBytes ∧
      ∃ hd c, processFrame fr (encodeFrameImage cfg allBytes stale) =
        (fr, .ok (chunk, hd, c)) := by
  by_cases hi : i = 0
  · subst hi
    have hNF : NewFrame ecc 0 chunk tf = ((⟨magicNCC1, UInt32.ofNat 0, UInt16.ofNat ((GlobalHeader.Encode ⟨0, UInt32.ofNat tf, List.replicate 8 0⟩) ++ chunk).length, crc32 ((GlobalHeader.Encode ⟨0, UInt32.ofNat tf, List.replicate 8 0⟩) ++ chunk), 1, UInt8.ofNat ecc.ParityShards, UInt16.ofNat FrameHeaderSizeBytes, ⟨0, 0, List.replicate 8 0⟩⟩ : FrameHeader), ((GlobalHeader.Encode ⟨0, UInt32.ofNat tf, List.replicate 8 0⟩) ++ chunk)) := rfl
    simp only [hNF] at hsz hfits ⊢
    have hGH20 : ((GlobalHeader.Encode ⟨0, UInt32.ofNat tf, List.replicate 8 0⟩)).length = 20 := rfl
    have hfd0len : (((GlobalHeader.Encode ⟨0, UInt32.ofNat tf, List.replicate 8 0⟩) ++ chunk)).length = 20 + chunk.length := by
      rw [List.length_append, hGH20]
    have hfd1 : 1 ≤ (((GlobalHeader.Encode ⟨0, UInt32.ofNat tf, List.replicate 8 0⟩) ++ chunk)).length := by omega
    obtain ⟨AB, hRB, hPF⟩ := processFrame_core cfg hp fr hfr hfre ecc h16 hm0 hm256
      (⟨magicNCC1, UInt32.ofNat 0, UInt16.ofNat ((GlobalHeader.Encode ⟨0, UInt32.ofNat tf, List.replicate 8 0⟩) ++ chunk).length, crc32 ((GlobalHeader.Encode ⟨0, UInt32.ofNat tf, List.replicate 8 0⟩) ++ chunk), 1, UInt8.ofNat ecc.ParityShards, UInt16.ofNat FrameHeaderSizeBytes, ⟨0, 0, List.replicate 8 0⟩⟩ : FrameHeader) ((GlobalHeader.Encode ⟨0, UInt32.ofNat tf, List.replicate 8 0⟩) ++ chunk) padd stale rfl rfl rfl hfd1 hsz hfits
    have hbeu2 : (UInt16.ofNat (((GlobalHeader.Encode ⟨0, UInt32.ofNat tf, List.replicate 8 0⟩) ++ chunk)).length).toNat = (((GlobalHeader.Encode ⟨0, UInt32.ofNat tf, List.replicate 8 0⟩) ++ chunk)).length :=
      (beU16_roundtrip_small ⟨(((GlobalHeader.Encode ⟨0, UInt32.ofNat tf, List.replicate 8 0⟩) ++ chunk)).length, hsz⟩).2
    have hle : (((GlobalHeader.Encode ⟨0, UInt32.ofNat tf, List.replicate 8 0⟩) ++ chunk)).length ≤ 16 * rsShardSize 16 ((GlobalHeader.Encode ⟨0, UInt32.ofNat tf, List.replicate 8 0⟩) ++ chunk).length :=
      le_k_mul_ceil 16 (((GlobalHeader.Encode ⟨0, UInt32.ofNat tf, List.replicate 8 0⟩) ++ chunk)).length (by norm_num)
    have hOUTlen : ((((GlobalHeader.Encode ⟨0, UInt32.ofNat tf, List.replicate 8 0⟩) ++ chunk) ++ List.replicate (16 * rsShardSize 16 ((GlobalHeader.Encode ⟨0, UInt32.ofNat tf, List.replicate 8 0⟩) ++ chunk).length - ((GlobalHeader.Encode ⟨0, UInt32.ofNat tf, List.replicate 8 0⟩) ++ chunk).length) 0)).length = 16 * rsShardSize 16 ((GlobalHeader.Encode ⟨0, UInt32.ofNat tf, List.replicate 8 0⟩) ++ chunk).length := by
      rw [List.length_append, List.length_replicate]
      generalize 16 * rsShardSize 16 ((GlobalHeader.Encode ⟨0, UInt32.ofNat tf, List.replicate 8 0⟩) ++ chunk).length = X at hle ⊢
      omega
    obtain ⟨gh0, hDG⟩ : ∃ gh0, DecodeGlobalHeader (GlobalHeader.Encode ⟨0, UInt32.ofNat tf, List.replicate 8 0⟩) = .ok gh0 := ⟨_, rfl⟩
    refine ⟨AB, hRB, ?_⟩
    rw [hPF]
    simp only [finalizeFrameData]
    split
    · split
      · rename_i h2
        rw [hOUTlen] at h2
        simp only [GlobalHeaderSizeBytes] at h2
        exfalso
        generalize 16 * rsShardSize 16 ((GlobalHeader.Encode ⟨0, UInt32.ofNat tf, List.replicate 8 0⟩) ++ chunk).length = X at hle h2
        omega
      · have hOUT20 : ((((GlobalHeader.Encode ⟨0, UInt32.ofNat tf, List.replicate 8 0⟩) ++ chunk) ++ List.replicate (16 * rsShardSize 16 ((GlobalHeader.Encode ⟨0, UInt32.ofNat tf, List.replicate 8 0⟩) ++ chunk).length - ((GlobalHeader.Encode ⟨0, UInt32.ofNat tf, List.replicate 8 0⟩) ++ chunk).length) 0)).take GlobalHeaderSizeBytes = (GlobalHeader.Encode ⟨0, UInt32.ofNat tf, List.replicate 8 0⟩) := by
          rw [List.append_assoc]
          rw [show GlobalHeaderSizeBytes = ((GlobalHeader.Encode ⟨0, UInt32.ofNat tf, List.replicate 8 0⟩)).length from hGH20.symm]
          exact List.take_left _ _
        rw [hOUT20, hDG]
        rw [hbeu2, hOUTlen, Nat.min_eq_left hle]
        rw [List.take_left]
        rw [show GlobalHeaderSizeBytes = ((GlobalHeader.Encode ⟨0, UInt32.ofNat tf, List.replicate 8 0⟩)).length from hGH20.symm, List.drop_left]
        exact ⟨_, _, rfl⟩
    · rename_i h
      exact absurd ⟨by decide, by decide⟩ h
  · have hNF : NewFrame ecc i chunk tf = ((⟨magicNCC1, UInt32.ofNat i, UInt16.ofNat chunk.length, crc32 chunk, 0, UInt8.ofNat ecc.ParityShards, 0, ⟨0, 0, List.replicate 8 0⟩⟩ : FrameHeader), chunk) := by
      simp only [NewFrame]
      rw [if_neg hi]
    simp only [hNF] at hsz hfits ⊢
    obtain ⟨AB, hRB, hPF⟩ := processFrame_core cfg hp fr hfr hfre ecc h16 hm0 hm256
      (⟨magicNCC1, UInt32.ofNat i, UInt16.ofNat chunk.length, crc32 chunk, 0, UInt8.ofNat ecc.ParityShards, 0, ⟨0, 0, List.replicate 8 0⟩⟩ : FrameHeader) chunk padd stale rfl rfl rfl (hch1 hi) hsz hfits
    have hbeu2 : (UInt16.ofNat chunk.length).toNat = chunk.length :=
      (beU16_roundtrip_small ⟨chunk.length, hsz⟩).2
    have hle : chunk.length ≤ 16 * rsShardSize 16 chunk.length :=
      le_k_mul_ceil 16 chunk.length (by norm_num)
    have hOUTlen : ((chunk ++ List.replicate (16 * rsShardSize 16 chunk.length - chunk.length) 0)).length = 16 * rsShardSize 16 chunk.length := by
      rw [List.length_append, List.length_replicate]
      generalize 16 * rsShardSize 16 chunk.length = X at hle ⊢
      omega
    refine ⟨AB, hRB, ?_⟩
    rw [hPF]
    simp only [finalizeFrameData]
    split
    · rename_i h
      exact absurd h.1 (by decide)
    · rw [hbeu2, hOUTlen, Nat.min_eq_left hle]
      rw [List.take_left]
      exact ⟨_, _, rfl⟩

/-- Transport a positional success relation along a map of the index
list. -/
theorem forall₂_flip_map {α β γ : Type} (R : α → β → Prop) (S : β → γ → Prop)
    (g : α → γ) : ∀ (l : List α) (bs : List β), List.Forall₂ R l bs →
    (∀ a b, a ∈ l → R a b → S b (g a)) →
    List.Forall₂ S bs (l.map g) := by
  intro l bs h
  induction h with
  | nil => intro hstep; exact List.Forall₂.nil
  | @cons a b l2 bs2 hr ht ih =>
    intro hstep
    exact List.Forall₂.cons (hstep a b (by simp) hr)
      (ih (fun x y hx hy => hstep x y (by simp [hx]) hy))

/-- Whole-file round trip on a binary-mode configuration: when the
encoder pipeline produces the frame rasters, sequential reconstruction
with the matching preset returns the original payload exactly. -/
theorem roundtrip_core (cfg : FrameConfig) (hp : BinaryPresetOK cfg)
    (ecc : ECCConfig) (h16 : ecc.DataShards = 16)
    (hm0 : 0 < ecc.ParityShards) (hm256 : ecc.ParityShards < 256)
    (data : List UInt8) (padd stale : ℕ → ℕ → UInt8) (imgs : List Image)
    (hcapN : 0 < (cfg.CapacityPerFrame ecc false).toNat)
    (hsz0 : 20 + (cfg.CapacityPerFrame ecc true).toNat < 512)
    (hszN : (cfg.CapacityPerFrame ecc false).toNat < 512)
    (hfit0 : ∀ L, L ≤ 20 + (cfg.CapacityPerFrame ecc true).toNat →
      18 + (16 + ecc.ParityShards) * rsShardSize 16 L ≤ cfg.maxBytesNat)
    (hfitN : ∀ L, L ≤ (cfg.CapacityPerFrame ecc false).toNat →
      18 + (16 + ecc.ParityShards) * rsShardSize 16 L ≤ cfg.maxBytesNat)
    (henc : encodeFrames cfg ecc data padd stale = .ok imgs) :
    ReconstructFile (⟨cfg, ⟨16, 48⟩⟩ : FrameReconstructor) imgs = .ok data := by
  simp only [encodeFrames] at henc
  have hforall := mapExcept_forall₂ _ _ _ henc
  have hchlen0 : (frameChunk data (cfg.CapacityPerFrame ecc true).toNat (cfg.CapacityPerFrame ecc false).toNat 0).length ≤ (cfg.CapacityPerFrame ecc true).toNat := by
    simp only [frameChunk]
    rw [if_pos trivial, List.length_take]
    exact Nat.min_le_left _ _
  have hchlenN : ∀ i : ℕ, i ≠ 0 → (frameChunk data (cfg.CapacityPerFrame ecc true).toNat (cfg.CapacityPerFrame ecc false).toNat i).length ≤ (cfg.CapacityPerFrame ecc false).toNat := by
    intro i hi0
    rw [frameChunk_tail data (cfg.CapacityPerFrame ecc true).toNat (cfg.CapacityPerFrame ecc false).toNat i (by omega), List.length_take]
    exact Nat.min_le_left _ _
  have hchpos : ∀ i : ℕ, i ≠ 0 → i < totalFramesFor data.length (cfg.CapacityPerFrame ecc true).toNat (cfg.CapacityPerFrame ecc false).toNat → 1 ≤ (frameChunk data (cfg.CapacityPerFrame ecc true).toNat (cfg.CapacityPerFrame ecc false).toNat i).length := by
    intro i hi0 hit
    rw [frameChunk_tail data (cfg.CapacityPerFrame ecc true).toNat (cfg.CapacityPerFrame ecc false).toNat i (by omega)]
    rw [List.length_take, List.length_drop]
    have hrem : (cfg.CapacityPerFrame ecc true).toNat < data.length := by
      by_contra hcon
      have hTF1 : totalFramesFor data.length (cfg.CapacityPerFrame ecc true).toNat (cfg.CapacityPerFrame ecc false).toNat = 1 := by
        simp only [totalFramesFor]
        rw [if_neg (show ¬(data.length > (cfg.CapacityPerFrame ecc true).toNat) from by omega)]
        rw [if_neg (show ¬((0 : ℕ) > 0) from by omega)]
      rw [hTF1] at hit
      omega
    have hceil : i - 1 < (data.length - (cfg.CapacityPerFrame ecc true).toNat + (cfg.CapacityPerFrame ecc false).toNat - 1) / (cfg.CapacityPerFrame ecc false).toNat := by
      have hTFeq : totalFramesFor data.length (cfg.CapacityPerFrame ecc true).toNat (cfg.CapacityPerFrame ecc false).toNat = 1 + (data.length - (cfg.CapacityPerFrame ecc true).toNat + (cfg.CapacityPerFrame ecc false).toNat - 1) / (cfg.CapacityPerFrame ecc false).toNat := by
        simp only [totalFramesFor]
        rw [if_pos (show data.length > (cfg.CapacityPerFrame ecc true).toNat from by omega)]
        rw [if_pos (show data.length - (cfg.CapacityPerFrame ecc true).toNat > 0 from by omega)]
      rw [hTFeq] at hit
      omega
    have hlt := lt_of_lt_ceil (cfg.CapacityPerFrame ecc false).toNat (data.length - (cfg.CapacityPerFrame ecc true).toNat) (i - 1) hcapN (by omega) hceil
    generalize (i - 1) * (cfg.CapacityPerFrame ecc false).toNat = Y at hlt ⊢
    omega
  have hS : List.Forall₂ (fun img pd => ∃ hd c,
      processFrame (⟨cfg, ⟨16, 48⟩⟩ : FrameReconstructor) img = ((⟨cfg, ⟨16, 48⟩⟩ : FrameReconstructor), Except.ok (pd, hd, c))) imgs
      ((List.range (totalFramesFor data.length (cfg.CapacityPerFrame ecc true).toNat (cfg.CapacityPerFrame ecc false).toNat)).map (fun i => frameChunk data (cfg.CapacityPerFrame ecc true).toNat (cfg.CapacityPerFrame ecc false).toNat i)) := by
    apply forall₂_flip_map _ _ _ _ _ hforall
    intro i img hi hR
    have hit : i < totalFramesFor data.length (cfg.CapacityPerFrame ecc true).toNat (cfg.CapacityPerFrame ecc false).toNat := List.mem_range.mp hi
    have hszi : (NewFrame ecc i (frameChunk data (cfg.CapacityPerFrame ecc true).toNat (cfg.CapacityPerFrame ecc false).toNat i) (totalFramesFor data.length (cfg.CapacityPerFrame ecc true).toNat (cfg.CapacityPerFrame ecc false).toNat)).2.length < 512 := by
      rw [newFrame_data_len]
      by_cases hi0 : i = 0
      · rw [if_pos hi0, hi0]
        have := hchlen0
        omega
      · rw [if_neg hi0]
        have := hchlenN i hi0
        omega
    have hfitsi : 18 + (16 + ecc.ParityShards) *
        rsShardSize 16 (NewFrame ecc i (frameChunk data (cfg.CapacityPerFrame ecc true).toNat (cfg.CapacityPerFrame ecc false).toNat i) (totalFramesFor data.length (cfg.CapacityPerFrame ecc true).toNat (cfg.CapacityPerFrame ecc false).toNat)).2.length ≤
        cfg.maxBytesNat := by
      rw [newFrame_data_len]
      by_cases hi0 : i = 0
      · rw [if_pos hi0, hi0]
        exact hfit0 _ (by have := hchlen0; omega)
      · rw [if_neg hi0]
        exact hfitN _ (hchlenN i hi0)
    obtain ⟨AB, hRB, hrest⟩ := processFrame_newFrame cfg hp (⟨cfg, ⟨16, 48⟩⟩ : FrameReconstructor) rfl rfl
      ecc h16 hm0 hm256 i (totalFramesFor data.length (cfg.CapacityPerFrame ecc true).toNat (cfg.CapacityPerFrame ecc false).toNat) (frameChunk data (cfg.CapacityPerFrame ecc true).toNat (cfg.CapacityPerFrame ecc false).toNat i) (padd i) (stale i)
      (fun hne => hchpos i hne hit) hszi hfitsi
    have hR2 : (RenderBytes cfg ecc (NewFrame ecc i (frameChunk data (cfg.CapacityPerFrame ecc true).toNat (cfg.CapacityPerFrame ecc false).toNat i) (totalFramesFor data.length (cfg.CapacityPerFrame ecc true).toNat (cfg.CapacityPerFrame ecc false).toNat)).1
        (NewFrame ecc i (frameChunk data (cfg.CapacityPerFrame ecc true).toNat (cfg.CapacityPerFrame ecc false).toNat i) (totalFramesFor data.length (cfg.CapacityPerFrame ecc true).toNat (cfg.CapacityPerFrame ecc false).toNat)).2 (padd i)).map
        (fun allBytes => encodeFrameImage cfg allBytes (stale i)) = .ok img := hR
    rw [hRB] at hR2
    simp only [Except.map] at hR2
    injection hR2 with h3
    rw [← h3]
    exact hrest
  obtain ⟨res, hfold, hidx, hdata, herr⟩ :=
    reconstruct_fold (⟨cfg, ⟨16, 48⟩⟩ : FrameReconstructor) imgs ((List.range (totalFramesFor data.length (cfg.CapacityPerFrame ecc true).toNat (cfg.CapacityPerFrame ecc false).toNat)).map (fun i => frameChunk data (cfg.CapacityPerFrame ecc true).toNat (cfg.CapacityPerFrame ecc false).toNat i)) hS []
  have hlenimgs : imgs.length = totalFramesFor data.length (cfg.CapacityPerFrame ecc true).toNat (cfg.CapacityPerFrame ecc false).toNat := by
    have h1 := hforall.length_eq
    rw [List.length_range] at h1
    exact h1.symm
  simp only [List.length_nil] at hidx
  rw [hlenimgs] at hidx
  have hTF1 : 1 ≤ totalFramesFor data.length (cfg.CapacityPerFrame ecc true).toNat (cfg.CapacityPerFrame ecc false).toNat := by
    simp only [totalFramesFor]
    split <;> split <;> first
      | exact Nat.le_add_right 1 _
      | exact le_refl 1
  have hflatten : ((List.range (totalFramesFor data.length (cfg.CapacityPerFrame ecc true).toNat (cfg.CapacityPerFrame ecc false).toNat)).map (fun i => frameChunk data (cfg.CapacityPerFrame ecc true).toNat (cfg.CapacityPerFrame ecc false).toNat i)).flatten = data := by
    rw [show totalFramesFor data.length (cfg.CapacityPerFrame ecc true).toNat (cfg.CapacityPerFrame ecc false).toNat = (totalFramesFor data.length (cfg.CapacityPerFrame ecc true).toNat (cfg.CapacityPerFrame ecc false).toNat - 1) + 1 from by omega]
    rw [List.range_succ_eq_map, List.map_cons, List.flatten_cons]
    rw [show frameChunk data (cfg.CapacityPerFrame ecc true).toNat (cfg.CapacityPerFrame ecc false).toNat 0 = data.take (cfg.CapacityPerFrame ecc true).toNat from by simp only [frameChunk]; rw [if_pos trivial]]
    rw [List.map_map]
    have hcongr : ∀ j ∈ List.range ((totalFramesFor data.length (cfg.CapacityPerFrame ecc true).toNat (cfg.CapacityPerFrame ecc false).toNat) - 1),
        ((fun i => frameChunk data (cfg.CapacityPerFrame ecc true).toNat (cfg.CapacityPerFrame ecc false).toNat i) ∘ Nat.succ) j = frameChunk data (cfg.CapacityPerFrame ecc true).toNat (cfg.CapacityPerFrame ecc false).toNat (j + 1) := by
      intro j hj
      rfl
    rw [List.map_congr_left hcongr]
    exact chunks_reassemble data (cfg.CapacityPerFrame ecc true).toNat (cfg.CapacityPerFrame ecc false).toNat hcapN
  rw [reconstructFile_eq, hfold]
  show assembleData ([] ++ res) imgs.length = .ok data
  simp only [List.nil_append]
  rw [hlenimgs]
  simp only [assembleData]
  rw [show res.find? (fun r => r.err.isSome) = none from
    List.find?_eq_none.mpr (fun r hr => by rw [herr r hr]; simp)]
  rw [List.range_eq_range']
  rw [assemble_range (totalFramesFor data.length (cfg.CapacityPerFrame ecc true).toNat (cfg.CapacityPerFrame ecc false).toNat) res 0 hidx]
  simp only [Except.map]
  rw [hdata, hflatten]

/-- Shard-size bound transport: monotonicity of the ceiling division. -/
theorem fit_of_bounds (m L B maxB : ℕ) (hL : L ≤ B)
    (harith : 18 + (16 + m) * rsShardSize 16 B ≤ maxB) :
    18 + (16 + m) * rsShardSize 16 L ≤ maxB := by
  have hmono : rsShardSize 16 L ≤ rsShardSize 16 B := by
    simp only [rsShardSize]
    omega
  calc 18 + (16 + m) * rsShardSize 16 L
      ≤ 18 + (16 + m) * rsShardSize 16 B :=
        Nat.add_le_add_left (Nat.mul_le_mul_left _ hmono) 18
    _ ≤ maxB := harith

/-- End-to-end round trip for every binary preset (default, youtube and
every unknown preset string) at every redundancy level: the frame rasters
produced by the encoder pipeline reconstruct to exactly the original
payload.  The dense preset is excluded: its calibration thresholds depend
on the payload content. -/
theorem roundtrip_binary_presets (preset level : String)
    (hpre : preset ≠ ("dense"))
    (data : List UInt8) (padd stale : ℕ → ℕ → UInt8) (imgs : List Image)
    (henc : encodeFrames (encPresetConfig preset) (NewECCConfig level) data
      padd stale = .ok imgs) :
    ReconstructFile (NewFrameReconstructor preset) imgs = .ok data := by
  have hNR : NewFrameReconstructor preset =
      ⟨encPresetConfig preset, ⟨16, 48⟩⟩ := rfl
  rw [hNR]
  have hcfg : encPresetConfig preset = YouTubeFrameConfig ∨
      encPresetConfig preset = DefaultFrameConfig := by
    simp only [encPresetConfig]
    by_cases hy : preset = ("youtube")
    · rw [if_pos hy]
      exact Or.inl rfl
    · rw [if_neg hy, if_neg hpre]
      exact Or.inr rfl
  have hecc : NewECCConfig level = ⟨16, 4⟩ ∨ NewECCConfig level = ⟨16, 8⟩ ∨
      NewECCConfig level = ⟨16, 32⟩ := by
    simp only [NewECCConfig]
    by_cases h1 : level = ("low")
    · rw [if_pos h1]
      exact Or.inl rfl
    · rw [if_neg h1]
      by_cases h2 : level = ("high")
      · rw [if_pos h2]
        exact Or.inr (Or.inr rfl)
      · rw [if_neg h2]
        exact Or.inr (Or.inl rfl)
  rcases hcfg with hc | hc <;> rcases hecc with he | he | he <;>
    rw [hc, he] at henc <;> rw [hc] <;>
    exact roundtrip_core _ (by unfold BinaryPresetOK; decide) _ rfl (by decide)
      (by decide)
      data padd stale imgs (by decide) (by decide) (by decide)
      (fun L hL => fit_of_bounds _ L _ _ hL (by decide))
      (fun L hL => fit_of_bounds _ L _ _ hL (by decide)) henc

end NCC
